import Mathlib

/-!
# RAII-guard: `HandleGuard`, `SharedPtr`, `WeakPtr`

A shallow embedding of `src/YourImplementation.h`.

C++ objects have identity (`this != &rhs`), so every object lives in a store:
an object's address is its index in a list, in order of construction, and a
slot becomes `none` when the object's lifetime ends.  Member functions are
functions on the store that take the addresses of `this` and of their
reference arguments.  A result of `none` means the C++ program has no defined
behaviour at that point (an object used outside its lifetime, or a count cell
read after `delete`).

The count cells (`long*`) live in a heap; address `0` is `nullptr`.  The
operations allocate a cell at an address that was never used before, and a
read through a pointer to a deleted cell is not defined; `SharedPtr.ctorReusing`
is the constructor on an allocator that hands a freed address out again.
The pointee heap is not modelled: `delete ptr_` is recorded as an event.  This is
the behaviour for a pointee whose destructor touches no `SharedPtr`, no `WeakPtr`
and no count cell, such as the `int` of `homework.cpp`; `SharedPtr.ClearWith` and
`SharedPtr.assignWith` take the destructor of the pointee as a parameter.
`long` arithmetic is modelled on `Int` without overflow: overflowing a `long` needs 2^31 simultaneously live owners of one
cell and is undefined in C++.  An object returned by value (`CreateFileGuard`,
`WeakPtr::Lock`) is constructed directly in the caller's storage.
-/

namespace RAIIGuard

/-! ## Part 1: `HandleGuard` -/

/-- The Win32 `HANDLE` type: an opaque resource identifier. -/
abbrev HANDLE := Int

/-- Modelled from the spec: the "distinguished invalid sentinel value" of the handle type,
`INVALID_HANDLE_VALUE`, which `windows.h` declares (as `(HANDLE)-1`) and `src/` does not. -/
def INVALID_HANDLE_VALUE : HANDLE := -1

/-- The data member of `class HandleGuard`. -/
structure HandleGuard where
  handle_ : HANDLE
deriving DecidableEq, Repr

/-- The guard objects of a program run and the calls made to the release primitive.
`guards[a]` is the guard at address `a` (`none` once its lifetime has ended);
`closed` lists the arguments of the `CloseHandle` calls, oldest first. -/
structure GuardWorld where
  guards : List (Option HandleGuard)
  closed : List HANDLE
deriving DecidableEq, Repr

namespace GuardWorld

/-- The world before any guard exists. -/
def empty : GuardWorld := { guards := [], closed := [] }

/-- The live guard at address `a`. -/
def guardAt (w : GuardWorld) (a : Nat) : Option HandleGuard := (w.guards[a]?).join

/-- Overwrite the member of the guard at address `a`. -/
def setHandle (w : GuardWorld) (a : Nat) (h : HANDLE) : GuardWorld :=
  { w with guards := w.guards.set a (some { handle_ := h }) }

/-- The release primitive `CloseHandle(h)`: the call is recorded. -/
def CloseHandle (w : GuardWorld) (h : HANDLE) : GuardWorld :=
  { w with closed := w.closed ++ [h] }

/-- Storage for a new guard object, which gets the next address. -/
def newGuard (w : GuardWorld) (h : HANDLE) : Nat × GuardWorld :=
  (w.guards.length, { w with guards := w.guards ++ [some { handle_ := h }] })

/-- End of the lifetime of the object at address `a`. -/
def endLifetime (w : GuardWorld) (a : Nat) : GuardWorld :=
  { w with guards := w.guards.set a none }

/-- How many times `CloseHandle` has been called on `h`. -/
def released (w : GuardWorld) (h : HANDLE) : Nat := w.closed.countP (fun x => decide (x = h))

/-- How many live guards hold `h`. -/
def owners (w : GuardWorld) (h : HANDLE) : Nat :=
  w.guards.countP (fun o => decide (o = some { handle_ := h }))

/-- No guard object is alive. -/
def allDestroyed (w : GuardWorld) : Prop := ∀ o ∈ w.guards, o = none

instance (w : GuardWorld) : Decidable w.allDestroyed := by
  unfold allDestroyed
  infer_instance

/-- A sample world: a guard holding handle 7, a guard holding the sentinel, and one earlier
release of handle 3. -/
def sample : GuardWorld :=
  { guards := [some { handle_ := 7 }, some { handle_ := INVALID_HANDLE_VALUE }], closed := [3] }

end GuardWorld

namespace HandleGuard

/-- The constructor `explicit HandleGuard(HANDLE handle) : handle_(handle) {}`. -/
def ctor (w : GuardWorld) (handle : HANDLE) : Nat × GuardWorld :=
  w.newGuard handle

/-- The move constructor `HandleGuard(HandleGuard&& other) : handle_(other.handle_)
{ other.handle_ = INVALID_HANDLE_VALUE; }`. -/
def moveCtor (w : GuardWorld) (other : Nat) : Option (Nat × GuardWorld) :=
  match w.guardAt other with
  | none => none
  | some o =>
    let (this, w1) := w.newGuard o.handle_
    some (this, w1.setHandle other INVALID_HANDLE_VALUE)

/-- The move assignment `HandleGuard& operator=(HandleGuard&& other)`:
```
if (this != &other) {
    if (handle_ != INVALID_HANDLE_VALUE) { CloseHandle(handle_); }
    handle_ = other.handle_;
    other.handle_ = INVALID_HANDLE_VALUE;
}
``` -/
def moveAssign (w : GuardWorld) (this other : Nat) : Option GuardWorld :=
  match w.guardAt this, w.guardAt other with
  | some t, some o =>
    if this ≠ other then
      let w1 := if t.handle_ ≠ INVALID_HANDLE_VALUE then w.CloseHandle t.handle_ else w
      let w2 := w1.setHandle this o.handle_
      some (w2.setHandle other INVALID_HANDLE_VALUE)
    else some w
  | _, _ => none

/-- The body of `~HandleGuard()`:
`if (handle_ != INVALID_HANDLE_VALUE) { CloseHandle(handle_); }`.
The member `handle_` is not written. -/
def dtor (w : GuardWorld) (this : Nat) : Option GuardWorld :=
  match w.guardAt this with
  | none => none
  | some t =>
    if t.handle_ ≠ INVALID_HANDLE_VALUE then some (w.CloseHandle t.handle_) else some w

/-- Destruction of the guard at `this`: the destructor body runs, then the lifetime ends. -/
def destroy (w : GuardWorld) (this : Nat) : Option GuardWorld :=
  (dtor w this).map (fun w1 => w1.endLifetime this)

/-- The accessor `HANDLE Get() const { return handle_; }`. -/
def Get (w : GuardWorld) (this : Nat) : Option HANDLE :=
  (w.guardAt this).map (fun t => t.handle_)

end HandleGuard

/-- The factory `HandleGuard CreateFileGuard()`, with the result `fileHandle` of the external
acquisition call `CreateFile(...)` as a parameter:
```
if (fileHandle != INVALID_HANDLE_VALUE) { return HandleGuard(fileHandle); }
return HandleGuard(INVALID_HANDLE_VALUE);
```
The returned guard is constructed in the caller's storage. -/
def CreateFileGuard (w : GuardWorld) (fileHandle : HANDLE) : Nat × GuardWorld :=
  if fileHandle ≠ INVALID_HANDLE_VALUE then HandleGuard.ctor w fileHandle
  else HandleGuard.ctor w INVALID_HANDLE_VALUE

/-- The operations a program performs on guards. -/
inductive GuardOp where
  | construct (handle : HANDLE)
  | moveConstruct (other : Nat)
  | moveAssign (this other : Nat)
  | destroy (this : Nat)
deriving DecidableEq, Repr

namespace GuardWorld

/-- One operation. -/
def step (w : GuardWorld) : GuardOp → Option GuardWorld
  | .construct h => some (HandleGuard.ctor w h).2
  | .moveConstruct other => (HandleGuard.moveCtor w other).map (fun r => r.2)
  | .moveAssign this other => HandleGuard.moveAssign w this other
  | .destroy this => HandleGuard.destroy w this

/-- A sequence of operations, left to right. -/
def run (w : GuardWorld) : List GuardOp → Option GuardWorld
  | [] => some w
  | op :: ops => (w.step op).bind (fun w1 => run w1 ops)

end GuardWorld

/-! ## Part 2: `SharedPtr` and `WeakPtr` -/

/-! An address of a pointee (`Resource*`) or of a count cell (`long*`) is a `Nat`, and `0` is
`nullptr`.  A value of the C++ type `long` is an `Int`. -/

/-- What a member function does to the free store, in program order. -/
inductive HeapEvent where
  /-- The allocation `new long(1)` returned address `a`. -/
  | newCount (a : Nat)
  /-- The increment `++(*ref_count_)` of the cell at `a`. -/
  | incr (a : Nat)
  /-- The decrement `--(*ref_count_)` of the cell at `a`. -/
  | decr (a : Nat)
  /-- The statement `delete ptr_` ran with `ptr_ == p`. -/
  | deleteRes (p : Nat)
  /-- The statement `delete ref_count_` ran with `ref_count_ == a`. -/
  | deleteCount (a : Nat)
deriving DecidableEq, Repr

/-- The data members of `class SharedPtr<Resource>`. -/
structure SharedPtr where
  ptr_ : Nat
  ref_count_ : Nat
deriving DecidableEq, Repr

/-- The data members of `class WeakPtr<Resource>`. -/
structure WeakPtr where
  ptr_ : Nat
  ref_count_ : Nat
deriving DecidableEq, Repr

/-- The number of live objects in a `SharedPtr` store whose `ref_count_` is the address `a`. -/
def sharersIn (l : List (Option SharedPtr)) (a : Nat) : Nat :=
  l.countP (fun o => decide (o.map SharedPtr.ref_count_ = some a))

/-- The state of a program that uses `SharedPtr` and `WeakPtr`.
The count cell at address `a ≠ 0` is `counts[a - 1]`; it is `none` once deleted, and an
address beyond the list has not been allocated.  `events` records the heap events, oldest
first.  `shared[i]` and `weak[i]` are the objects at address `i` of either class (`none`
once the object's lifetime has ended). -/
structure World where
  counts : List (Option Int)
  events : List HeapEvent
  shared : List (Option SharedPtr)
  weak : List (Option WeakPtr)
deriving DecidableEq, Repr

namespace World

/-- The state before any object exists. -/
def empty : World := { counts := [], events := [], shared := [], weak := [] }

/-- The cell at address `a` of a list of count cells: `none` for `nullptr`, for a deleted
cell and for an address not allocated. -/
def cellAt (cs : List (Option Int)) (a : Nat) : Option Int :=
  if a = 0 then none else (cs[a - 1]?).join

/-- Reading `*a`: defined only for an allocated, undeleted cell. -/
def deref (w : World) (a : Nat) : Option Int := cellAt w.counts a

/-- Writing `*a = v`. -/
def store (w : World) (a : Nat) (v : Int) : World :=
  { w with counts := w.counts.set (a - 1) (some v) }

/-- The allocation `new long(v)`: a new cell at the next address. -/
def newLong (w : World) (v : Int) : Nat × World :=
  (w.counts.length + 1,
    { w with counts := w.counts ++ [some v],
             events := w.events ++ [HeapEvent.newCount (w.counts.length + 1)] })

/-- The pre-increment `++(*a)`; the result is the new value. -/
def incr (w : World) (a : Nat) : Option (Int × World) :=
  match w.deref a with
  | none => none
  | some c =>
    some (c + 1, { w.store a (c + 1) with events := w.events ++ [HeapEvent.incr a] })

/-- The pre-decrement `--(*a)`; the result is the new value. -/
def decr (w : World) (a : Nat) : Option (Int × World) :=
  match w.deref a with
  | none => none
  | some c =>
    some (c - 1, { w.store a (c - 1) with events := w.events ++ [HeapEvent.decr a] })

/-- The statement `delete ptr_`: the pointee heap is not modelled further, the call is
recorded. -/
def deleteRes (w : World) (p : Nat) : World :=
  { w with events := w.events ++ [HeapEvent.deleteRes p] }

/-- The statement `delete ref_count_` on a non-null pointer: defined only for an allocated,
undeleted cell, which it frees. -/
def deleteCount (w : World) (a : Nat) : Option World :=
  match w.deref a with
  | none => none
  | some _ =>
    some { w with counts := w.counts.set (a - 1) none,
                  events := w.events ++ [HeapEvent.deleteCount a] }

/-- The live `SharedPtr` at address `i`. -/
def sharedAt (w : World) (i : Nat) : Option SharedPtr := (w.shared[i]?).join

/-- The live `WeakPtr` at address `i`. -/
def weakAt (w : World) (i : Nat) : Option WeakPtr := (w.weak[i]?).join

/-- Overwrite the members of the `SharedPtr` at address `i`. -/
def setShared (w : World) (i : Nat) (s : SharedPtr) : World :=
  { w with shared := w.shared.set i (some s) }

/-- Overwrite the members of the `WeakPtr` at address `i`. -/
def setWeak (w : World) (i : Nat) (x : WeakPtr) : World :=
  { w with weak := w.weak.set i (some x) }

/-- Storage for a new `SharedPtr` object, which gets the next address. -/
def newShared (w : World) (s : SharedPtr) : Nat × World :=
  (w.shared.length, { w with shared := w.shared ++ [some s] })

/-- Storage for a new `WeakPtr` object, which gets the next address. -/
def newWeak (w : World) (x : WeakPtr) : Nat × World :=
  (w.weak.length, { w with weak := w.weak ++ [some x] })

/-- End of the lifetime of the `SharedPtr` at address `i`. -/
def endShared (w : World) (i : Nat) : World :=
  { w with shared := w.shared.set i none }

/-- End of the lifetime of the `WeakPtr` at address `i`. -/
def endWeak (w : World) (i : Nat) : World :=
  { w with weak := w.weak.set i none }

/-- A sample state: two `SharedPtr` objects own pointee 24 through the count cell at
address 1, a third is empty, and a `WeakPtr` observes the cell. -/
def sampleTwoOwners : World :=
  { counts := [some 2]
    events := [HeapEvent.newCount 1, HeapEvent.incr 1]
    shared := [some { ptr_ := 24, ref_count_ := 1 }, some { ptr_ := 24, ref_count_ := 1 },
      some { ptr_ := 0, ref_count_ := 0 }]
    weak := [some { ptr_ := 24, ref_count_ := 1 }] }

/-- A sample state, reached by `SharedPtr a(p24); SharedPtr b(a); b.Reset();`: one owner of
pointee 24 through the cell at address 1, and one empty `SharedPtr`. -/
def sampleAfterReset : World :=
  { counts := [some 1]
    events := [HeapEvent.newCount 1, HeapEvent.incr 1, HeapEvent.decr 1]
    shared := [some { ptr_ := 24, ref_count_ := 1 }, some { ptr_ := 0, ref_count_ := 0 }]
    weak := [] }

/-- A sample state, reached by
`SharedPtr s1(p24); WeakPtr w(s1); SharedPtr s2(s1); s1.Reset(); s2.Reset();`: the block has
been freed and the `WeakPtr` still points to it. -/
def sampleExpired : World :=
  { counts := [none]
    events := [HeapEvent.newCount 1, HeapEvent.incr 1, HeapEvent.decr 1, HeapEvent.decr 1,
      HeapEvent.deleteRes 24, HeapEvent.deleteCount 1]
    shared := [some { ptr_ := 0, ref_count_ := 0 }, some { ptr_ := 0, ref_count_ := 0 }]
    weak := [some { ptr_ := 24, ref_count_ := 1 }] }

/-- The number of live `SharedPtr` objects whose `ref_count_` is the address `a`. -/
def sharers (w : World) (a : Nat) : Nat := sharersIn w.shared a

end World

namespace SharedPtr

/-- The private member `void Clear()`:
```
if (ref_count_ && --(*ref_count_) == 0) { delete ptr_; delete ref_count_; }
``` -/
def Clear (w : World) (this : Nat) : Option World :=
  match w.sharedAt this with
  | none => none
  | some t =>
    if t.ref_count_ ≠ 0 then
      match w.decr t.ref_count_ with
      | none => none
      | some (c, w1) =>
        if c = 0 then (w1.deleteRes t.ptr_).deleteCount t.ref_count_ else some w1
    else some w

/-- The default constructor `SharedPtr() : ptr_(nullptr), ref_count_(nullptr) {}`. -/
def ctorDefault (w : World) : Nat × World :=
  w.newShared { ptr_ := 0, ref_count_ := 0 }

/-- The constructor `explicit SharedPtr(Resource* res) : ptr_(res), ref_count_(new long(1)) {}`. -/
def ctor (w : World) (res : Nat) : Nat × World :=
  let (a, w1) := w.newLong 1
  w1.newShared { ptr_ := res, ref_count_ := a }

/-- The copy constructor
`SharedPtr(const SharedPtr& rhs) : ptr_(rhs.ptr_), ref_count_(rhs.ref_count_)
{ if (ref_count_) { ++(*ref_count_); } }`. -/
def copyCtor (w : World) (rhs : Nat) : Option (Nat × World) :=
  match w.sharedAt rhs with
  | none => none
  | some r =>
    let (this, w1) := w.newShared { ptr_ := r.ptr_, ref_count_ := r.ref_count_ }
    if r.ref_count_ ≠ 0 then
      match w1.incr r.ref_count_ with
      | none => none
      | some (_, w2) => some (this, w2)
    else some (this, w1)

/-- The copy assignment `SharedPtr& operator=(const SharedPtr& rhs)`:
```
if (this != &rhs) {
    Clear();
    ptr_ = rhs.ptr_;
    ref_count_ = rhs.ref_count_;
    if (ref_count_) { ++(*ref_count_); }
}
``` -/
def assign (w : World) (this rhs : Nat) : Option World :=
  match w.sharedAt this, w.sharedAt rhs with
  | some _, some r =>
    if this ≠ rhs then
      match Clear w this with
      | none => none
      | some w1 =>
        let w2 := w1.setShared this { ptr_ := r.ptr_, ref_count_ := r.ref_count_ }
        if r.ref_count_ ≠ 0 then
          match w2.incr r.ref_count_ with
          | none => none
          | some (_, w3) => some w3
        else some w2
    else some w
  | _, _ => none

/-- The destructor `~SharedPtr() { Clear(); }`, after which the object's lifetime ends. -/
def destroy (w : World) (this : Nat) : Option World :=
  (Clear w this).map (fun w1 => w1.endShared this)

/-- The member `void Reset() { Clear(); ptr_ = nullptr; ref_count_ = nullptr; }`. -/
def Reset (w : World) (this : Nat) : Option World :=
  (Clear w this).map (fun w1 => w1.setShared this { ptr_ := 0, ref_count_ := 0 })

/-- The member
`void Reset(Resource* res) { Clear(); ptr_ = res; ref_count_ = new long(1); }`. -/
def ResetTo (w : World) (this : Nat) (res : Nat) : Option World :=
  match Clear w this with
  | none => none
  | some w1 =>
    let (a, w2) := w1.newLong 1
    some (w2.setShared this { ptr_ := res, ref_count_ := a })

/-- The member `void Swap(SharedPtr& rhs)`:
`std::swap(ptr_, rhs.ptr_); std::swap(ref_count_, rhs.ref_count_);`. -/
def Swap (w : World) (this rhs : Nat) : Option World :=
  match w.sharedAt this, w.sharedAt rhs with
  | some t, some r =>
    let w1 := w.setShared this { ptr_ := r.ptr_, ref_count_ := r.ref_count_ }
    some (w1.setShared rhs { ptr_ := t.ptr_, ref_count_ := t.ref_count_ })
  | _, _ => none

/-- The accessor `Resource* Get() const { return ptr_; }`. -/
def Get (w : World) (this : Nat) : Option Nat :=
  (w.sharedAt this).map (fun t => t.ptr_)

/-- The accessor `long UseCount() const { return ref_count_ ? *ref_count_ : 0; }`. -/
def UseCount (w : World) (this : Nat) : Option Int :=
  match w.sharedAt this with
  | none => none
  | some t => if t.ref_count_ ≠ 0 then w.deref t.ref_count_ else some 0

end SharedPtr

namespace WeakPtr

/-- The default constructor `WeakPtr() : ptr_(nullptr), ref_count_(nullptr) {}`. -/
def ctorDefault (w : World) : Nat × World :=
  w.newWeak { ptr_ := 0, ref_count_ := 0 }

/-- The copy constructor
`WeakPtr(const WeakPtr& rhs) : ptr_(rhs.ptr_), ref_count_(rhs.ref_count_) {}`. -/
def copyCtor (w : World) (rhs : Nat) : Option (Nat × World) :=
  (w.weakAt rhs).map (fun r => w.newWeak { ptr_ := r.ptr_, ref_count_ := r.ref_count_ })

/-- The converting constructor
`WeakPtr(const SharedPtr& rhs) : ptr_(rhs.ptr_), ref_count_(rhs.ref_count_) {}`. -/
def ctorShared (w : World) (rhs : Nat) : Option (Nat × World) :=
  (w.sharedAt rhs).map (fun r => w.newWeak { ptr_ := r.ptr_, ref_count_ := r.ref_count_ })

/-- The copy assignment `WeakPtr& operator=(const WeakPtr& rhs)`:
`if (this != &rhs) { ptr_ = rhs.ptr_; ref_count_ = rhs.ref_count_; }`. -/
def assign (w : World) (this rhs : Nat) : Option World :=
  match w.weakAt this, w.weakAt rhs with
  | some _, some r =>
    if this ≠ rhs then some (w.setWeak this { ptr_ := r.ptr_, ref_count_ := r.ref_count_ })
    else some w
  | _, _ => none

/-- The assignment `WeakPtr& operator=(const SharedPtr& rhs)`:
`ptr_ = rhs.ptr_; ref_count_ = rhs.ref_count_;`. -/
def assignShared (w : World) (this rhs : Nat) : Option World :=
  match w.weakAt this, w.sharedAt rhs with
  | some _, some r => some (w.setWeak this { ptr_ := r.ptr_, ref_count_ := r.ref_count_ })
  | _, _ => none

/-- The destructor `~WeakPtr() {}`, after which the object's lifetime ends. -/
def destroy (w : World) (this : Nat) : Option World :=
  (w.weakAt this).map (fun _ => w.endWeak this)

/-- The member `void Reset() { ptr_ = nullptr; ref_count_ = nullptr; }`. -/
def Reset (w : World) (this : Nat) : Option World :=
  (w.weakAt this).map (fun _ => w.setWeak this { ptr_ := 0, ref_count_ := 0 })

/-- The member `void Swap(WeakPtr& rhs)`:
`std::swap(ptr_, rhs.ptr_); std::swap(ref_count_, rhs.ref_count_);`. -/
def Swap (w : World) (this rhs : Nat) : Option World :=
  match w.weakAt this, w.weakAt rhs with
  | some t, some r =>
    let w1 := w.setWeak this { ptr_ := r.ptr_, ref_count_ := r.ref_count_ }
    some (w1.setWeak rhs { ptr_ := t.ptr_, ref_count_ := t.ref_count_ })
  | _, _ => none

/-- The accessor `long UseCount() const { return ref_count_ ? *ref_count_ : 0; }`. -/
def UseCount (w : World) (this : Nat) : Option Int :=
  match w.weakAt this with
  | none => none
  | some t => if t.ref_count_ ≠ 0 then w.deref t.ref_count_ else some 0

/-- The accessor `bool Expired() const { return UseCount() == 0; }`. -/
def Expired (w : World) (this : Nat) : Option Bool :=
  (UseCount w this).map (fun c => decide (c = 0))

end WeakPtr

/-- The converting constructor `SharedPtr(const WeakPtr& rhs)`:
```
if (!rhs.Expired()) { ptr_ = rhs.ptr_; ref_count_ = rhs.ref_count_; ++(*ref_count_); }
else { ptr_ = nullptr; ref_count_ = nullptr; }
``` -/
def SharedPtr.ctorWeak (w : World) (rhs : Nat) : Option (Nat × World) :=
  match w.weakAt rhs, WeakPtr.Expired w rhs with
  | some r, some e =>
    if !e then
      let (this, w1) := w.newShared { ptr_ := r.ptr_, ref_count_ := r.ref_count_ }
      match w1.incr r.ref_count_ with
      | none => none
      | some (_, w2) => some (this, w2)
    else some (w.newShared { ptr_ := 0, ref_count_ := 0 })
  | _, _ => none

/-- The member `SharedPtr<Resource> Lock() const`:
`return Expired() ? SharedPtr<Resource>() : SharedPtr<Resource>(*this);`
The returned object is constructed in the caller's storage. -/
def WeakPtr.Lock (w : World) (this : Nat) : Option (Nat × World) :=
  match WeakPtr.Expired w this with
  | none => none
  | some e => if e then some (SharedPtr.ctorDefault w) else SharedPtr.ctorWeak w this

/-- The public operations of the two classes, as a program performs them. -/
inductive Op where
  | sharedDefault
  | sharedFromRaw (res : Nat)
  | sharedCopy (rhs : Nat)
  | sharedFromWeak (rhs : Nat)
  | sharedAssign (this rhs : Nat)
  | sharedDestroy (this : Nat)
  | sharedReset (this : Nat)
  | sharedResetTo (this : Nat) (res : Nat)
  | sharedSwap (this rhs : Nat)
  | weakDefault
  | weakCopy (rhs : Nat)
  | weakFromShared (rhs : Nat)
  | weakAssign (this rhs : Nat)
  | weakAssignShared (this rhs : Nat)
  | weakDestroy (this : Nat)
  | weakReset (this : Nat)
  | weakSwap (this rhs : Nat)
  | weakLock (this : Nat)
deriving DecidableEq, Repr

namespace Op

/-- The `SharedPtr` operations that copy, reset and destroy owners: construction from a raw
pointer, copy construction, copy assignment, `Reset()`, `Reset(res)` and destruction. -/
def isOwnerOp : Op → Bool
  | sharedFromRaw _ => true
  | sharedCopy _ => true
  | sharedAssign _ _ => true
  | sharedDestroy _ => true
  | sharedReset _ => true
  | sharedResetTo _ _ => true
  | _ => false

/-- The objects an operation names are alive. -/
def objectsLive (w : World) : Op → Bool
  | sharedDefault => true
  | sharedFromRaw _ => true
  | sharedCopy rhs => (w.sharedAt rhs).isSome
  | sharedFromWeak rhs => (w.weakAt rhs).isSome
  | sharedAssign this rhs => (w.sharedAt this).isSome && (w.sharedAt rhs).isSome
  | sharedDestroy this => (w.sharedAt this).isSome
  | sharedReset this => (w.sharedAt this).isSome
  | sharedResetTo this _ => (w.sharedAt this).isSome
  | sharedSwap this rhs => (w.sharedAt this).isSome && (w.sharedAt rhs).isSome
  | weakDefault => true
  | weakCopy rhs => (w.weakAt rhs).isSome
  | weakFromShared rhs => (w.sharedAt rhs).isSome
  | weakAssign this rhs => (w.weakAt this).isSome && (w.weakAt rhs).isSome
  | weakAssignShared this rhs => (w.weakAt this).isSome && (w.sharedAt rhs).isSome
  | weakDestroy this => (w.weakAt this).isSome
  | weakReset this => (w.weakAt this).isSome
  | weakSwap this rhs => (w.weakAt this).isSome && (w.weakAt rhs).isSome
  | weakLock this => (w.weakAt this).isSome

end Op

namespace World

/-- One operation. -/
def step (w : World) : Op → Option World
  | .sharedDefault => some (SharedPtr.ctorDefault w).2
  | .sharedFromRaw res => some (SharedPtr.ctor w res).2
  | .sharedCopy rhs => (SharedPtr.copyCtor w rhs).map (fun r => r.2)
  | .sharedFromWeak rhs => (SharedPtr.ctorWeak w rhs).map (fun r => r.2)
  | .sharedAssign this rhs => SharedPtr.assign w this rhs
  | .sharedDestroy this => SharedPtr.destroy w this
  | .sharedReset this => SharedPtr.Reset w this
  | .sharedResetTo this res => SharedPtr.ResetTo w this res
  | .sharedSwap this rhs => SharedPtr.Swap w this rhs
  | .weakDefault => some (WeakPtr.ctorDefault w).2
  | .weakCopy rhs => (WeakPtr.copyCtor w rhs).map (fun r => r.2)
  | .weakFromShared rhs => (WeakPtr.ctorShared w rhs).map (fun r => r.2)
  | .weakAssign this rhs => WeakPtr.assign w this rhs
  | .weakAssignShared this rhs => WeakPtr.assignShared w this rhs
  | .weakDestroy this => WeakPtr.destroy w this
  | .weakReset this => WeakPtr.Reset w this
  | .weakSwap this rhs => WeakPtr.Swap w this rhs
  | .weakLock this => (WeakPtr.Lock w this).map (fun r => r.2)

/-- A sequence of operations, left to right. -/
def run (w : World) : List Op → Option World
  | [] => some w
  | op :: ops => (w.step op).bind (fun w1 => run w1 ops)

end World

/-- The `WeakPtr` operations other than `Lock`: construction, assignment, `Reset`, `Swap` and
destruction. -/
def Op.isWeakObserverOp : Op → Bool
  | .weakDefault => true
  | .weakCopy _ => true
  | .weakFromShared _ => true
  | .weakAssign _ _ => true
  | .weakAssignShared _ _ => true
  | .weakDestroy _ => true
  | .weakReset _ => true
  | .weakSwap _ _ => true
  | _ => false

/-! ## Part 3: the three socket deleters -/

/-- The Winsock type `SOCKET`, an unsigned integer. -/
abbrev SOCKET := Nat

/-- Modelled from the spec: the "invalid socket" sentinel `INVALID_SOCKET`, which
`WinSock2.h` declares (as `(SOCKET)(~0)`) and `src/` does not. -/
def INVALID_SOCKET : SOCKET := 2 ^ 64 - 1

/-- What a deleter does to the outside world. -/
inductive SocketEvent where
  /-- The call `closesocket(s)`. -/
  | closesocket (s : SOCKET)
  /-- The statement `delete sock` with `sock` equal to the address `a`. -/
  | deleteSock (a : Nat)
deriving DecidableEq, Repr

/-- The `SOCKET` objects made by `new SOCKET(...)` and the calls made so far.  The object at
address `a ≠ 0` is `storage[a - 1]`, `none` once deleted; address `0` is the null pointer. -/
structure SocketWorld where
  storage : List (Option SOCKET)
  calls : List SocketEvent
deriving DecidableEq, Repr

namespace SocketWorld

/-- Reading `*sock`: defined only for an allocated, undeleted object. -/
def deref (w : SocketWorld) (sock : Nat) : Option SOCKET :=
  if sock = 0 then none else (w.storage[sock - 1]?).join

/-- The call `closesocket(s)`: the call is recorded. -/
def closesocket (w : SocketWorld) (s : SOCKET) : SocketWorld :=
  { w with calls := w.calls ++ [SocketEvent.closesocket s] }

/-- The statement `delete sock` on a non-null pointer: the object is freed and the statement
recorded. -/
def deleteSock (w : SocketWorld) (sock : Nat) : SocketWorld :=
  { storage := w.storage.set (sock - 1) none
    calls := w.calls ++ [SocketEvent.deleteSock sock] }

/-- A sample world: a valid socket 7 at address 1 and `INVALID_SOCKET` at address 2. -/
def sample : SocketWorld :=
  { storage := [some 7, some INVALID_SOCKET]
    calls := [] }

end SocketWorld

/-- The function `void CloseSocket(SOCKET* sock)`:
```
if (sock && *sock != INVALID_SOCKET) { closesocket(*sock); delete sock; }
``` -/
def CloseSocket (w : SocketWorld) (sock : Nat) : Option SocketWorld :=
  if sock ≠ 0 then
    match w.deref sock with
    | none => none
    | some v =>
      if v ≠ INVALID_SOCKET then some ((w.closesocket v).deleteSock sock) else some w
  else some w

/-- The lambda `auto DeleterLambda = [](SOCKET* sock) { ... }`:
```
if (sock && *sock != INVALID_SOCKET) { closesocket(*sock); delete sock; }
``` -/
def DeleterLambda (w : SocketWorld) (sock : Nat) : Option SocketWorld :=
  if sock ≠ 0 then
    match w.deref sock with
    | none => none
    | some v =>
      if v ≠ INVALID_SOCKET then some ((w.closesocket v).deleteSock sock) else some w
  else some w

/-- The function pointer `auto DeleterFunPtr = CloseSocket;`. -/
def DeleterFunPtr (w : SocketWorld) (sock : Nat) : Option SocketWorld :=
  CloseSocket w sock

/-- The call operator `void DeleterFunctor::operator()(SOCKET* sock)`:
```
if (sock && *sock != INVALID_SOCKET) { closesocket(*sock); delete sock; }
``` -/
def DeleterFunctor.call (w : SocketWorld) (sock : Nat) : Option SocketWorld :=
  if sock ≠ 0 then
    match w.deref sock with
    | none => none
    | some v =>
      if v ≠ INVALID_SOCKET then some ((w.closesocket v).deleteSock sock) else some w
  else some w

/-- The contract of a release policy in the words of the spec: "given a pointer to a resource
handle, if it is non-null and not the invalid socket sentinel, close the underlying resource
and release the pointed-to storage"; otherwise nothing happens.  `target` is what the
pointer points to, `none` for the null pointer. -/
def releasePolicySpec (w : SocketWorld) (sock : Nat) (target : Option SOCKET) : SocketWorld :=
  match target with
  | none => w
  | some v =>
    if v = INVALID_SOCKET then w
    else SocketWorld.mk (w.storage.set (sock - 1) none)
      (w.calls ++ [SocketEvent.closesocket v, SocketEvent.deleteSock sock])

namespace World

/-- The invariant of reference counting: a count cell is allocated exactly when some live
`SharedPtr` points to it, and it then holds the number of live `SharedPtr` objects that
point to it. -/
def CountsMatch (w : World) : Prop :=
  ∀ a, a ≠ 0 → w.deref a = if w.sharers a = 0 then none else some (w.sharers a : Int)

/-- The invariant `CountsMatch` on a list of count cells and a list of `SharedPtr` objects. -/
def Matches (cs : List (Option Int)) (l : List (Option SharedPtr)) : Prop :=
  ∀ a, a ≠ 0 → cellAt cs a = if sharersIn l a = 0 then none else some (sharersIn l a : Int)

end World

namespace World

/-- The state `Clear()` leaves when it runs on an object with members `t`, `t.ref_count_`
non-null, whose count cell held `n`: the cell holds `n - 1`, or is deleted together with
the pointee when `n` was 1. -/
def afterClear (w : World) (t : SharedPtr) (n : Int) : World :=
  World.mk (w.counts.set (t.ref_count_ - 1) (if n = 1 then none else some (n - 1)))
    (w.events ++ (if n = 1 then
      [HeapEvent.decr t.ref_count_, HeapEvent.deleteRes t.ptr_,
        HeapEvent.deleteCount t.ref_count_]
      else [HeapEvent.decr t.ref_count_]))
    w.shared w.weak

end World

/-- The allocation `new long(v)` when the allocator serves it from the freed cell at address
`a`: defined only when that cell has been deleted. -/
def World.newLongAt (w : World) (a : Nat) (v : Int) : Option (Nat × World) :=
  if a ≠ 0 ∧ w.counts[a - 1]? = some none then
    some (a, { w with counts := w.counts.set (a - 1) (some v),
                      events := w.events ++ [HeapEvent.newCount a] })
  else none

/-- The constructor `explicit SharedPtr(Resource* res) : ptr_(res), ref_count_(new long(1)) {}`
when the allocator serves `new long(1)` from the freed cell at address `a`. -/
def SharedPtr.ctorReusing (w : World) (res : Nat) (a : Nat) : Option (Nat × World) :=
  match w.newLongAt a 1 with
  | none => none
  | some (c, w1) => some (w1.newShared { ptr_ := res, ref_count_ := c })

/-! ## Pointee types with a destructor

`delete ptr_` runs `~Resource()` before it releases the storage.  The definitions above are
those for a pointee whose destructor touches no `SharedPtr`, no `WeakPtr` and no count
cell, such as the `int` of `homework.cpp`.  The definitions below take the effect of
`~Resource()` on the state as a parameter `dtor`, applied to the address of the pointee. -/

/-- The statement `delete ptr_` for a pointee type with destructor `dtor`: for a null
pointer nothing runs; otherwise the destructor runs and then the storage is released.  The
statement is recorded in both cases. -/
def World.deleteResWith (dtor : Nat → World → Option World) (w : World) (p : Nat) :
    Option World :=
  if p = 0 then some (w.deleteRes p) else (dtor p w).map (fun v => v.deleteRes p)

/-- The private member `void Clear()` for a pointee type with destructor `dtor`:
```
if (ref_count_ && --(*ref_count_) == 0) { delete ptr_; delete ref_count_; }
```
`delete ref_count_` reads the member of `this` after the destructor of the pointee has
run. -/
def SharedPtr.ClearWith (dtor : Nat → World → Option World) (w : World) (this : Nat) :
    Option World :=
  match w.sharedAt this with
  | none => none
  | some t =>
    if t.ref_count_ ≠ 0 then
      match w.decr t.ref_count_ with
      | none => none
      | some (c, w1) =>
        if c = 0 then
          match w1.deleteResWith dtor t.ptr_ with
          | none => none
          | some w2 =>
            match w2.sharedAt this with
            | none => none
            | some t2 => w2.deleteCount t2.ref_count_
        else some w1
    else some w

/-- The destructor `~SharedPtr() { Clear(); }` for a pointee type with destructor `dtor`,
after which the object's lifetime ends. -/
def SharedPtr.destroyWith (dtor : Nat → World → Option World) (w : World) (this : Nat) :
    Option World :=
  (SharedPtr.ClearWith dtor w this).map (fun w1 => w1.endShared this)

/-- The copy assignment `SharedPtr& operator=(const SharedPtr& rhs)` for a pointee type with
destructor `dtor`:
```
if (this != &rhs) {
    Clear();
    ptr_ = rhs.ptr_;
    ref_count_ = rhs.ref_count_;
    if (ref_count_) { ++(*ref_count_); }
}
```
The members of `rhs` are read after `Clear()` has returned. -/
def SharedPtr.assignWith (dtor : Nat → World → Option World) (w : World) (this rhs : Nat) :
    Option World :=
  match w.sharedAt this, w.sharedAt rhs with
  | some _, some _ =>
    if this ≠ rhs then
      match SharedPtr.ClearWith dtor w this with
      | none => none
      | some w1 =>
        match w1.sharedAt this, w1.sharedAt rhs with
        | some _, some r =>
          let w2 := w1.setShared this { ptr_ := r.ptr_, ref_count_ := r.ref_count_ }
          if r.ref_count_ ≠ 0 then
            match w2.incr r.ref_count_ with
            | none => none
            | some (_, w3) => some w3
          else some w2
        | _, _ => none
    else some w
  | _, _ => none

/-- A sample state for the pointee type `struct Holder { SharedPtr<Holder> other; };`.
The `SharedPtr` `a` at address 0 is the only owner of the `Holder` at 24, through the cell
at address 1.  The `SharedPtr` `b` at address 1 owns the `Holder` at 30 through the cell at
address 2, together with the member `other` of the `Holder` at 24, which is the `SharedPtr`
at address 2.  The member `other` of the `Holder` at 30 is the empty `SharedPtr` at
address 3. -/
def World.sampleHolders : World :=
  { counts := [some 1, some 2]
    events := [HeapEvent.newCount 1, HeapEvent.newCount 2, HeapEvent.incr 2]
    shared := [some { ptr_ := 24, ref_count_ := 1 }, some { ptr_ := 30, ref_count_ := 2 },
      some { ptr_ := 30, ref_count_ := 2 }, some { ptr_ := 0, ref_count_ := 0 }]
    weak := [] }

/-- The destructor `~Holder()` of the `Holder` at 30 in `World.sampleHolders`: it destroys
the member `other` at address 3, which is empty. -/
def holderDtorInner (p : Nat) (w : World) : Option World :=
  if p = 30 then SharedPtr.destroy w 3 else some w

/-- The destructor `~Holder()` in `World.sampleHolders`: that of the `Holder` at 24 destroys
the member `other` at address 2, which may in turn delete the `Holder` at 30. -/
def holderDtor (p : Nat) (w : World) : Option World :=
  if p = 24 then SharedPtr.destroyWith holderDtorInner w 2 else holderDtorInner p w

/-! ## Provenance of member pairs and the timing of frees -/

/-- The raw pointer an operation takes ownership of, if it takes one. -/
def Op.rawPointer : Op → Option Nat
  | .sharedFromRaw res => some res
  | .sharedResetTo _ res => some res
  | _ => none

/-- The raw pointers handed to `SharedPtr(Resource*)` and `Reset(Resource*)` by a sequence of
operations, in order. -/
def rawPointers (ops : List Op) : List Nat := ops.filterMap Op.rawPointer

/-- The effect of one heap event on the value of the count cell at address `a`. -/
def HeapEvent.apply (a : Nat) (v : Int) : HeapEvent → Int
  | .newCount b => if b = a then 1 else v
  | .incr b => if b = a then v + 1 else v
  | .decr b => if b = a then v - 1 else v
  | .deleteRes _ => v
  | .deleteCount _ => v

/-- The value the count cell at address `a` has after a list of heap events. -/
def cellValue (evs : List HeapEvent) (a : Nat) : Int :=
  evs.foldl (HeapEvent.apply a) 0

/-- A list of heap events in which the pointee and the count cell are freed together at
exactly the decrements that bring a count to zero: the list is built from allocations,
increments, decrements that leave the count non-zero, and decrements that bring the count
of a cell to zero and are followed at once by `delete ptr_` and by `delete ref_count_` on
that cell.  No `delete` occurs anywhere else. -/
inductive FreedAtZero : List HeapEvent → Prop where
  | nil : FreedAtZero []
  | newCount (evs : List HeapEvent) (a : Nat) :
      FreedAtZero evs → FreedAtZero (evs ++ [HeapEvent.newCount a])
  | incr (evs : List HeapEvent) (a : Nat) :
      FreedAtZero evs → FreedAtZero (evs ++ [HeapEvent.incr a])
  | decrKeep (evs : List HeapEvent) (a : Nat) :
      FreedAtZero evs → cellValue (evs ++ [HeapEvent.decr a]) a ≠ 0 →
      FreedAtZero (evs ++ [HeapEvent.decr a])
  | decrFree (evs : List HeapEvent) (a p : Nat) :
      FreedAtZero evs → cellValue (evs ++ [HeapEvent.decr a]) a = 0 →
      FreedAtZero (evs ++ [HeapEvent.decr a, HeapEvent.deleteRes p, HeapEvent.deleteCount a])

namespace World

/-- Some live object, a `SharedPtr` or a `WeakPtr`, has the members `(p, r)`. -/
def HasPair (w : World) (p r : Nat) : Prop :=
  (∃ i, w.sharedAt i = some { ptr_ := p, ref_count_ := r }) ∨
  (∃ i, w.weakAt i = some { ptr_ := p, ref_count_ := r })

/-- How often `delete ref_count_` ran on the cell at address `a`. -/
def cellFrees (w : World) (a : Nat) : Nat :=
  w.events.countP (fun e => decide (e = HeapEvent.deleteCount a))

/-- How often `delete ptr_` ran on the pointee `p`. -/
def pointeeFrees (w : World) (p : Nat) : Nat :=
  w.events.countP (fun e => decide (e = HeapEvent.deleteRes p))

/-- The ways a public operation transforms the state, as a relation; the list holds the raw
pointers taken.  `frame`: no cell and no event changes, the number of owners of each cell
stays, and every member pair is an old one or `(nullptr, nullptr)`.  `release`: an owner
runs `Clear` and is then emptied or destroyed.  `attach`: an empty object takes an existing
pair and increments its cell.  `fresh`: an empty object takes a raw pointer and a new cell. -/
inductive Trans : World → List Nat → World → Prop where
  | frame (w w1 : World) :
      w1.counts = w.counts → w1.events = w.events →
      (∀ a, a ≠ 0 → w1.sharers a = w.sharers a) →
      (∀ p r, w1.HasPair p r → w.HasPair p r ∨ (p = 0 ∧ r = 0)) →
      Trans w [] w1
  | release (w : World) (i : Nat) (t : SharedPtr) (n : Int) (o1 : Option SharedPtr) :
      w.sharedAt i = some t → t.ref_count_ ≠ 0 → w.deref t.ref_count_ = some n →
      (o1 = none ∨ o1 = some { ptr_ := 0, ref_count_ := 0 }) →
      Trans w [] (World.mk (w.afterClear t n).counts (w.afterClear t n).events
        (w.shared.set i o1) w.weak)
  | attach (w : World) (i : Nat) (t : SharedPtr) (p r : Nat) (n : Int) :
      w.sharedAt i = some t → t.ref_count_ = 0 → w.deref r = some n → w.HasPair p r →
      Trans w [] (World.mk (w.counts.set (r - 1) (some (n + 1)))
        (w.events ++ [HeapEvent.incr r])
        (w.shared.set i (some { ptr_ := p, ref_count_ := r })) w.weak)
  | fresh (w : World) (i : Nat) (t : SharedPtr) (p : Nat) :
      w.sharedAt i = some t → t.ref_count_ = 0 →
      Trans w [p] (World.mk (w.counts ++ [some 1])
        (w.events ++ [HeapEvent.newCount (w.counts.length + 1)])
        (w.shared.set i (some { ptr_ := p, ref_count_ := w.counts.length + 1 })) w.weak)
  | comp (w w1 w2 : World) (u v : List Nat) :
      Trans w u w1 → Trans w1 v w2 → Trans w (u ++ v) w2

/-- The invariants of every reachable state that need no assumption on the raw pointers;
`used` lists the raw pointers taken so far. -/
structure Sound (used : List Nat) (w : World) : Prop where
  cm : w.CountsMatch
  bound : ∀ p r, w.HasPair p r → r ≤ w.counts.length
  func : ∀ p q r, w.HasPair p r → w.HasPair q r → r ≠ 0 → p = q
  usedp : ∀ p r, w.HasPair p r → r ≠ 0 → p ∈ used
  null : ∀ p, w.HasPair p 0 → p = 0
  cellEv : ∀ a, w.cellFrees a = if a ≠ 0 ∧ w.counts[a - 1]? = some none then 1 else 0
  value : ∀ a n, w.deref a = some n → cellValue w.events a = n
  timed : FreedAtZero w.events

/-- The invariants of every reachable state that hold when no raw pointer is taken twice. -/
structure Fresh (used : List Nat) (w : World) : Prop where
  inj : ∀ p r r1, w.HasPair p r → w.HasPair p r1 → r ≠ 0 → r1 ≠ 0 → r = r1
  resUsed : ∀ p, HeapEvent.deleteRes p ∈ w.events → p ∈ used
  resLive : ∀ p r, w.HasPair p r → (w.deref r).isSome = true →
    HeapEvent.deleteRes p ∉ w.events
  resOnce : ∀ p, w.pointeeFrees p ≤ 1

end World

/-! ## Lemmas on lists used as object stores -/

theorem countP_set_add {α : Type} (p : α → Bool) (l : List α) (i : Nat) (x y : α)
    (h : l[i]? = some y) :
    (l.set i x).countP p + (if p y then 1 else 0) = l.countP p + (if p x then 1 else 0) := by
  induction l generalizing i with
  | nil => simp at h
  | cons z l ih =>
    cases i with
    | zero =>
      simp only [List.getElem?_cons_zero, Option.some.injEq] at h
      subst h
      simp only [List.set_cons_zero, List.countP_cons]
      omega
    | succ i =>
      simp only [List.getElem?_cons_succ] at h
      have := ih i h
      simp only [List.set_cons_succ, List.countP_cons]
      omega

/-! ## Lemmas on the guard store -/

namespace GuardWorld

theorem guardAt_lt {w : GuardWorld} {a : Nat} {g : HandleGuard} (h : w.guardAt a = some g) :
    a < w.guards.length := by
  unfold guardAt at h
  by_contra hlt
  rw [List.getElem?_eq_none (by omega)] at h
  simp at h

theorem guardAt_eq_some {w : GuardWorld} {a : Nat} {g : HandleGuard} :
    w.guardAt a = some g ↔ w.guards[a]? = some (some g) := by
  unfold guardAt
  cases w.guards[a]? with
  | none => simp
  | some o => cases o <;> simp

theorem guardAt_setHandle_self {w : GuardWorld} {a : Nat} {g : HandleGuard} (x : HANDLE)
    (h : w.guardAt a = some g) : (w.setHandle a x).guardAt a = some { handle_ := x } := by
  have hlt := guardAt_lt h
  simp [guardAt, setHandle, List.getElem?_set, hlt]

theorem guardAt_setHandle_ne {w : GuardWorld} {a c : Nat} (x : HANDLE) (h : a ≠ c) :
    (w.setHandle a x).guardAt c = w.guardAt c := by
  simp [guardAt, setHandle, List.getElem?_set, h]

theorem guardAt_CloseHandle (w : GuardWorld) (x : HANDLE) (c : Nat) :
    (w.CloseHandle x).guardAt c = w.guardAt c := rfl

end GuardWorld

/-! ## Lemmas on the `SharedPtr` store and the count cells -/

namespace World

theorem sharedAt_lt {w : World} {i : Nat} {s : SharedPtr} (h : w.sharedAt i = some s) :
    i < w.shared.length := by
  unfold sharedAt at h
  by_contra hlt
  rw [List.getElem?_eq_none (by omega)] at h
  simp at h

theorem sharedAt_eq_some {w : World} {i : Nat} {s : SharedPtr} :
    w.sharedAt i = some s ↔ w.shared[i]? = some (some s) := by
  unfold sharedAt
  cases w.shared[i]? with
  | none => simp
  | some o => cases o <;> simp

theorem sharedAt_setShared (w : World) (i j : Nat) (s : SharedPtr) :
    (w.setShared i s).sharedAt j
      = if i = j then (if i < w.shared.length then some s else none) else w.sharedAt j := by
  unfold sharedAt setShared
  simp only [List.getElem?_set]
  by_cases hij : i = j
  · subst hij
    by_cases hlt : i < w.shared.length <;> simp [hlt]
  · simp [hij]

theorem sharedAt_setShared_self {w : World} {i : Nat} {t : SharedPtr} (s : SharedPtr)
    (h : w.sharedAt i = some t) : (w.setShared i s).sharedAt i = some s := by
  rw [sharedAt_setShared]; simp [sharedAt_lt h]

theorem sharedAt_setShared_ne (w : World) {i j : Nat} (s : SharedPtr) (h : i ≠ j) :
    (w.setShared i s).sharedAt j = w.sharedAt j := by
  rw [sharedAt_setShared]; simp [h]

theorem sharedAt_newShared (w : World) (s : SharedPtr) (j : Nat) :
    (w.newShared s).2.sharedAt j
      = if j = w.shared.length then some s else w.sharedAt j := by
  unfold sharedAt newShared
  simp only [List.getElem?_append]
  by_cases hlt : j < w.shared.length
  · have : j ≠ w.shared.length := by omega
    simp [hlt, this]
  · by_cases he : j = w.shared.length
    · simp [he]
    · have h1 : 0 < j - w.shared.length := by omega
      have h2 : w.shared.length ≤ j := by omega
      simp [hlt, he, List.getElem?_eq_none h2]
      cases hj : j - w.shared.length with
      | zero => omega
      | succ k => simp

theorem deref_eq (w : World) (a : Nat) : w.deref a = cellAt w.counts a := rfl

theorem sharers_eq (w : World) (a : Nat) : w.sharers a = sharersIn w.shared a := rfl

theorem cellAt_ne_null {cs : List (Option Int)} {a : Nat} {c : Int}
    (h : cellAt cs a = some c) : a ≠ 0 := by
  intro h0
  simp [cellAt, h0] at h

theorem cellAt_lt {cs : List (Option Int)} {a : Nat} {c : Int} (h : cellAt cs a = some c) :
    a - 1 < cs.length := by
  have h0 := cellAt_ne_null h
  unfold cellAt at h
  simp only [h0, if_false] at h
  by_contra hlt
  rw [List.getElem?_eq_none (by omega)] at h
  simp at h

theorem cellAt_set {cs : List (Option Int)} {a : Nat} {c : Int} (v : Option Int) (b : Nat)
    (h : cellAt cs a = some c) :
    cellAt (cs.set (a - 1) v) b = if b = a then v else cellAt cs b := by
  have h0 := cellAt_ne_null h
  have hlt := cellAt_lt h
  unfold cellAt
  simp only [List.getElem?_set]
  by_cases hb : b = 0
  · subst hb
    simp [Ne.symm h0]
  · by_cases hba : b = a
    · simp [hba, h0, hlt]
    · have : a - 1 ≠ b - 1 := by omega
      simp [hb, hba, this]

theorem cellAt_append (cs : List (Option Int)) (v : Int) (b : Nat) :
    cellAt (cs ++ [some v]) b = if b = cs.length + 1 then some v else cellAt cs b := by
  unfold cellAt
  simp only [List.getElem?_append]
  by_cases hb : b = 0
  · simp [hb]
  · by_cases hlt : b - 1 < cs.length
    · have : b ≠ cs.length + 1 := by omega
      simp [hb, hlt, this]
    · by_cases he : b = cs.length + 1
      · simp [he]
      · have h2 : cs.length ≤ b - 1 := by omega
        simp only [hb, hlt, he, if_false, List.getElem?_eq_none h2]
        cases hj : b - 1 - cs.length with
        | zero => omega
        | succ k => simp

theorem deref_ne_null {w : World} {a : Nat} {c : Int} (h : w.deref a = some c) : a ≠ 0 :=
  cellAt_ne_null h

theorem deref_store {w : World} {a : Nat} {c : Int} (v : Int) (b : Nat)
    (h : w.deref a = some c) :
    (w.store a v).deref b = if b = a then some v else w.deref b :=
  cellAt_set (some v) b h

end World

namespace World

theorem sharersIn_set {l : List (Option SharedPtr)} {i : Nat} {o : Option SharedPtr}
    (o1 : Option SharedPtr) (ho : l[i]? = some o) (a : Nat) :
    sharersIn (l.set i o1) a + (if o.map SharedPtr.ref_count_ = some a then 1 else 0)
      = sharersIn l a + (if o1.map SharedPtr.ref_count_ = some a then 1 else 0) := by
  unfold sharersIn
  have := countP_set_add (fun o => decide (o.map SharedPtr.ref_count_ = some a)) l i o1 o ho
  simpa using this

theorem sharersIn_append (l : List (Option SharedPtr)) (o1 : Option SharedPtr) (a : Nat) :
    sharersIn (l ++ [o1]) a
      = sharersIn l a + (if o1.map SharedPtr.ref_count_ = some a then 1 else 0) := by
  unfold sharersIn
  rw [List.countP_append]
  simp [List.countP_cons]

theorem sharers_pos {w : World} {i : Nat} {t : SharedPtr} (h : w.sharedAt i = some t) :
    1 ≤ w.sharers t.ref_count_ := by
  have h1 := sharersIn_set none (sharedAt_eq_some.mp h) t.ref_count_
  simp at h1
  rw [sharers_eq]
  omega

theorem sharers_two {w : World} {i j : Nat} {t u : SharedPtr} (hij : i ≠ j)
    (hi : w.sharedAt i = some t) (hj : w.sharedAt j = some u)
    (hrc : u.ref_count_ = t.ref_count_) : 2 ≤ w.sharers t.ref_count_ := by
  have h1 := sharersIn_set none (sharedAt_eq_some.mp hi) t.ref_count_
  have hj1 : (w.endShared i).sharedAt j = some u := by
    rw [sharedAt_eq_some] at hj ⊢
    simp only [endShared, List.getElem?_set, hij, if_false]
    exact hj
  have h2 := sharers_pos hj1
  rw [hrc, sharers_eq] at h2
  simp only [endShared] at h2
  simp at h1
  rw [sharers_eq]
  omega

theorem countsMatch_iff (w : World) : w.CountsMatch ↔ Matches w.counts w.shared := Iff.rfl

theorem set_append_singleton {α : Type} (l : List α) (x y : α) :
    (l ++ [x]).set l.length y = l ++ [y] := by
  induction l with
  | nil => rfl
  | cons z l ih => simp [ih]

theorem getElem?_append_singleton_length {α : Type} (l : List α) (x : α) :
    (l ++ [x])[l.length]? = some x := by
  simp

theorem Matches.cell_eq {cs : List (Option Int)} {l : List (Option SharedPtr)}
    (h : Matches cs l) {r : Nat} {n : Int} (hr : cellAt cs r = some n) :
    sharersIn l r ≠ 0 ∧ n = (sharersIn l r : Int) := by
  have h0 := cellAt_ne_null hr
  have := h r h0
  rw [hr] at this
  by_cases hz : sharersIn l r = 0
  · simp [hz] at this
  · simp only [hz, if_false, Option.some.injEq] at this
    exact ⟨hz, this⟩

theorem Matches.fresh {cs : List (Option Int)} {l : List (Option SharedPtr)}
    (h : Matches cs l) : sharersIn l (cs.length + 1) = 0 := by
  have := h (cs.length + 1) (by omega)
  have hc : cellAt cs (cs.length + 1) = none := by
    simp [cellAt]
  rw [hc] at this
  by_contra hz
  simp [hz] at this

/-- An object that owns nothing may point its `ptr_` anywhere. -/
theorem Matches.set_null {cs : List (Option Int)} {l : List (Option SharedPtr)}
    (h : Matches cs l) {i : Nat} {t : SharedPtr} (hi : l[i]? = some (some t))
    (ht : t.ref_count_ = 0) (p : Nat) :
    Matches cs (l.set i (some { ptr_ := p, ref_count_ := 0 })) := by
  intro a ha
  have hs := sharersIn_set (some { ptr_ := p, ref_count_ := 0 }) hi a
  have ha' : ¬ (0 = a) := fun e => ha e.symm
  simp only [Option.map_some', Option.some.injEq, ht, ha', if_false] at hs
  simp only [Nat.add_zero] at hs
  rw [hs]
  exact h a ha

/-- An object that owns nothing starts to share the allocated cell `r`, which is
incremented. -/
theorem Matches.set_attach {cs : List (Option Int)} {l : List (Option SharedPtr)}
    (h : Matches cs l) {i : Nat} {t : SharedPtr} (hi : l[i]? = some (some t))
    (ht : t.ref_count_ = 0) (p : Nat) {r : Nat} {n : Int} (hr : cellAt cs r = some n) :
    Matches (cs.set (r - 1) (some (n + 1))) (l.set i (some { ptr_ := p, ref_count_ := r })) := by
  intro a ha
  have hs := sharersIn_set (some { ptr_ := p, ref_count_ := r }) hi a
  have ha' : ¬ (0 = a) := fun e => ha e.symm
  simp only [Option.map_some', Option.some.injEq, ht, ha', if_false, Nat.add_zero] at hs
  obtain ⟨hz, hn⟩ := h.cell_eq hr
  rw [cellAt_set _ a hr, hs]
  by_cases har : a = r
  · subst har
    simp only [if_true]
    have : sharersIn l a + 1 ≠ 0 := by omega
    simp only [this, if_false, hn]
    push_cast
    rfl
  · have har' : ¬ (r = a) := fun e => har e.symm
    simp only [har, har', if_false, Nat.add_zero]
    exact h a ha

/-- An object that owns nothing becomes the sole owner of a newly allocated cell. -/
theorem Matches.set_fresh {cs : List (Option Int)} {l : List (Option SharedPtr)}
    (h : Matches cs l) {i : Nat} {t : SharedPtr} (hi : l[i]? = some (some t))
    (ht : t.ref_count_ = 0) (p : Nat) :
    Matches (cs ++ [some 1]) (l.set i (some { ptr_ := p, ref_count_ := cs.length + 1 })) := by
  intro a ha
  have hs := sharersIn_set (some { ptr_ := p, ref_count_ := cs.length + 1 }) hi a
  have ha' : ¬ (0 = a) := fun e => ha e.symm
  simp only [Option.map_some', Option.some.injEq, ht, ha', if_false, Nat.add_zero] at hs
  have hf := h.fresh
  rw [cellAt_append, hs]
  by_cases har : a = cs.length + 1
  · subst har
    simp [hf]
  · have har' : ¬ (cs.length + 1 = a) := fun e => har e.symm
    simp only [har, har', if_false, Nat.add_zero]
    exact h a ha

/-- An object gives up its share: its cell `r` has been decremented, and freed when the
count was one; the object's slot is emptied or its lifetime ends. -/
theorem Matches.set_release {cs cs1 : List (Option Int)} {l : List (Option SharedPtr)}
    (h : Matches cs l) {i : Nat} {t : SharedPtr} (hi : l[i]? = some (some t))
    (hc : ∀ a, cellAt cs1 a
      = if a = t.ref_count_ ∧ a ≠ 0 then
          (if sharersIn l a = 1 then none else some ((sharersIn l a : Int) - 1))
        else cellAt cs a)
    (o1 : Option SharedPtr) (ho : o1.map SharedPtr.ref_count_ = none ∨
      o1.map SharedPtr.ref_count_ = some 0) :
    Matches cs1 (l.set i o1) := by
  intro a ha
  have hs := sharersIn_set o1 hi a
  have ha' : ¬ (0 = a) := fun e => ha e.symm
  have ho1 : ¬ (o1.map SharedPtr.ref_count_ = some a) := by
    rcases ho with ho | ho <;> simp [ho, ha']
  simp only [Option.map_some', Option.some.injEq, ho1, if_false, Nat.add_zero] at hs
  rw [hc a]
  by_cases har : a = t.ref_count_
  · subst har
    simp only [if_true] at hs
    simp only [ha, ne_eq, not_false_eq_true, and_self, if_true]
    by_cases h1 : sharersIn l t.ref_count_ = 1
    · have : sharersIn (l.set i o1) t.ref_count_ = 0 := by omega
      simp [h1, this]
    · have hpos : sharersIn l t.ref_count_ ≠ 0 := by omega
      have : sharersIn (l.set i o1) t.ref_count_ ≠ 0 := by omega
      simp only [h1, this, if_false, Option.some.injEq]
      omega
  · have har' : ¬ (t.ref_count_ = a) := fun e => har e.symm
    simp only [har', if_false, Nat.add_zero] at hs
    simp only [har, false_and, if_false, hs]
    exact h a ha

/-- Two objects exchange their members. -/
theorem Matches.set_swap {cs : List (Option Int)} {l : List (Option SharedPtr)}
    (h : Matches cs l) {i j : Nat} {t u : SharedPtr} (hi : l[i]? = some (some t))
    (hj : l[j]? = some (some u)) :
    Matches cs ((l.set i (some { ptr_ := u.ptr_, ref_count_ := u.ref_count_ })).set j
      (some { ptr_ := t.ptr_, ref_count_ := t.ref_count_ })) := by
  intro a ha
  have hs1 := sharersIn_set (some { ptr_ := u.ptr_, ref_count_ := u.ref_count_ }) hi a
  have hj1 : (l.set i (some { ptr_ := u.ptr_, ref_count_ := u.ref_count_ }))[j]? = some (some u) := by
    rw [List.getElem?_set]
    by_cases hij : i = j
    · subst hij
      have hlt : i < l.length := by
        by_contra hlt
        rw [List.getElem?_eq_none (by omega)] at hi
        simp at hi
      simp [hlt]
    · simp only [hij, if_false]; exact hj
  have hs2 := sharersIn_set (some { ptr_ := t.ptr_, ref_count_ := t.ref_count_ }) hj1 a
  simp only [Option.map_some', Option.some.injEq] at hs1 hs2
  have : sharersIn ((l.set i (some { ptr_ := u.ptr_, ref_count_ := u.ref_count_ })).set j
      (some { ptr_ := t.ptr_, ref_count_ := t.ref_count_ })) a = sharersIn l a := by omega
  rw [this]
  exact h a ha

theorem sharersIn_pos {l : List (Option SharedPtr)} {i : Nat} {t : SharedPtr}
    (h : l[i]? = some (some t)) : sharersIn l t.ref_count_ ≠ 0 := by
  have h1 := sharersIn_set none h t.ref_count_
  simp at h1
  omega

theorem Matches.cell_of_mem {cs : List (Option Int)} {l : List (Option SharedPtr)}
    (h : Matches cs l) {i : Nat} {t : SharedPtr} (hi : l[i]? = some (some t))
    (h0 : t.ref_count_ ≠ 0) :
    cellAt cs t.ref_count_ = some (sharersIn l t.ref_count_ : Int) := by
  rw [h _ h0]
  simp [sharersIn_pos hi]

theorem getElem?_set_self_of_some {α : Type} {l : List α} {i : Nat} {x : α} (y : α)
    (h : l[i]? = some x) : (l.set i y)[i]? = some y := by
  have hlt : i < l.length := by
    by_contra hlt
    rw [List.getElem?_eq_none (by omega)] at h
    simp at h
  simp [List.getElem?_set, hlt]

theorem Matches.append_null {cs : List (Option Int)} {l : List (Option SharedPtr)}
    (h : Matches cs l) (p : Nat) :
    Matches cs (l ++ [some { ptr_ := p, ref_count_ := 0 }]) := by
  intro a ha
  have ha' : ¬ (0 = a) := fun e => ha e.symm
  rw [sharersIn_append]
  simp only [Option.map_some', Option.some.injEq, ha', if_false, Nat.add_zero]
  exact h a ha

theorem Matches.append_attach {cs : List (Option Int)} {l : List (Option SharedPtr)}
    (h : Matches cs l) (p : Nat) {r : Nat} {n : Int} (hr : cellAt cs r = some n) :
    Matches (cs.set (r - 1) (some (n + 1))) (l ++ [some { ptr_ := p, ref_count_ := r }]) := by
  have h1 := (h.append_null 0).set_attach (getElem?_append_singleton_length l _) rfl p hr
  rwa [set_append_singleton] at h1

theorem Matches.append_fresh {cs : List (Option Int)} {l : List (Option SharedPtr)}
    (h : Matches cs l) (p : Nat) :
    Matches (cs ++ [some 1]) (l ++ [some { ptr_ := p, ref_count_ := cs.length + 1 }]) := by
  have h1 := (h.append_null 0).set_fresh (getElem?_append_singleton_length l _) rfl p
  rwa [set_append_singleton] at h1

/-- Under the invariant `Clear` is defined on every live `SharedPtr`; it changes no
object, and it changes the cell of `this` only: the count drops by one, and the cell is
freed when `this` was the sole owner. -/
theorem Clear_ok {w : World} {this : Nat} {t : SharedPtr} (hinv : w.CountsMatch)
    (ht : w.sharedAt this = some t) :
    ∃ w1, SharedPtr.Clear w this = some w1 ∧ w1.shared = w.shared ∧ w1.weak = w.weak ∧
      ∀ a, w1.deref a
        = if a = t.ref_count_ ∧ a ≠ 0 then
            (if w.sharers a = 1 then none else some ((w.sharers a : Int) - 1))
          else w.deref a := by
  by_cases h0 : t.ref_count_ = 0
  · refine ⟨w, by simp [SharedPtr.Clear, ht, h0], rfl, rfl, ?_⟩
    intro a
    by_cases ha : a = t.ref_count_
    · have : a = 0 := by rw [ha, h0]
      simp [this]
    · simp [ha]
  · have hpos := sharers_pos ht
    have hd : cellAt w.counts t.ref_count_ = some (w.sharers t.ref_count_ : Int) := by
      rw [← deref_eq, hinv _ h0]
      have : w.sharers t.ref_count_ ≠ 0 := by omega
      simp [this]
    have hst := cellAt_set (some ((w.sharers t.ref_count_ : Int) - 1)) t.ref_count_ hd
    simp only [if_true] at hst
    by_cases h1 : w.sharers t.ref_count_ = 1
    · refine ⟨World.mk ((w.counts.set (t.ref_count_ - 1)
          (some ((w.sharers t.ref_count_ : Int) - 1))).set (t.ref_count_ - 1) none)
          (w.events ++ [HeapEvent.decr t.ref_count_] ++ [HeapEvent.deleteRes t.ptr_]
            ++ [HeapEvent.deleteCount t.ref_count_]) w.shared w.weak, ?_, rfl, rfl, ?_⟩
      · have hst0 : cellAt (w.counts.set (t.ref_count_ - 1) (some 0)) t.ref_count_
            = some 0 := by
          simpa [h1] using hst
        simp [SharedPtr.Clear, ht, h0, decr, deref_eq, hd, store, deleteRes, deleteCount,
          hst0, h1]
      · intro a
        simp only [deref_eq]
        rw [cellAt_set none a hst]
        by_cases ha : a = t.ref_count_
        · subst ha; simp [h0, h1]
        · simp only [ha, if_false, false_and]
          rw [cellAt_set _ a hd]
          simp [ha]
    · have hc : ((w.sharers t.ref_count_ : Int) - 1) ≠ 0 := by omega
      refine ⟨World.mk (w.counts.set (t.ref_count_ - 1)
          (some ((w.sharers t.ref_count_ : Int) - 1)))
          (w.events ++ [HeapEvent.decr t.ref_count_]) w.shared w.weak, ?_, rfl, rfl, ?_⟩
      · simp [SharedPtr.Clear, ht, h0, decr, deref_eq, hd, store, hc]
      · intro a
        simp only [deref_eq]
        rw [cellAt_set _ a hd]
        by_cases ha : a = t.ref_count_
        · subst ha; simp [h0, h1]
        · simp [ha]

theorem ctorDefault_ok {w : World} (hinv : w.CountsMatch) :
    (SharedPtr.ctorDefault w).2.CountsMatch :=
  Matches.append_null hinv 0

theorem ctor_ok {w : World} (hinv : w.CountsMatch) (res : Nat) :
    (SharedPtr.ctor w res).2.CountsMatch :=
  Matches.append_fresh hinv res

theorem copyCtor_ok {w : World} {rhs : Nat} {r : SharedPtr} (hinv : w.CountsMatch)
    (hr : w.sharedAt rhs = some r) :
    ∃ res, SharedPtr.copyCtor w rhs = some res ∧ res.2.CountsMatch := by
  by_cases h0 : r.ref_count_ = 0
  · refine ⟨_, by simp only [SharedPtr.copyCtor, hr, h0]; rfl, ?_⟩
    have := Matches.append_null hinv r.ptr_
    simpa [newShared, countsMatch_iff, h0] using this
  · have hc := Matches.cell_of_mem hinv (sharedAt_eq_some.mp hr) h0
    refine ⟨(w.shared.length, World.mk (w.counts.set (r.ref_count_ - 1)
        (some ((sharersIn w.shared r.ref_count_ : Int) + 1)))
        (w.events ++ [HeapEvent.incr r.ref_count_])
        (w.shared ++ [some { ptr_ := r.ptr_, ref_count_ := r.ref_count_ }]) w.weak), ?_, ?_⟩
    · simp [SharedPtr.copyCtor, hr, h0, newShared, incr, deref_eq, hc, store]
    · exact Matches.append_attach hinv r.ptr_ hc

theorem release_ok {w : World} {this : Nat} {t : SharedPtr} (hinv : w.CountsMatch)
    (ht : w.sharedAt this = some t) (o1 : Option SharedPtr)
    (ho : o1.map SharedPtr.ref_count_ = none ∨ o1.map SharedPtr.ref_count_ = some 0) :
    ∃ w1, SharedPtr.Clear w this = some w1 ∧ w1.weak = w.weak ∧ w1.shared = w.shared ∧
      Matches w1.counts (w.shared.set this o1) := by
  obtain ⟨w1, hcl, hsh, hwk, hd⟩ := Clear_ok hinv ht
  exact ⟨w1, hcl, hwk, hsh, Matches.set_release hinv (sharedAt_eq_some.mp ht) hd o1 ho⟩

theorem destroy_ok {w : World} {this : Nat} {t : SharedPtr} (hinv : w.CountsMatch)
    (ht : w.sharedAt this = some t) :
    ∃ w1, SharedPtr.destroy w this = some w1 ∧ w1.CountsMatch := by
  obtain ⟨w1, hcl, _, hsh, hm⟩ := release_ok hinv ht none (Or.inl rfl)
  refine ⟨w1.endShared this, by simp [SharedPtr.destroy, hcl], ?_⟩
  show Matches w1.counts (w1.shared.set this none)
  rw [hsh]; exact hm

theorem Reset_ok {w : World} {this : Nat} {t : SharedPtr} (hinv : w.CountsMatch)
    (ht : w.sharedAt this = some t) :
    ∃ w1, SharedPtr.Reset w this = some w1 ∧ w1.CountsMatch := by
  obtain ⟨w1, hcl, _, hsh, hm⟩ :=
    release_ok hinv ht (some { ptr_ := 0, ref_count_ := 0 }) (Or.inr rfl)
  refine ⟨w1.setShared this { ptr_ := 0, ref_count_ := 0 }, by simp [SharedPtr.Reset, hcl], ?_⟩
  show Matches w1.counts (w1.shared.set this (some { ptr_ := 0, ref_count_ := 0 }))
  rw [hsh]; exact hm

theorem ResetTo_ok {w : World} {this : Nat} {t : SharedPtr} (hinv : w.CountsMatch)
    (ht : w.sharedAt this = some t) (res : Nat) :
    ∃ w1, SharedPtr.ResetTo w this res = some w1 ∧ w1.CountsMatch := by
  obtain ⟨w1, hcl, _, hsh, hm⟩ :=
    release_ok hinv ht (some { ptr_ := 0, ref_count_ := 0 }) (Or.inr rfl)
  refine ⟨_, by simp only [SharedPtr.ResetTo, hcl]; rfl, ?_⟩
  show Matches (w1.counts ++ [some 1])
    (w1.shared.set this (some { ptr_ := res, ref_count_ := w1.counts.length + 1 }))
  have := hm.set_fresh (getElem?_set_self_of_some _ (sharedAt_eq_some.mp ht)) rfl res
  rw [List.set_set] at this
  rw [hsh]; exact this

theorem assign_ok {w : World} {this rhs : Nat} {t r : SharedPtr} (hinv : w.CountsMatch)
    (ht : w.sharedAt this = some t) (hr : w.sharedAt rhs = some r) :
    ∃ w1, SharedPtr.assign w this rhs = some w1 ∧ w1.CountsMatch := by
  by_cases hne : this = rhs
  · exact ⟨w, by simp [SharedPtr.assign, ht, hr, hne], hinv⟩
  · obtain ⟨w1, hcl, _, hsh, hm⟩ :=
      release_ok hinv ht (some { ptr_ := 0, ref_count_ := 0 }) (Or.inr rfl)
    have hself := getElem?_set_self_of_some (some { ptr_ := 0, ref_count_ := 0 })
      (sharedAt_eq_some.mp ht)
    by_cases h0 : r.ref_count_ = 0
    · refine ⟨w1.setShared this { ptr_ := r.ptr_, ref_count_ := r.ref_count_ },
        by simp [SharedPtr.assign, ht, hr, hne, hcl, h0], ?_⟩
      show Matches w1.counts
        (w1.shared.set this (some { ptr_ := r.ptr_, ref_count_ := r.ref_count_ }))
      have := hm.set_null hself rfl r.ptr_
      rw [List.set_set] at this
      rw [hsh, h0]; exact this
    · have hrhs : (w.shared.set this (some { ptr_ := 0, ref_count_ := 0 }))[rhs]?
          = some (some r) := by
        rw [List.getElem?_set]; simp only [hne, if_false]
        exact sharedAt_eq_some.mp hr
      have hc := hm.cell_of_mem hrhs h0
      refine ⟨World.mk (w1.counts.set (r.ref_count_ - 1)
          (some ((sharersIn (w.shared.set this (some { ptr_ := 0, ref_count_ := 0 }))
            r.ref_count_ : Int) + 1)))
          (w1.events ++ [HeapEvent.incr r.ref_count_])
          (w1.shared.set this (some { ptr_ := r.ptr_, ref_count_ := r.ref_count_ })) w1.weak,
        ?_, ?_⟩
      · simp [SharedPtr.assign, ht, hr, hne, hcl, h0, setShared, incr, deref_eq, hc, store]
      · show Matches _ (w1.shared.set this (some { ptr_ := r.ptr_, ref_count_ := r.ref_count_ }))
        have := hm.set_attach hself rfl r.ptr_ hc
        rw [List.set_set] at this
        rw [hsh]; exact this

theorem Swap_ok {w : World} {this rhs : Nat} {t r : SharedPtr} (hinv : w.CountsMatch)
    (ht : w.sharedAt this = some t) (hr : w.sharedAt rhs = some r) :
    ∃ w1, SharedPtr.Swap w this rhs = some w1 ∧ w1.CountsMatch := by
  refine ⟨(w.setShared this { ptr_ := r.ptr_, ref_count_ := r.ref_count_ }).setShared rhs
    { ptr_ := t.ptr_, ref_count_ := t.ref_count_ }, by simp only [SharedPtr.Swap, ht, hr], ?_⟩
  exact Matches.set_swap hinv (sharedAt_eq_some.mp ht) (sharedAt_eq_some.mp hr)

theorem ctorWeak_inv {w : World} {rhs : Nat} {res : Nat × World} (hinv : w.CountsMatch)
    (h : SharedPtr.ctorWeak w rhs = some res) : res.2.CountsMatch := by
  unfold SharedPtr.ctorWeak at h
  cases hx : w.weakAt rhs with
  | none => simp [hx] at h
  | some x =>
    cases he : WeakPtr.Expired w rhs with
    | none => simp [hx, he] at h
    | some e =>
      simp only [hx, he] at h
      cases e with
      | true =>
        simp only [Bool.not_true, Bool.false_eq_true, if_false, Option.some.injEq] at h
        subst h
        exact Matches.append_null hinv 0
      | false =>
        simp only [Bool.not_false, if_true, newShared] at h
        cases hi : incr (World.mk w.counts w.events
            (w.shared ++ [some { ptr_ := x.ptr_, ref_count_ := x.ref_count_ }]) w.weak)
            x.ref_count_ with
        | none => simp [hi] at h
        | some ci =>
          simp only [hi, Option.some.injEq] at h
          subst h
          unfold incr at hi
          simp only [deref_eq] at hi
          cases hc : cellAt w.counts x.ref_count_ with
          | none => simp [hc] at hi
          | some n =>
            simp only [hc, Option.some.injEq] at hi
            subst hi
            exact Matches.append_attach hinv x.ptr_ hc

theorem Lock_inv {w : World} {this : Nat} {res : Nat × World} (hinv : w.CountsMatch)
    (h : WeakPtr.Lock w this = some res) : res.2.CountsMatch := by
  unfold WeakPtr.Lock at h
  cases he : WeakPtr.Expired w this with
  | none => simp [he] at h
  | some e =>
    simp only [he] at h
    cases e with
    | true =>
      simp only [if_true, Option.some.injEq] at h
      subst h
      exact ctorDefault_ok hinv
    | false =>
      simp only [Bool.false_eq_true, if_false] at h
      exact ctorWeak_inv hinv h

end World

namespace World

theorem CountsMatch.congr {w w1 : World} (hinv : w.CountsMatch) (hc : w1.counts = w.counts)
    (hs : w1.shared = w.shared) : w1.CountsMatch := by
  rw [countsMatch_iff] at hinv ⊢
  rw [hc, hs]; exact hinv

theorem empty_CountsMatch : World.empty.CountsMatch := by
  intro a _
  simp [deref, cellAt, sharers, sharersIn, empty]

/-- Every public operation of the two classes keeps the invariant. -/
theorem step_CountsMatch {w w1 : World} (op : Op) (hinv : w.CountsMatch)
    (hs : w.step op = some w1) : w1.CountsMatch := by
  cases op with
  | sharedDefault =>
    simp only [step, Option.some.injEq] at hs
    subst hs; exact ctorDefault_ok hinv
  | sharedFromRaw res =>
    simp only [step, Option.some.injEq] at hs
    subst hs; exact ctor_ok hinv res
  | sharedCopy rhs =>
    simp only [step] at hs
    cases hr : w.sharedAt rhs with
    | none => simp [SharedPtr.copyCtor, hr] at hs
    | some r =>
      obtain ⟨res, h1, h2⟩ := copyCtor_ok hinv hr
      simp only [h1, Option.map_some', Option.some.injEq] at hs
      subst hs; exact h2
  | sharedFromWeak rhs =>
    simp only [step] at hs
    cases h1 : SharedPtr.ctorWeak w rhs with
    | none => simp [h1] at hs
    | some res =>
      simp only [h1, Option.map_some', Option.some.injEq] at hs
      subst hs; exact ctorWeak_inv hinv h1
  | sharedAssign this rhs =>
    simp only [step] at hs
    cases ht : w.sharedAt this with
    | none => simp [SharedPtr.assign, ht] at hs
    | some t =>
      cases hr : w.sharedAt rhs with
      | none => simp [SharedPtr.assign, ht, hr] at hs
      | some r =>
        obtain ⟨w2, h1, h2⟩ := assign_ok hinv ht hr
        rw [h1, Option.some.injEq] at hs
        subst hs; exact h2
  | sharedDestroy this =>
    simp only [step] at hs
    cases ht : w.sharedAt this with
    | none => simp [SharedPtr.destroy, SharedPtr.Clear, ht] at hs
    | some t =>
      obtain ⟨w2, h1, h2⟩ := destroy_ok hinv ht
      rw [h1, Option.some.injEq] at hs
      subst hs; exact h2
  | sharedReset this =>
    simp only [step] at hs
    cases ht : w.sharedAt this with
    | none => simp [SharedPtr.Reset, SharedPtr.Clear, ht] at hs
    | some t =>
      obtain ⟨w2, h1, h2⟩ := Reset_ok hinv ht
      rw [h1, Option.some.injEq] at hs
      subst hs; exact h2
  | sharedResetTo this res =>
    simp only [step] at hs
    cases ht : w.sharedAt this with
    | none => simp [SharedPtr.ResetTo, SharedPtr.Clear, ht] at hs
    | some t =>
      obtain ⟨w2, h1, h2⟩ := ResetTo_ok hinv ht res
      rw [h1, Option.some.injEq] at hs
      subst hs; exact h2
  | sharedSwap this rhs =>
    simp only [step] at hs
    cases ht : w.sharedAt this with
    | none => simp [SharedPtr.Swap, ht] at hs
    | some t =>
      cases hr : w.sharedAt rhs with
      | none => simp [SharedPtr.Swap, ht, hr] at hs
      | some r =>
        obtain ⟨w2, h1, h2⟩ := Swap_ok hinv ht hr
        rw [h1, Option.some.injEq] at hs
        subst hs; exact h2
  | weakDefault =>
    simp only [step, Option.some.injEq] at hs
    subst hs; exact hinv.congr rfl rfl
  | weakCopy rhs =>
    simp only [step, WeakPtr.copyCtor] at hs
    cases hx : w.weakAt rhs with
    | none => simp [hx] at hs
    | some x =>
      simp only [hx, Option.map_some', Option.some.injEq] at hs
      subst hs; exact hinv.congr rfl rfl
  | weakFromShared rhs =>
    simp only [step, WeakPtr.ctorShared] at hs
    cases hx : w.sharedAt rhs with
    | none => simp [hx] at hs
    | some x =>
      simp only [hx, Option.map_some', Option.some.injEq] at hs
      subst hs; exact hinv.congr rfl rfl
  | weakAssign this rhs =>
    simp only [step, WeakPtr.assign] at hs
    cases ht : w.weakAt this with
    | none => simp [ht] at hs
    | some t =>
      cases hx : w.weakAt rhs with
      | none => simp [ht, hx] at hs
      | some x =>
        simp only [ht, hx] at hs
        by_cases hne : this = rhs
        · simp only [hne, ne_eq, not_true_eq_false, if_false, Option.some.injEq] at hs
          subst hs; exact hinv
        · simp only [ne_eq, hne, not_false_eq_true, if_true, Option.some.injEq] at hs
          subst hs; exact hinv.congr rfl rfl
  | weakAssignShared this rhs =>
    simp only [step, WeakPtr.assignShared] at hs
    cases ht : w.weakAt this with
    | none => simp [ht] at hs
    | some t =>
      cases hx : w.sharedAt rhs with
      | none => simp [ht, hx] at hs
      | some x =>
        simp only [ht, hx, Option.some.injEq] at hs
        subst hs; exact hinv.congr rfl rfl
  | weakDestroy this =>
    simp only [step, WeakPtr.destroy] at hs
    cases ht : w.weakAt this with
    | none => simp [ht] at hs
    | some t =>
      simp only [ht, Option.map_some', Option.some.injEq] at hs
      subst hs; exact hinv.congr rfl rfl
  | weakReset this =>
    simp only [step, WeakPtr.Reset] at hs
    cases ht : w.weakAt this with
    | none => simp [ht] at hs
    | some t =>
      simp only [ht, Option.map_some', Option.some.injEq] at hs
      subst hs; exact hinv.congr rfl rfl
  | weakSwap this rhs =>
    simp only [step, WeakPtr.Swap] at hs
    cases ht : w.weakAt this with
    | none => simp [ht] at hs
    | some t =>
      cases hx : w.weakAt rhs with
      | none => simp [ht, hx] at hs
      | some x =>
        simp only [ht, hx, Option.some.injEq] at hs
        subst hs; exact hinv.congr rfl rfl
  | weakLock this =>
    simp only [step] at hs
    cases h1 : WeakPtr.Lock w this with
    | none => simp [h1] at hs
    | some res =>
      simp only [h1, Option.map_some', Option.some.injEq] at hs
      subst hs; exact Lock_inv hinv h1

/-- The invariant holds after every run that is defined. -/
theorem run_CountsMatch (ops : List Op) :
    ∀ {w w1 : World}, w.CountsMatch → w.run ops = some w1 → w1.CountsMatch := by
  induction ops with
  | nil =>
    intro w w1 hinv h
    simp only [run, Option.some.injEq] at h
    subst h; exact hinv
  | cons op ops ih =>
    intro w w1 hinv h
    simp only [run] at h
    cases hs : w.step op with
    | none => simp [hs] at h
    | some w2 =>
      simp only [hs, Option.some_bind] at h
      exact ih (step_CountsMatch op hinv hs) h

/-- Under the invariant, once no live `SharedPtr` points to the cell a `WeakPtr` still
points to, the cell has been deleted, and `Expired()` and `Lock()` on that `WeakPtr` read
it: neither has a defined result. -/
theorem expired_undefined_of_no_sharers {w : World} {i : Nat} {x : WeakPtr}
    (hinv : w.CountsMatch) (hx : w.weakAt i = some x) (h0 : x.ref_count_ ≠ 0)
    (hz : w.sharers x.ref_count_ = 0) :
    WeakPtr.UseCount w i = none ∧ WeakPtr.Expired w i = none ∧ WeakPtr.Lock w i = none := by
  have hd : w.deref x.ref_count_ = none := by
    rw [hinv _ h0]; simp [hz]
  have hu : WeakPtr.UseCount w i = none := by
    simp [WeakPtr.UseCount, hx, h0, hd]
  have he : WeakPtr.Expired w i = none := by
    simp [WeakPtr.Expired, hu]
  exact ⟨hu, he, by simp [WeakPtr.Lock, he]⟩

/-- Under the invariant, an owner operation on live objects is defined. -/
theorem step_defined {w : World} (op : Op) (hinv : w.CountsMatch)
    (hop : op.isOwnerOp = true) (hlive : op.objectsLive w = true) :
    ∃ w1, w.step op = some w1 := by
  cases op with
  | sharedFromRaw res => exact ⟨_, rfl⟩
  | sharedCopy rhs =>
    simp only [Op.objectsLive, Option.isSome_iff_exists] at hlive
    obtain ⟨r, hr⟩ := hlive
    obtain ⟨res, h1, _⟩ := copyCtor_ok hinv hr
    exact ⟨res.2, by simp [step, h1]⟩
  | sharedAssign this rhs =>
    simp only [Op.objectsLive, Bool.and_eq_true, Option.isSome_iff_exists] at hlive
    obtain ⟨⟨t, ht⟩, ⟨r, hr⟩⟩ := hlive
    obtain ⟨w1, h1, _⟩ := assign_ok hinv ht hr
    exact ⟨w1, h1⟩
  | sharedDestroy this =>
    simp only [Op.objectsLive, Option.isSome_iff_exists] at hlive
    obtain ⟨t, ht⟩ := hlive
    obtain ⟨w1, h1, _⟩ := destroy_ok hinv ht
    exact ⟨w1, h1⟩
  | sharedReset this =>
    simp only [Op.objectsLive, Option.isSome_iff_exists] at hlive
    obtain ⟨t, ht⟩ := hlive
    obtain ⟨w1, h1, _⟩ := Reset_ok hinv ht
    exact ⟨w1, h1⟩
  | sharedResetTo this res =>
    simp only [Op.objectsLive, Option.isSome_iff_exists] at hlive
    obtain ⟨t, ht⟩ := hlive
    obtain ⟨w1, h1, _⟩ := ResetTo_ok hinv ht res
    exact ⟨w1, h1⟩
  | _ => simp [Op.isOwnerOp] at hop

end World

/-! ## Claims on `HandleGuard` -/

/-- C6: for two distinct live guards `a` and `b`, where `a` holds a valid handle `H1` and `b`
holds `H2`, the move assignment `a = std::move(b)` is defined, calls `CloseHandle` on `H1`
exactly once and on nothing else, leaves `a.Get() == H2` and
`b.Get() == INVALID_HANDLE_VALUE`, and touches no other guard. -/
theorem C6_moveAssign_releases_old_adopts_new (w : GuardWorld) (a b : Nat) (H1 H2 : HANDLE)
    (hab : a ≠ b) (ha : HandleGuard.Get w a = some H1) (hb : HandleGuard.Get w b = some H2)
    (hv : H1 ≠ INVALID_HANDLE_VALUE) :
    ∃ w1, HandleGuard.moveAssign w a b = some w1 ∧
      w1.closed = w.closed ++ [H1] ∧
      HandleGuard.Get w1 a = some H2 ∧
      HandleGuard.Get w1 b = some INVALID_HANDLE_VALUE ∧
      ∀ c, c ≠ a → c ≠ b → w1.guardAt c = w.guardAt c := by
  unfold HandleGuard.Get at ha hb
  cases hga : w.guardAt a with
  | none => simp [hga] at ha
  | some t =>
    cases hgb : w.guardAt b with
    | none => simp [hgb] at hb
    | some o =>
      simp only [hga, hgb, Option.map_some', Option.some.injEq] at ha hb
      have hta : (w.CloseHandle H1).guardAt a = some t := hga
      have hob : ((w.CloseHandle H1).setHandle a H2).guardAt b = some o := by
        rw [GuardWorld.guardAt_setHandle_ne _ hab]; exact hgb
      refine ⟨((w.CloseHandle H1).setHandle a H2).setHandle b INVALID_HANDLE_VALUE, ?_, rfl, ?_, ?_, ?_⟩
      · simp [HandleGuard.moveAssign, hga, hgb, hab, ha, hb, hv]
      · unfold HandleGuard.Get
        rw [GuardWorld.guardAt_setHandle_ne _ (Ne.symm hab),
          GuardWorld.guardAt_setHandle_self _ hta]
        rfl
      · unfold HandleGuard.Get
        rw [GuardWorld.guardAt_setHandle_self _ hob]
        rfl
      · intro c hca hcb
        rw [GuardWorld.guardAt_setHandle_ne _ (Ne.symm hcb),
          GuardWorld.guardAt_setHandle_ne _ (Ne.symm hca)]
        rfl

/-- Witness for C6: guard 0 holds handle 7, guard 1 holds handle 9. -/
theorem C6_moveAssign_releases_old_adopts_new_witness :
    ∃ w1, HandleGuard.moveAssign
        { guards := [some { handle_ := 7 }, some { handle_ := 9 }], closed := [] } 0 1 = some w1 ∧
      w1.closed = [] ++ [7] ∧
      HandleGuard.Get w1 0 = some 9 ∧
      HandleGuard.Get w1 1 = some INVALID_HANDLE_VALUE ∧
      ∀ c, c ≠ 0 → c ≠ 1 → w1.guardAt c =
        GuardWorld.guardAt { guards := [some { handle_ := 7 }, some { handle_ := 9 }], closed := [] } c :=
  C6_moveAssign_releases_old_adopts_new
    { guards := [some { handle_ := 7 }, some { handle_ := 9 }], closed := [] } 0 1 7 9
    (by decide) (by decide) (by decide) (by decide)

/-- Each operation other than wrapping `H` anew keeps the number of live holders of a valid
handle `H` plus the number of releases of `H` unchanged. -/
theorem GuardWorld.step_owners_add_released (w w1 : GuardWorld) (op : GuardOp) (H : HANDLE)
    (hv : H ≠ INVALID_HANDLE_VALUE) (hop : op ≠ GuardOp.construct H)
    (hs : w.step op = some w1) :
    w1.owners H + w1.released H = w.owners H + w.released H := by
  have hv2 : INVALID_HANDLE_VALUE ≠ H := Ne.symm hv
  cases op with
  | construct h =>
    have hne : h ≠ H := fun e => hop (by rw [e])
    simp only [GuardWorld.step, HandleGuard.ctor, GuardWorld.newGuard, Option.some.injEq] at hs
    subst hs
    simp [GuardWorld.owners, GuardWorld.released, List.countP_append, hne]
  | moveConstruct other =>
    simp only [GuardWorld.step, HandleGuard.moveCtor] at hs
    cases hg : w.guardAt other with
    | none => simp [hg] at hs
    | some o =>
      simp only [hg, GuardWorld.newGuard, Option.map_some', Option.some.injEq] at hs
      subst hs
      have hlt := GuardWorld.guardAt_lt hg
      have hget : (w.guards ++ [some { handle_ := o.handle_ }])[other]? = some (some o) := by
        rw [List.getElem?_append_left hlt]; exact GuardWorld.guardAt_eq_some.mp hg
      have := countP_set_add (fun x => decide (x = some { handle_ := H }))
        (w.guards ++ [some { handle_ := o.handle_ }]) other
        (some { handle_ := INVALID_HANDLE_VALUE }) (some o) hget
      cases o with
      | mk oh =>
        simp only [GuardWorld.owners, GuardWorld.released, GuardWorld.setHandle]
        simp only [List.countP_append, List.countP_cons, List.countP_nil, Option.some.injEq,
          HandleGuard.mk.injEq, hv2, decide_False, decide_eq_true_eq] at this ⊢
        simp only [Bool.false_eq_true, if_false] at this
        omega
  | moveAssign this other =>
    simp only [GuardWorld.step, HandleGuard.moveAssign] at hs
    cases hg : w.guardAt this with
    | none => simp [hg] at hs
    | some t =>
      cases hg2 : w.guardAt other with
      | none => simp [hg, hg2] at hs
      | some o =>
        simp only [hg, hg2] at hs
        by_cases hto : this = other
        · simp only [hto, ne_eq, not_true_eq_false, if_false, Option.some.injEq] at hs
          subst hs; rfl
        · simp only [ne_eq, hto, not_false_eq_true, if_true, Option.some.injEq] at hs
          subst hs
          have h1 := countP_set_add (fun x => decide (x = some { handle_ := H }))
            w.guards this (some { handle_ := o.handle_ }) (some t)
            (GuardWorld.guardAt_eq_some.mp hg)
          have hget : (w.guards.set this (some { handle_ := o.handle_ }))[other]? = some (some o) := by
            rw [List.getElem?_set]; simp only [hto, if_false]
            exact GuardWorld.guardAt_eq_some.mp hg2
          have h2 := countP_set_add (fun x => decide (x = some { handle_ := H }))
            (w.guards.set this (some { handle_ := o.handle_ })) other
            (some { handle_ := INVALID_HANDLE_VALUE }) (some o) hget
          cases t with
          | mk th =>
            cases o with
            | mk oh =>
              simp only [Option.some.injEq, HandleGuard.mk.injEq, hv2, decide_False,
                decide_eq_true_eq, Bool.false_eq_true, if_false] at h1 h2
              by_cases hth : th = INVALID_HANDLE_VALUE
              · simp only [hth, ne_eq, not_true_eq_false, if_false, GuardWorld.owners,
                  GuardWorld.released, GuardWorld.setHandle] at h1 h2 ⊢
                simp only [hv2, if_false] at h1
                omega
              · simp only [ne_eq, hth, not_false_eq_true, if_true, GuardWorld.owners,
                  GuardWorld.released, GuardWorld.setHandle, GuardWorld.CloseHandle,
                  List.countP_append, List.countP_cons, List.countP_nil,
                  decide_eq_true_eq] at h1 h2 ⊢
                omega
  | destroy this =>
    simp only [GuardWorld.step, HandleGuard.destroy, HandleGuard.dtor] at hs
    cases hg : w.guardAt this with
    | none => simp [hg] at hs
    | some t =>
      have h1 := countP_set_add (fun x => decide (x = some { handle_ := H }))
        w.guards this none (some t) (GuardWorld.guardAt_eq_some.mp hg)
      cases t with
      | mk th =>
        simp only [hg] at hs
        simp only [Option.some.injEq, HandleGuard.mk.injEq, decide_eq_true_eq,
          decide_False, Bool.false_eq_true, if_false, reduceCtorEq] at h1
        by_cases hth : th = INVALID_HANDLE_VALUE
        · simp only [hth, ne_eq, not_true_eq_false, if_false, Option.map_some',
            Option.some.injEq] at hs
          subst hs
          simp only [hth, hv2, if_false] at h1
          simp only [GuardWorld.owners, GuardWorld.released, GuardWorld.endLifetime]
          omega
        · simp only [ne_eq, hth, not_false_eq_true, if_true, Option.map_some',
            Option.some.injEq] at hs
          subst hs
          simp only [GuardWorld.owners, GuardWorld.released, GuardWorld.endLifetime,
            GuardWorld.CloseHandle, List.countP_append, List.countP_cons, List.countP_nil,
            decide_eq_true_eq]
          omega

theorem GuardWorld.run_owners_add_released (ops : List GuardOp) (H : HANDLE)
    (hv : H ≠ INVALID_HANDLE_VALUE) (hops : ∀ op ∈ ops, op ≠ GuardOp.construct H) :
    ∀ (w w1 : GuardWorld), w.run ops = some w1 →
      w1.owners H + w1.released H = w.owners H + w.released H := by
  induction ops with
  | nil =>
    intro w w1 h
    simp only [GuardWorld.run, Option.some.injEq] at h
    subst h; rfl
  | cons op ops ih =>
    intro w w1 h
    simp only [GuardWorld.run] at h
    cases hs : w.step op with
    | none => simp [hs] at h
    | some w2 =>
      simp only [hs, Option.some_bind] at h
      have h1 := GuardWorld.step_owners_add_released w w2 op H hv
        (hops op (List.mem_cons_self _ _)) hs
      have h2 := ih (fun o ho => hops o (List.mem_cons_of_mem _ ho)) w2 w1 h
      omega

theorem GuardWorld.owners_eq_zero_of_allDestroyed (w : GuardWorld) (H : HANDLE)
    (h : w.allDestroyed) : w.owners H = 0 := by
  unfold GuardWorld.owners
  rw [List.countP_eq_zero]
  intro o ho
  have := h o ho
  simp [this]

/-- No operation calls `CloseHandle` on `INVALID_HANDLE_VALUE`. -/
theorem GuardWorld.step_released_invalid (w w1 : GuardWorld) (op : GuardOp)
    (hs : w.step op = some w1) :
    w1.released INVALID_HANDLE_VALUE = w.released INVALID_HANDLE_VALUE := by
  cases op with
  | construct h =>
    simp only [GuardWorld.step, HandleGuard.ctor, GuardWorld.newGuard, Option.some.injEq] at hs
    subst hs; rfl
  | moveConstruct other =>
    simp only [GuardWorld.step, HandleGuard.moveCtor] at hs
    cases hg : w.guardAt other with
    | none => simp [hg] at hs
    | some o =>
      simp only [hg, GuardWorld.newGuard, Option.map_some', Option.some.injEq] at hs
      subst hs; rfl
  | moveAssign this other =>
    simp only [GuardWorld.step, HandleGuard.moveAssign] at hs
    cases hg : w.guardAt this with
    | none => simp [hg] at hs
    | some t =>
      cases hg2 : w.guardAt other with
      | none => simp [hg, hg2] at hs
      | some o =>
        simp only [hg, hg2] at hs
        by_cases hto : this = other
        · simp only [hto, ne_eq, not_true_eq_false, if_false, Option.some.injEq] at hs
          subst hs; rfl
        · simp only [ne_eq, hto, not_false_eq_true, if_true, Option.some.injEq] at hs
          subst hs
          by_cases hth : t.handle_ = INVALID_HANDLE_VALUE
          · simp [hth, GuardWorld.released, GuardWorld.setHandle]
          · simp [hth, GuardWorld.released, GuardWorld.setHandle, GuardWorld.CloseHandle,
              List.countP_append]
  | destroy this =>
    simp only [GuardWorld.step, HandleGuard.destroy, HandleGuard.dtor] at hs
    cases hg : w.guardAt this with
    | none => simp [hg] at hs
    | some t =>
      simp only [hg] at hs
      by_cases hth : t.handle_ = INVALID_HANDLE_VALUE
      · simp only [hth, ne_eq, not_true_eq_false, if_false, Option.map_some',
          Option.some.injEq] at hs
        subst hs; rfl
      · simp only [ne_eq, hth, not_false_eq_true, if_true, Option.map_some',
          Option.some.injEq] at hs
        subst hs
        simp [hth, GuardWorld.released, GuardWorld.endLifetime, GuardWorld.CloseHandle,
          List.countP_append]

/-- C7: wrap a valid handle `H`, which no guard holds and which has not been released, in a
new guard; then perform any sequence of move constructions, move assignments and
destructions (and constructions of guards for other handles); once every guard has been
destroyed, `CloseHandle` has been called on `H` exactly once. -/
theorem C7_release_exactly_once_per_chain (w0 : GuardWorld) (H : HANDLE)
    (hv : H ≠ INVALID_HANDLE_VALUE) (hfree : w0.owners H = 0) (hnew : w0.released H = 0)
    (ops : List GuardOp) (hops : ∀ op ∈ ops, op ≠ GuardOp.construct H) (w1 : GuardWorld)
    (hrun : (HandleGuard.ctor w0 H).2.run ops = some w1) (hall : w1.allDestroyed) :
    w1.released H = 1 := by
  have h1 := GuardWorld.run_owners_add_released ops H hv hops _ _ hrun
  have h2 := GuardWorld.owners_eq_zero_of_allDestroyed w1 H hall
  have h3 : (HandleGuard.ctor w0 H).2.owners H = w0.owners H + 1 := by
    simp [HandleGuard.ctor, GuardWorld.newGuard, GuardWorld.owners, List.countP_append]
  have h4 : (HandleGuard.ctor w0 H).2.released H = w0.released H := rfl
  omega

/-- Witness for C7: handle 5 is wrapped, moved into a new guard, then move-assigned onto a
guard that held handle 8; all three guards are destroyed. -/
theorem C7_release_exactly_once_per_chain_witness :
    GuardWorld.released { guards := [none, none, none], closed := [8, 5] } 5 = 1 :=
  C7_release_exactly_once_per_chain GuardWorld.empty 5 (by decide) (by decide) (by decide)
    [GuardOp.moveConstruct 0, GuardOp.construct 8, GuardOp.moveAssign 2 1,
      GuardOp.destroy 0, GuardOp.destroy 1, GuardOp.destroy 2]
    (by decide) { guards := [none, none, none], closed := [8, 5] } (by decide) (by decide)

/-- C8, as the claim states it, fails: the destructor body run on a guard holding handle 5
releases 5 and leaves the member at 5; run a second time on that state it releases 5
again. -/
theorem C8_dtor_second_pass_releases_again :
    ¬ (∀ (w : GuardWorld) (g : Nat) (H : HANDLE), HandleGuard.Get w g = some H →
        H ≠ INVALID_HANDLE_VALUE →
        ∃ w1, HandleGuard.dtor w g = some w1 ∧ w1.closed = w.closed ++ [H] ∧
          ∃ w2, HandleGuard.dtor w1 g = some w2 ∧ w2.closed = w1.closed) := by
  intro h
  obtain ⟨w1, h1, _, w2, h2, h3⟩ :=
    h { guards := [some { handle_ := 5 }], closed := [] } 0 5 (by decide) (by decide)
  have e1 : w1 = { guards := [some { handle_ := 5 }], closed := [5] } := by
    have : HandleGuard.dtor { guards := [some { handle_ := 5 }], closed := [] } 0
        = some { guards := [some { handle_ := 5 }], closed := [5] } := by decide
    rw [this] at h1
    exact (Option.some.inj h1).symm
  subst e1
  have e2 : w2 = { guards := [some { handle_ := 5 }], closed := [5, 5] } := by
    have : HandleGuard.dtor { guards := [some { handle_ := 5 }], closed := [5] } 0
        = some { guards := [some { handle_ := 5 }], closed := [5, 5] } := by decide
    rw [this] at h2
    exact (Option.some.inj h2).symm
  subst e2
  exact absurd h3 (by decide)

/-- C8, amended: the destructor body of a live guard holding `H` is defined and writes no
guard; when `H` is not `INVALID_HANDLE_VALUE` it calls `CloseHandle` on `H` exactly once,
and when `H` is `INVALID_HANDLE_VALUE` it calls nothing.  A second pass of the destructor
body over the resulting state performs no further release exactly when `H` is
`INVALID_HANDLE_VALUE`.  Destruction ends the guard's lifetime, after which no destructor
is defined on it. -/
theorem C8_dtor_releases_once_idempotent_iff_invalid (w : GuardWorld) (g : Nat) (H : HANDLE)
    (hg : HandleGuard.Get w g = some H) :
    ∃ w1, HandleGuard.dtor w g = some w1 ∧ w1.guards = w.guards ∧
      (H ≠ INVALID_HANDLE_VALUE → w1.closed = w.closed ++ [H]) ∧
      (H = INVALID_HANDLE_VALUE → w1.closed = w.closed) ∧
      (HandleGuard.dtor w1 g = some w1 ↔ H = INVALID_HANDLE_VALUE) ∧
      ∃ w2, HandleGuard.destroy w g = some w2 ∧ w2.closed = w1.closed ∧
        HandleGuard.dtor w2 g = none ∧ HandleGuard.destroy w2 g = none := by
  unfold HandleGuard.Get at hg
  cases hga : w.guardAt g with
  | none => simp [hga] at hg
  | some t =>
    simp only [hga, Option.map_some', Option.some.injEq] at hg
    have hlt := GuardWorld.guardAt_lt hga
    have hdead : ∀ c : List HANDLE,
        GuardWorld.guardAt { guards := w.guards.set g none, closed := c } g = none := by
      intro c
      simp [GuardWorld.guardAt, List.getElem?_set, hlt]
    by_cases hH : H = INVALID_HANDLE_VALUE
    · refine ⟨w, ?_, rfl, fun h => absurd hH h, fun _ => rfl, ?_, w.endLifetime g, ?_, rfl, ?_, ?_⟩
      · simp [HandleGuard.dtor, hga, hg, hH]
      · simp [HandleGuard.dtor, hga, hg, hH]
      · simp [HandleGuard.destroy, HandleGuard.dtor, hga, hg, hH]
      · simp [HandleGuard.dtor, GuardWorld.endLifetime, hdead]
      · simp [HandleGuard.destroy, HandleGuard.dtor, GuardWorld.endLifetime, hdead]
    · have hga1 : (w.CloseHandle H).guardAt g = some t := hga
      refine ⟨w.CloseHandle H, ?_, rfl, fun _ => rfl, fun h => absurd h hH, ?_,
        (w.CloseHandle H).endLifetime g, ?_, rfl, ?_, ?_⟩
      · simp [HandleGuard.dtor, hga, hg, hH]
      · simp only [HandleGuard.dtor, hga1, hg, ne_eq, hH, not_false_eq_true, if_true,
          Option.some.injEq, iff_false]
        intro h
        have := congrArg (fun x => x.closed.length) h
        simp [GuardWorld.CloseHandle] at this
      · simp [HandleGuard.destroy, HandleGuard.dtor, hga, hg, hH]
      · simp [HandleGuard.dtor, GuardWorld.endLifetime, GuardWorld.CloseHandle, hdead]
      · simp [HandleGuard.destroy, HandleGuard.dtor, GuardWorld.endLifetime,
          GuardWorld.CloseHandle, hdead]

/-- Witness for C8 (amended): a guard holding handle 5. -/
theorem C8_dtor_releases_once_idempotent_iff_invalid_witness :
    ∃ w1, HandleGuard.dtor { guards := [some { handle_ := 5 }], closed := [] } 0 = some w1 ∧
      w1.guards = [some { handle_ := 5 }] ∧
      ((5 : HANDLE) ≠ INVALID_HANDLE_VALUE → w1.closed = [] ++ [5]) ∧
      ((5 : HANDLE) = INVALID_HANDLE_VALUE → w1.closed = []) ∧
      (HandleGuard.dtor w1 0 = some w1 ↔ (5 : HANDLE) = INVALID_HANDLE_VALUE) ∧
      ∃ w2, HandleGuard.destroy { guards := [some { handle_ := 5 }], closed := [] } 0 = some w2 ∧
        w2.closed = w1.closed ∧
        HandleGuard.dtor w2 0 = none ∧ HandleGuard.destroy w2 0 = none :=
  C8_dtor_releases_once_idempotent_iff_invalid
    { guards := [some { handle_ := 5 }], closed := [] } 0 5 (by decide)

/-- C9: for every live guard `g`, whatever it holds, the self move assignment
`g = std::move(g)` is defined and leaves the whole world as it was: `g.Get()` is unchanged
and `CloseHandle` is not called. -/
theorem C9_self_moveAssign_noop (w : GuardWorld) (g : Nat) (H : HANDLE)
    (hg : HandleGuard.Get w g = some H) :
    HandleGuard.moveAssign w g g = some w := by
  unfold HandleGuard.Get at hg
  cases hga : w.guardAt g with
  | none => simp [hga] at hg
  | some t => simp [HandleGuard.moveAssign, hga]

/-- Witness for C9: a guard holding handle 7 and one holding the sentinel. -/
theorem C9_self_moveAssign_noop_witness :
    HandleGuard.moveAssign
        GuardWorld.sample 0 0
      = some GuardWorld.sample :=
  C9_self_moveAssign_noop
    GuardWorld.sample 0 7 (by decide)

/-- C10, as the claim states it, fails for move assignment: in the sample world the guard at
address 1 holds `INVALID_HANDLE_VALUE` and the guard at address 0 holds handle 7; moving the
former onto the latter, `t = std::move(g)`, calls `CloseHandle(7)`. -/
theorem C10_moveAssign_from_invalid_releases_target :
    ¬ (∀ (w : GuardWorld) (g t : Nat) (w1 : GuardWorld),
        HandleGuard.Get w g = some INVALID_HANDLE_VALUE →
        HandleGuard.moveAssign w t g = some w1 → w1.closed = w.closed) := by
  intro h
  have h1 := h GuardWorld.sample 1 0
    { guards := [some { handle_ := INVALID_HANDLE_VALUE },
        some { handle_ := INVALID_HANDLE_VALUE }], closed := [3, 7] }
    (by decide) (by decide)
  exact absurd h1 (by decide)

/-- C10, amended: for every result `h` of the acquisition call, `CreateFileGuard` returns a
live guard with `Get() == h` and calls no release, so `Get() == INVALID_HANDLE_VALUE` iff
acquisition failed.  No operation ever calls `CloseHandle` on `INVALID_HANDLE_VALUE`, and
for a guard `g` holding `INVALID_HANDLE_VALUE`: constructing it, move-constructing from it,
move-assigning onto it and destroying it call no release at all; move-assigning it onto a
guard `t` that holds `T` calls no release when `T` is `INVALID_HANDLE_VALUE` and exactly
`CloseHandle(T)` otherwise. -/
theorem C10_invalid_guard_never_released (w : GuardWorld) (h : HANDLE) :
    (HandleGuard.Get (CreateFileGuard w h).2 (CreateFileGuard w h).1 = some h ∧
      (CreateFileGuard w h).2.closed = w.closed ∧
      (HandleGuard.Get (CreateFileGuard w h).2 (CreateFileGuard w h).1
          = some INVALID_HANDLE_VALUE ↔ h = INVALID_HANDLE_VALUE)) ∧
    (∀ (op : GuardOp) (w1 : GuardWorld), w.step op = some w1 →
      w1.released INVALID_HANDLE_VALUE = w.released INVALID_HANDLE_VALUE) ∧
    (HandleGuard.ctor w INVALID_HANDLE_VALUE).2.closed = w.closed ∧
    (∀ g : Nat, HandleGuard.Get w g = some INVALID_HANDLE_VALUE →
      (∃ r, HandleGuard.moveCtor w g = some r ∧ r.2.closed = w.closed ∧
        HandleGuard.Get r.2 r.1 = some INVALID_HANDLE_VALUE) ∧
      (∀ src w1, HandleGuard.moveAssign w g src = some w1 → w1.closed = w.closed) ∧
      (∀ t T w1, HandleGuard.Get w t = some T → HandleGuard.moveAssign w t g = some w1 →
        (T = INVALID_HANDLE_VALUE → w1.closed = w.closed) ∧
          (T ≠ INVALID_HANDLE_VALUE → w1.closed = w.closed ++ [T])) ∧
      (∃ w1, HandleGuard.destroy w g = some w1 ∧ w1.closed = w.closed)) := by
  refine ⟨⟨?_, ?_, ?_⟩, fun op w1 hs => GuardWorld.step_released_invalid w w1 op hs, rfl, ?_⟩
  · by_cases hh : h = INVALID_HANDLE_VALUE <;>
      simp [CreateFileGuard, hh, HandleGuard.ctor, GuardWorld.newGuard, HandleGuard.Get,
        GuardWorld.guardAt]
  · by_cases hh : h = INVALID_HANDLE_VALUE <;>
      simp [CreateFileGuard, hh, HandleGuard.ctor, GuardWorld.newGuard]
  · by_cases hh : h = INVALID_HANDLE_VALUE <;>
      simp [CreateFileGuard, hh, HandleGuard.ctor, GuardWorld.newGuard, HandleGuard.Get,
        GuardWorld.guardAt]
  · intro g hg
    unfold HandleGuard.Get at hg
    cases hga : w.guardAt g with
    | none => simp [hga] at hg
    | some o =>
      simp only [hga, Option.map_some', Option.some.injEq] at hg
      have hlt := GuardWorld.guardAt_lt hga
      refine ⟨?_, ?_, ?_, ?_⟩
      · refine ⟨_, by simp only [HandleGuard.moveCtor, hga]; rfl, rfl, ?_⟩
        have hne : g ≠ w.guards.length := by omega
        simp [HandleGuard.Get, GuardWorld.newGuard, GuardWorld.guardAt, GuardWorld.setHandle,
          List.getElem?_set, hne, hg]
      · intro src w1 hma
        simp only [HandleGuard.moveAssign, hga] at hma
        cases hgs : w.guardAt src with
        | none => simp [hgs] at hma
        | some s0 =>
          simp only [hgs, hg, ne_eq, not_true_eq_false, if_false] at hma
          by_cases hne : g = src
          · simp only [hne, not_true_eq_false, if_false, Option.some.injEq] at hma
            subst hma; rfl
          · simp only [hne, not_false_eq_true, if_true, Option.some.injEq] at hma
            subst hma; rfl
      · intro t T w1 ht hma
        unfold HandleGuard.Get at ht
        cases hgt : w.guardAt t with
        | none => simp [hgt] at ht
        | some t0 =>
          simp only [hgt, Option.map_some', Option.some.injEq] at ht
          by_cases hne : t = g
          · have hT : T = INVALID_HANDLE_VALUE := by
              rw [hne, hga] at hgt
              rw [← ht, ← Option.some.inj hgt, hg]
            simp only [HandleGuard.moveAssign, hgt, hga, ht] at hma
            simp only [hne, ne_eq, not_true_eq_false, if_false, Option.some.injEq] at hma
            subst hma
            exact ⟨fun _ => rfl, fun h => absurd hT h⟩
          · simp only [HandleGuard.moveAssign, hgt, hga, ht] at hma
            simp only [ne_eq, hne, not_false_eq_true, if_true, Option.some.injEq] at hma
            subst hma
            by_cases hT : T = INVALID_HANDLE_VALUE
            · exact ⟨fun _ => by simp [hT, GuardWorld.setHandle], fun h => absurd hT h⟩
            · exact ⟨fun h => absurd h hT,
                fun _ => by simp [hT, GuardWorld.setHandle, GuardWorld.CloseHandle]⟩
      · exact ⟨w.endLifetime g, by simp [HandleGuard.destroy, HandleGuard.dtor, hga, hg], rfl⟩

/-- Witness for C10: acquisition fails in the empty world, as in `main` when `example.txt`
does not exist; the returned guard holds the sentinel and its destruction releases
nothing.  In the sample world, moving the guard that holds the sentinel onto the guard that
holds handle 7 releases exactly 7. -/
theorem C10_invalid_guard_never_released_witness :
    HandleGuard.Get (CreateFileGuard GuardWorld.empty INVALID_HANDLE_VALUE).2
        (CreateFileGuard GuardWorld.empty INVALID_HANDLE_VALUE).1
      = some INVALID_HANDLE_VALUE ∧
    (∃ w1, HandleGuard.destroy (CreateFileGuard GuardWorld.empty INVALID_HANDLE_VALUE).2 0
        = some w1 ∧
      w1.closed = (CreateFileGuard GuardWorld.empty INVALID_HANDLE_VALUE).2.closed) ∧
    ∃ w1, HandleGuard.moveAssign GuardWorld.sample 0 1 = some w1 ∧
      w1.closed = GuardWorld.sample.closed ++ [7] :=
  ⟨(C10_invalid_guard_never_released GuardWorld.empty INVALID_HANDLE_VALUE).1.1,
    ((C10_invalid_guard_never_released
      (CreateFileGuard GuardWorld.empty INVALID_HANDLE_VALUE).2 0).2.2.2 0 (by decide)).2.2.2,
    ⟨{ guards := [some { handle_ := INVALID_HANDLE_VALUE },
        some { handle_ := INVALID_HANDLE_VALUE }], closed := [3, 7] }, by decide,
      ((((C10_invalid_guard_never_released GuardWorld.sample 0).2.2.2 1
        (by decide)).2.2.1 0 7 _ (by decide) (by decide)).2 (by decide))⟩⟩

/-! ## Claims on `SharedPtr` and `WeakPtr` -/

/-- C1: start from the state with no objects and perform any finite sequence of public
operations of the two classes; these include every sequence of the `SharedPtr` operations
construct-from-raw-pointer, copy-construct, copy-assign, `Reset()`, `Reset(res)` and
destroy.  In every state so reached, for each live non-empty `SharedPtr` the call
`UseCount()` returns exactly the number of live `SharedPtr` objects whose `ref_count_` is
the same count cell; and each of those six operations, on live objects, has a defined
result there, so a program made of them reaches a state after every step. -/
theorem C1_useCount_eq_live_sharers (ops : List Op) (w : World)
    (hrun : World.empty.run ops = some w) :
    (∀ i s, w.sharedAt i = some s → s.ref_count_ ≠ 0 →
      SharedPtr.UseCount w i = some (w.sharers s.ref_count_ : Int)) ∧
    (∀ op : Op, op.isOwnerOp = true → op.objectsLive w = true → ∃ w1, w.step op = some w1) := by
  have hinv := World.run_CountsMatch ops World.empty_CountsMatch hrun
  refine ⟨?_, fun op h1 h2 => World.step_defined op hinv h1 h2⟩
  intro i s hs h0
  have hpos := World.sharers_pos hs
  have hz : w.sharers s.ref_count_ ≠ 0 := by omega
  simp only [SharedPtr.UseCount, hs, ne_eq, h0, not_false_eq_true, if_true]
  rw [hinv _ h0]
  simp [hz]

/-- Witness for C1: `SharedPtr a(p24); SharedPtr b(a); SharedPtr c(p30); c = a;` leaves three
owners of the cell at address 1, and each reports a count of 3. -/
theorem C1_useCount_eq_live_sharers_witness :
    SharedPtr.UseCount (World.mk [some 3, none]
        [HeapEvent.newCount 1, HeapEvent.incr 1, HeapEvent.newCount 2, HeapEvent.decr 2,
          HeapEvent.deleteRes 30, HeapEvent.deleteCount 2, HeapEvent.incr 1]
        [some { ptr_ := 24, ref_count_ := 1 }, some { ptr_ := 24, ref_count_ := 1 },
          some { ptr_ := 24, ref_count_ := 1 }] []) 2
      = some ((3 : Nat) : Int) :=
  (C1_useCount_eq_live_sharers
    [Op.sharedFromRaw 24, Op.sharedCopy 0, Op.sharedFromRaw 30, Op.sharedAssign 2 0] _
    (by decide)).1 2 { ptr_ := 24, ref_count_ := 1 } (by decide) (by decide)

/-- C2, evaluated on the code: in `SharedPtr<int> s(p); WeakPtr<int> w = s; s.Reset();`
the decrement in `Clear` reaches zero and the count cell is deleted, while `w` keeps its
address.  `w.Expired()` and `w.Lock()` then read `*ref_count_` on the deleted cell, which
is not defined, so neither returns a value.  The same holds after
`SharedPtr<int> s1(p); SharedPtr<int> s2(s1); WeakPtr<int> w = s1; s1.Reset(); s2.Reset();`. -/
theorem C2_expired_reads_deleted_count_cell :
    (∃ w, World.run World.empty [Op.sharedFromRaw 24, Op.weakFromShared 0, Op.sharedReset 0]
        = some w ∧
      w.weakAt 0 = some { ptr_ := 24, ref_count_ := 1 } ∧
      w.sharers 1 = 0 ∧
      HeapEvent.deleteCount 1 ∈ w.events ∧
      w.deref 1 = none ∧
      WeakPtr.Expired w 0 = none ∧
      WeakPtr.Lock w 0 = none) ∧
    (∃ w, World.run World.empty [Op.sharedFromRaw 24, Op.sharedCopy 0, Op.weakFromShared 0,
          Op.sharedReset 0, Op.sharedReset 1] = some w ∧
      w.weakAt 0 = some { ptr_ := 24, ref_count_ := 1 } ∧
      w.sharers 1 = 0 ∧
      HeapEvent.deleteCount 1 ∈ w.events ∧
      w.deref 1 = none ∧
      WeakPtr.Expired w 0 = none ∧
      WeakPtr.Lock w 0 = none) := by
  refine ⟨⟨_, rfl, ?_⟩, ⟨_, rfl, ?_⟩⟩ <;> decide

/-- C3: for a live `WeakPtr` `x` whose count cell is allocated and holds `n >= 1`, `x.Lock()`
is defined and returns a new `SharedPtr` with the same `ptr_` and the same non-null
`ref_count_`; afterwards the cell holds exactly `n + 1`, which is what `x.UseCount()` and
the `UseCount()` of every `SharedPtr` with that `ref_count_` report.  No other cell and no
other object changes, and the only heap event is the one increment. -/
theorem C3_lock_live_increments (w : World) (i : Nat) (x : WeakPtr) (n : Int)
    (hx : w.weakAt i = some x) (hn : w.deref x.ref_count_ = some n) (h1 : 1 ≤ n) :
    ∃ j w1, WeakPtr.Lock w i = some (j, w1) ∧
      w.sharedAt j = none ∧
      w1.sharedAt j = some { ptr_ := x.ptr_, ref_count_ := x.ref_count_ } ∧
      x.ref_count_ ≠ 0 ∧
      SharedPtr.Get w1 j = some x.ptr_ ∧
      SharedPtr.UseCount w1 j = some (n + 1) ∧
      w1.deref x.ref_count_ = some (n + 1) ∧
      WeakPtr.UseCount w1 i = some (n + 1) ∧
      (∀ k s, w1.sharedAt k = some s → s.ref_count_ = x.ref_count_ →
        SharedPtr.UseCount w1 k = some (n + 1)) ∧
      (∀ a, a ≠ x.ref_count_ → w1.deref a = w.deref a) ∧
      (∀ k, k ≠ j → w1.sharedAt k = w.sharedAt k) ∧
      w1.weak = w.weak ∧
      w1.events = w.events ++ [HeapEvent.incr x.ref_count_] := by
  have h0 : x.ref_count_ ≠ 0 := World.deref_ne_null hn
  have hn0 : n ≠ 0 := by omega
  have hexp : WeakPtr.Expired w i = some false := by
    simp [WeakPtr.Expired, WeakPtr.UseCount, hx, h0, hn, hn0]
  have hn' : (w.newShared { ptr_ := x.ptr_, ref_count_ := x.ref_count_ }).2.deref x.ref_count_
      = some n := hn
  have hd : ∀ a, World.deref
      { (World.store (w.newShared { ptr_ := x.ptr_, ref_count_ := x.ref_count_ }).2
          x.ref_count_ (n + 1)) with
        events := w.events ++ [HeapEvent.incr x.ref_count_] } a
      = if a = x.ref_count_ then some (n + 1) else w.deref a := by
    intro a
    exact World.deref_store (n + 1) a hn'
  have hs : ∀ k, World.sharedAt
      { (World.store (w.newShared { ptr_ := x.ptr_, ref_count_ := x.ref_count_ }).2
          x.ref_count_ (n + 1)) with
        events := w.events ++ [HeapEvent.incr x.ref_count_] } k
      = if k = w.shared.length then some { ptr_ := x.ptr_, ref_count_ := x.ref_count_ }
        else w.sharedAt k := by
    intro k
    exact World.sharedAt_newShared w _ k
  refine ⟨w.shared.length,
    { (World.store (w.newShared { ptr_ := x.ptr_, ref_count_ := x.ref_count_ }).2
          x.ref_count_ (n + 1)) with
        events := w.events ++ [HeapEvent.incr x.ref_count_] }, ?_, ?_, ?_, h0, ?_, ?_, ?_, ?_,
    ?_, ?_, ?_, rfl, rfl⟩
  · simp only [WeakPtr.Lock, hexp, SharedPtr.ctorWeak, hx, World.incr, hn']
    rfl
  · simp [World.sharedAt]
  · rw [hs]; simp
  · simp only [SharedPtr.Get, hs]; simp
  · simp only [SharedPtr.UseCount, hs]; simp [h0, hd]
  · rw [hd]; simp
  · have hx1 : World.weakAt
        { (World.store (w.newShared { ptr_ := x.ptr_, ref_count_ := x.ref_count_ }).2
            x.ref_count_ (n + 1)) with
          events := w.events ++ [HeapEvent.incr x.ref_count_] } i = some x := hx
    simp only [WeakPtr.UseCount, hx1]; simp [h0, hd]
  · intro k s hk hrc
    simp only [SharedPtr.UseCount, hk]
    simp [hrc, h0, hd]
  · intro a ha
    rw [hd]; simp [ha]
  · intro k hk
    rw [hs]; simp [hk]

/-- Witness for C3: two owners of the cell at address 1 and a `WeakPtr` made from one of
them. -/
theorem C3_lock_live_increments_witness :
    ∃ j w1, WeakPtr.Lock World.sampleTwoOwners 0 = some (j, w1) ∧
      World.sampleTwoOwners.sharedAt j = none ∧
      w1.sharedAt j = some { ptr_ := 24, ref_count_ := 1 } ∧
      (1 : Nat) ≠ 0 ∧
      SharedPtr.Get w1 j = some 24 ∧
      SharedPtr.UseCount w1 j = some (2 + 1) ∧
      w1.deref 1 = some (2 + 1) ∧
      WeakPtr.UseCount w1 0 = some (2 + 1) ∧
      (∀ k s, w1.sharedAt k = some s → s.ref_count_ = 1 →
        SharedPtr.UseCount w1 k = some (2 + 1)) ∧
      (∀ a, a ≠ 1 → w1.deref a = World.sampleTwoOwners.deref a) ∧
      (∀ k, k ≠ j → w1.sharedAt k = World.sampleTwoOwners.sharedAt k) ∧
      w1.weak = World.sampleTwoOwners.weak ∧
      w1.events = World.sampleTwoOwners.events ++ [HeapEvent.incr 1] :=
  C3_lock_live_increments World.sampleTwoOwners 0 { ptr_ := 24, ref_count_ := 1 } 2
    (by decide) (by decide) (by decide)

/-- C4: for every live `SharedPtr` `s`, empty or not, whatever its count cell holds, the
self copy assignment `s = s` is defined and leaves the whole state as it was: `s.Get()`,
`s.UseCount()`, every count cell and every other object are unchanged, and no heap event
happens (no decrement, no increment, no `delete`). -/
theorem C4_self_assign_noop (w : World) (i : Nat) (s : SharedPtr)
    (hs : w.sharedAt i = some s) :
    SharedPtr.assign w i i = some w := by
  simp [SharedPtr.assign, hs]

/-- Witness for C4: an owner of the cell at address 1. -/
theorem C4_self_assign_noop_witness :
    SharedPtr.assign World.sampleTwoOwners 0 0 = some World.sampleTwoOwners :=
  C4_self_assign_noop World.sampleTwoOwners 0 { ptr_ := 24, ref_count_ := 1 } (by decide)

/-- C5: for live `SharedPtr` objects `a` and `b`, `a.Swap(b)` is defined; afterwards
`a.Get()` and `a.UseCount()` are what `b.Get()` and `b.UseCount()` were before and vice
versa; the count cells are the same, there is no heap event (no increment, decrement,
allocation or `delete`), and no other object changes. -/
theorem C5_swap_exchanges (w : World) (a b : Nat) (sa sb : SharedPtr)
    (ha : w.sharedAt a = some sa) (hb : w.sharedAt b = some sb) :
    ∃ w1, SharedPtr.Swap w a b = some w1 ∧
      SharedPtr.Get w1 a = SharedPtr.Get w b ∧
      SharedPtr.UseCount w1 a = SharedPtr.UseCount w b ∧
      SharedPtr.Get w1 b = SharedPtr.Get w a ∧
      SharedPtr.UseCount w1 b = SharedPtr.UseCount w a ∧
      w1.counts = w.counts ∧ w1.events = w.events ∧ w1.weak = w.weak ∧
      ∀ c, c ≠ a → c ≠ b → w1.sharedAt c = w.sharedAt c := by
  have hla := World.sharedAt_lt ha
  have hlb := World.sharedAt_lt hb
  have hlb' : b < (w.setShared a { ptr_ := sb.ptr_, ref_count_ := sb.ref_count_ }).shared.length := by
    simpa [World.setShared] using hlb
  have kb : ((w.setShared a { ptr_ := sb.ptr_, ref_count_ := sb.ref_count_ }).setShared b
      { ptr_ := sa.ptr_, ref_count_ := sa.ref_count_ }).sharedAt b = some sa := by
    rw [World.sharedAt_setShared]; simp [hlb']
  have ka : ((w.setShared a { ptr_ := sb.ptr_, ref_count_ := sb.ref_count_ }).setShared b
      { ptr_ := sa.ptr_, ref_count_ := sa.ref_count_ }).sharedAt a = some sb := by
    by_cases hab : a = b
    · subst hab
      rw [kb, ← ha, hb]
    · rw [World.sharedAt_setShared_ne _ _ (Ne.symm hab), World.sharedAt_setShared]
      simp [hla]
  have hd : ∀ x, World.deref ((w.setShared a { ptr_ := sb.ptr_, ref_count_ := sb.ref_count_ }).setShared b
      { ptr_ := sa.ptr_, ref_count_ := sa.ref_count_ }) x = w.deref x := fun _ => rfl
  refine ⟨(w.setShared a { ptr_ := sb.ptr_, ref_count_ := sb.ref_count_ }).setShared b
      { ptr_ := sa.ptr_, ref_count_ := sa.ref_count_ }, ?_, ?_, ?_, ?_, ?_, rfl, rfl, rfl, ?_⟩
  · simp [SharedPtr.Swap, ha, hb]
  · simp [SharedPtr.Get, ka, hb]
  · simp [SharedPtr.UseCount, ka, hb, hd]
  · simp [SharedPtr.Get, kb, ha]
  · simp [SharedPtr.UseCount, kb, ha, hd]
  · intro c hca hcb
    rw [World.sharedAt_setShared_ne _ _ (Ne.symm hcb),
      World.sharedAt_setShared_ne _ _ (Ne.symm hca)]

/-- Witness for C5: an owner of the cell at address 1 is swapped with an empty `SharedPtr`. -/
theorem C5_swap_exchanges_witness :
    ∃ w1, SharedPtr.Swap World.sampleTwoOwners 0 2 = some w1 ∧
      SharedPtr.Get w1 0 = SharedPtr.Get World.sampleTwoOwners 2 ∧
      SharedPtr.UseCount w1 0 = SharedPtr.UseCount World.sampleTwoOwners 2 ∧
      SharedPtr.Get w1 2 = SharedPtr.Get World.sampleTwoOwners 0 ∧
      SharedPtr.UseCount w1 2 = SharedPtr.UseCount World.sampleTwoOwners 0 ∧
      w1.counts = World.sampleTwoOwners.counts ∧ w1.events = World.sampleTwoOwners.events ∧
      w1.weak = World.sampleTwoOwners.weak ∧
      ∀ c, c ≠ 0 → c ≠ 2 → w1.sharedAt c = World.sampleTwoOwners.sharedAt c :=
  C5_swap_exchanges World.sampleTwoOwners 0 2 { ptr_ := 24, ref_count_ := 1 }
    { ptr_ := 0, ref_count_ := 0 } (by decide) (by decide)

/-! ## What `Clear` and the operations built on it compute -/

namespace World

theorem cellAt_set_self {cs : List (Option Int)} {a : Nat} {c : Int} (v : Option Int)
    (h : cellAt cs a = some c) : cellAt (cs.set (a - 1) v) a = v := by
  rw [cellAt_set v a h]; simp

theorem Clear_eq {w : World} {this : Nat} {t : SharedPtr} {n : Int}
    (ht : w.sharedAt this = some t) (h0 : t.ref_count_ ≠ 0)
    (hn : w.deref t.ref_count_ = some n) :
    SharedPtr.Clear w this = some (w.afterClear t n) := by
  have hc : cellAt w.counts t.ref_count_ = some n := hn
  have hst := cellAt_set_self (some (n - 1)) hc
  by_cases h1 : n = 1
  · subst h1
    have hst0 : cellAt (w.counts.set (t.ref_count_ - 1) (some 0)) t.ref_count_ = some 0 := by
      simpa using hst
    simp [SharedPtr.Clear, ht, h0, decr, deref_eq, hc, store, deleteRes, deleteCount, hst0,
      afterClear]
  · have hne : n - 1 ≠ 0 := by omega
    simp [SharedPtr.Clear, ht, h0, decr, deref_eq, hc, store, hne, h1, afterClear]

theorem Clear_eq_null {w : World} {this : Nat} {t : SharedPtr}
    (ht : w.sharedAt this = some t) (h0 : t.ref_count_ = 0) :
    SharedPtr.Clear w this = some w := by
  simp [SharedPtr.Clear, ht, h0]

/-- Whenever `Clear` is defined, it ran on a live object that was empty, or whose count
cell was allocated. -/
theorem Clear_inv {w w1 : World} {this : Nat} (h : SharedPtr.Clear w this = some w1) :
    ∃ t, w.sharedAt this = some t ∧
      ((t.ref_count_ = 0 ∧ w1 = w) ∨
        (t.ref_count_ ≠ 0 ∧ ∃ n, w.deref t.ref_count_ = some n ∧ w1 = w.afterClear t n)) := by
  cases ht : w.sharedAt this with
  | none => simp [SharedPtr.Clear, ht] at h
  | some t =>
    refine ⟨t, rfl, ?_⟩
    by_cases h0 : t.ref_count_ = 0
    · rw [Clear_eq_null ht h0] at h
      exact Or.inl ⟨h0, (Option.some.inj h).symm⟩
    · cases hn : w.deref t.ref_count_ with
      | none => simp [SharedPtr.Clear, ht, h0, decr, hn] at h
      | some n =>
        rw [Clear_eq ht h0 hn] at h
        exact Or.inr ⟨h0, n, rfl, (Option.some.inj h).symm⟩

theorem deref_afterClear {w : World} {t : SharedPtr} {n : Int}
    (hn : w.deref t.ref_count_ = some n) (a : Nat) :
    (w.afterClear t n).deref a
      = if a = t.ref_count_ then (if n = 1 then none else some (n - 1)) else w.deref a :=
  cellAt_set _ a hn

theorem incr_eq {w : World} {a : Nat} {n : Int} (hn : w.deref a = some n) :
    w.incr a = some (n + 1,
      World.mk (w.counts.set (a - 1) (some (n + 1))) (w.events ++ [HeapEvent.incr a])
        w.shared w.weak) := by
  simp [incr, hn, store]

theorem incr_inv {w w1 : World} {a : Nat} {c : Int} (h : w.incr a = some (c, w1)) :
    ∃ n, w.deref a = some n ∧ c = n + 1 ∧
      w1 = World.mk (w.counts.set (a - 1) (some (n + 1))) (w.events ++ [HeapEvent.incr a])
        w.shared w.weak := by
  cases hn : w.deref a with
  | none => simp [incr, hn] at h
  | some n =>
    rw [incr_eq hn] at h
    have := Option.some.inj h
    exact ⟨n, rfl, (congrArg Prod.fst this).symm, (congrArg Prod.snd this).symm⟩

theorem set_same {α : Type} {l : List α} {i : Nat} {x : α} (h : l[i]? = some x) :
    l.set i x = l := by
  induction l generalizing i with
  | nil => rfl
  | cons y l ih =>
    cases i with
    | zero =>
      simp only [List.getElem?_cons_zero, Option.some.injEq] at h
      simp [h]
    | succ i =>
      simp only [List.getElem?_cons_succ] at h
      simp [ih h]

theorem cellAt_getElem? {cs : List (Option Int)} {a : Nat} {c : Int}
    (h : cellAt cs a = some c) : cs[a - 1]? = some (some c) := by
  have h0 := cellAt_ne_null h
  unfold cellAt at h
  simp only [h0, if_false] at h
  cases hx : cs[a - 1]? with
  | none => simp [hx] at h
  | some o =>
    cases o with
    | none => simp [hx] at h
    | some v =>
      simp [hx] at h
      rw [h]

end World

/-! ## Claims on `Reset`, copy construction and assignment -/

/-- C11: let `s` be a live `SharedPtr` whose count cell, if it has one, holds `n`.
`Reset()` is defined and leaves `s` empty (`Get()` null, `UseCount()` 0); when `s` was not
empty the only heap events are one decrement of its cell, followed by `delete ptr_` and
`delete ref_count_` exactly when the count reached zero (`n` was 1), and the cell then
holds `n - 1` or is freed.  `Reset(p)` performs the same release, then allocates a new
cell and leaves `Get() == p` and `UseCount() == 1` on it.  No other cell and no other
object changes.  `Reset()` on an empty `s` causes no heap event and changes no cell, and
changes nothing at all when `s` is already `(nullptr, nullptr)`. -/
theorem C11_reset_releases_then_empty_or_fresh (w : World) (i : Nat) (s : SharedPtr) (n : Int)
    (hs : w.sharedAt i = some s) (hn : s.ref_count_ ≠ 0 → w.deref s.ref_count_ = some n) :
    (∃ w1, SharedPtr.Reset w i = some w1 ∧
      w1.sharedAt i = some { ptr_ := 0, ref_count_ := 0 } ∧
      SharedPtr.Get w1 i = some 0 ∧ SharedPtr.UseCount w1 i = some 0 ∧
      w1.events = w.events ++
        (if s.ref_count_ = 0 then []
         else if n = 1 then
           [HeapEvent.decr s.ref_count_, HeapEvent.deleteRes s.ptr_,
             HeapEvent.deleteCount s.ref_count_]
         else [HeapEvent.decr s.ref_count_]) ∧
      (∀ a, w1.deref a
        = if a = s.ref_count_ ∧ s.ref_count_ ≠ 0 then (if n = 1 then none else some (n - 1))
          else w.deref a) ∧
      (∀ k, k ≠ i → w1.sharedAt k = w.sharedAt k) ∧ w1.weak = w.weak) ∧
    (∀ p, ∃ w2, SharedPtr.ResetTo w i p = some w2 ∧
      w.deref (w.counts.length + 1) = none ∧
      w2.sharedAt i = some { ptr_ := p, ref_count_ := w.counts.length + 1 } ∧
      SharedPtr.Get w2 i = some p ∧ SharedPtr.UseCount w2 i = some 1 ∧
      w2.events = w.events ++
        (if s.ref_count_ = 0 then []
         else if n = 1 then
           [HeapEvent.decr s.ref_count_, HeapEvent.deleteRes s.ptr_,
             HeapEvent.deleteCount s.ref_count_]
         else [HeapEvent.decr s.ref_count_]) ++ [HeapEvent.newCount (w.counts.length + 1)] ∧
      (∀ a, a ≠ w.counts.length + 1 → w2.deref a
        = if a = s.ref_count_ ∧ s.ref_count_ ≠ 0 then (if n = 1 then none else some (n - 1))
          else w.deref a) ∧
      (∀ k, k ≠ i → w2.sharedAt k = w.sharedAt k) ∧ w2.weak = w.weak) ∧
    (s.ref_count_ = 0 → ∃ w1, SharedPtr.Reset w i = some w1 ∧
      w1.counts = w.counts ∧ w1.events = w.events ∧ w1.weak = w.weak ∧
      w1.sharedAt i = some { ptr_ := 0, ref_count_ := 0 } ∧ (s.ptr_ = 0 → w1 = w)) := by
  have hfresh : w.deref (w.counts.length + 1) = none := by
    simp [World.deref, World.cellAt]
  by_cases h0 : s.ref_count_ = 0
  · have hcl := World.Clear_eq_null hs h0
    have hR : SharedPtr.Reset w i = some (w.setShared i { ptr_ := 0, ref_count_ := 0 }) := by
      simp [SharedPtr.Reset, hcl]
    have hat := World.sharedAt_setShared_self { ptr_ := 0, ref_count_ := 0 } hs
    refine ⟨⟨_, hR, hat, ?_, ?_, ?_, ?_, ?_, rfl⟩, ?_, ?_⟩
    · simp [SharedPtr.Get, hat]
    · simp [SharedPtr.UseCount, hat]
    · simp [h0, World.setShared]
    · intro a; simp [h0]; rfl
    · intro k hk; exact World.sharedAt_setShared_ne _ _ (Ne.symm hk)
    · intro p
      have hat2 : World.sharedAt ((w.newLong 1).2.setShared i
          { ptr_ := p, ref_count_ := w.counts.length + 1 }) i
          = some { ptr_ := p, ref_count_ := w.counts.length + 1 } :=
        World.sharedAt_setShared_self (w := (w.newLong 1).2) _ hs
      have hd2 : ∀ a, World.deref ((w.newLong 1).2.setShared i
          { ptr_ := p, ref_count_ := w.counts.length + 1 }) a
          = if a = w.counts.length + 1 then some 1 else w.deref a :=
        fun a => World.cellAt_append w.counts 1 a
      refine ⟨(w.newLong 1).2.setShared i { ptr_ := p, ref_count_ := w.counts.length + 1 },
        ?_, hfresh, hat2, ?_, ?_, ?_, ?_, ?_, rfl⟩
      · simp only [SharedPtr.ResetTo, hcl]; rfl
      · simp [SharedPtr.Get, hat2]
      · simp [SharedPtr.UseCount, hat2, hd2]
      · simp [h0, World.setShared, World.newLong]
      · intro a ha; rw [hd2]; simp [ha, h0]
      · intro k hk
        exact World.sharedAt_setShared_ne (World.newLong w 1).2 _ (Ne.symm hk)
    · intro _
      refine ⟨_, hR, rfl, rfl, rfl, hat, ?_⟩
      intro hp
      have hs' : w.shared[i]? = some (some { ptr_ := 0, ref_count_ := 0 }) := by
        have := World.sharedAt_eq_some.mp hs
        rw [this]
        cases s with
        | mk sp sr =>
          simp only at hp h0
          subst hp; subst h0; rfl
      simp only [World.setShared, World.set_same hs']
  · have hn' := hn h0
    have hcl := World.Clear_eq hs h0 hn'
    have hs1 : (w.afterClear s n).sharedAt i = some s := hs
    have hd1 := World.deref_afterClear hn'
    have hR : SharedPtr.Reset w i
        = some ((w.afterClear s n).setShared i { ptr_ := 0, ref_count_ := 0 }) := by
      simp [SharedPtr.Reset, hcl]
    have hat := World.sharedAt_setShared_self { ptr_ := 0, ref_count_ := 0 } hs1
    refine ⟨⟨_, hR, hat, ?_, ?_, ?_, ?_, ?_, rfl⟩, ?_, fun h => absurd h h0⟩
    · simp [SharedPtr.Get, hat]
    · simp [SharedPtr.UseCount, hat]
    · simp [h0, World.setShared, World.afterClear]
    · intro a
      have : World.deref ((w.afterClear s n).setShared i { ptr_ := 0, ref_count_ := 0 }) a
          = (w.afterClear s n).deref a := rfl
      rw [this, hd1]
      by_cases ha : a = s.ref_count_ <;> simp [ha, h0]
    · intro k hk
      rw [World.sharedAt_setShared_ne _ _ (Ne.symm hk)]; rfl
    · intro p
      have hlen : (w.afterClear s n).counts.length = w.counts.length := by
        simp [World.afterClear]
      have hat2 : World.sharedAt (((w.afterClear s n).newLong 1).2.setShared i
          { ptr_ := p, ref_count_ := (w.afterClear s n).counts.length + 1 }) i
          = some { ptr_ := p, ref_count_ := (w.afterClear s n).counts.length + 1 } :=
        World.sharedAt_setShared_self (w := ((w.afterClear s n).newLong 1).2) _ hs1
      have hd2 : ∀ a, World.deref (((w.afterClear s n).newLong 1).2.setShared i
          { ptr_ := p, ref_count_ := (w.afterClear s n).counts.length + 1 }) a
          = if a = (w.afterClear s n).counts.length + 1 then some 1
            else (w.afterClear s n).deref a :=
        fun a => World.cellAt_append (w.afterClear s n).counts 1 a
      rw [hlen] at hat2 hd2
      refine ⟨((w.afterClear s n).newLong 1).2.setShared i
          { ptr_ := p, ref_count_ := (w.afterClear s n).counts.length + 1 },
        ?_, hfresh, ?_, ?_, ?_, ?_, ?_, ?_, rfl⟩
      · simp only [SharedPtr.ResetTo, hcl]; rfl
      · rw [hlen]; exact hat2
      · rw [hlen]; simp [SharedPtr.Get, hat2]
      · rw [hlen]; simp [SharedPtr.UseCount, hat2, hd2]
      · simp [h0, World.setShared, World.newLong, World.afterClear]
      · intro a ha
        rw [hlen, hd2, hd1]
        by_cases ha2 : a = s.ref_count_
        · subst ha2; simp [ha, h0]
        · simp [ha, ha2]
      · intro k hk
        rw [World.sharedAt_setShared_ne _ _ (Ne.symm hk)]; rfl

/-- Witness for C11: one of the two owners of the cell at address 1 is reset. -/
theorem C11_reset_releases_then_empty_or_fresh_witness :
    ∃ w1, SharedPtr.Reset World.sampleTwoOwners 0 = some w1 ∧
      SharedPtr.Get w1 0 = some 0 ∧ SharedPtr.UseCount w1 0 = some 0 ∧
      SharedPtr.UseCount w1 1 = some 1 ∧
      w1.events = World.sampleTwoOwners.events ++ [HeapEvent.decr 1] := by
  obtain ⟨⟨w1, h1, _, h3, h4, h5, h6, h7, _⟩, _, _⟩ :=
    C11_reset_releases_then_empty_or_fresh World.sampleTwoOwners 0
      { ptr_ := 24, ref_count_ := 1 } 2 (by decide) (fun _ => by decide)
  refine ⟨w1, h1, h3, h4, ?_, by simpa using h5⟩
  have h71 := h7 1 (by decide)
  have h61 := h6 1
  simp only [SharedPtr.UseCount, h71]
  have : World.sampleTwoOwners.sharedAt 1 = some { ptr_ := 24, ref_count_ := 1 } := by decide
  simp [this, h61]

namespace World

theorem assign_eq_incr {w w0 : World} {this rhs : Nat} {t r : SharedPtr} {m : Int}
    (hne : this ≠ rhs) (ht : w.sharedAt this = some t) (hr : w.sharedAt rhs = some r)
    (hcl : SharedPtr.Clear w this = some w0) (h0 : r.ref_count_ ≠ 0)
    (hm : w0.deref r.ref_count_ = some m) :
    SharedPtr.assign w this rhs
      = some (World.mk (w0.counts.set (r.ref_count_ - 1) (some (m + 1)))
          (w0.events ++ [HeapEvent.incr r.ref_count_])
          (w0.shared.set this (some { ptr_ := r.ptr_, ref_count_ := r.ref_count_ }))
          w0.weak) := by
  have hm' : (w0.setShared this { ptr_ := r.ptr_, ref_count_ := r.ref_count_ }).deref
      r.ref_count_ = some m := hm
  simp only [SharedPtr.assign, ht, hr, ne_eq, hne, not_false_eq_true, if_true, hcl, h0,
    incr_eq hm']
  rfl

end World

/-- C13: let `s` be a live `SharedPtr` with `UseCount() == n`.  Copy construction from `s`
is defined and yields a new object `c` with the members of `s`, so `c.Get() == s.Get()`;
`s` and every other object keep their members.  When `s` is not empty both `c.UseCount()`
and `s.UseCount()` are `n + 1`, read from the same cell, whose increment is the only heap
event.  When `s` is empty, `c.UseCount()` is 0, no count cell is touched and there is no
heap event; `c.Get()` is null when `s.Get()` is. -/
theorem C13_copy_shares_and_increments (w : World) (i : Nat) (s : SharedPtr) (n : Int)
    (hs : w.sharedAt i = some s) (hu : SharedPtr.UseCount w i = some n) :
    ∃ j w1, SharedPtr.copyCtor w i = some (j, w1) ∧
      w.sharedAt j = none ∧
      w1.sharedAt j = some { ptr_ := s.ptr_, ref_count_ := s.ref_count_ } ∧
      SharedPtr.Get w1 j = SharedPtr.Get w i ∧
      (s.ref_count_ ≠ 0 →
        SharedPtr.UseCount w1 j = some (n + 1) ∧ SharedPtr.UseCount w1 i = some (n + 1) ∧
        w1.events = w.events ++ [HeapEvent.incr s.ref_count_] ∧
        ∀ a, a ≠ s.ref_count_ → w1.deref a = w.deref a) ∧
      (s.ref_count_ = 0 →
        SharedPtr.UseCount w1 j = some 0 ∧ w1.counts = w.counts ∧ w1.events = w.events ∧
        (s.ptr_ = 0 → SharedPtr.Get w1 j = some 0)) ∧
      (∀ k, k ≠ j → w1.sharedAt k = w.sharedAt k) ∧ w1.weak = w.weak := by
  have hnone : w.sharedAt w.shared.length = none := by simp [World.sharedAt]
  have hi : i ≠ w.shared.length := Nat.ne_of_lt (World.sharedAt_lt hs)
  by_cases h0 : s.ref_count_ = 0
  · have hat := World.sharedAt_newShared w { ptr_ := s.ptr_, ref_count_ := s.ref_count_ }
    refine ⟨w.shared.length, (w.newShared { ptr_ := s.ptr_, ref_count_ := s.ref_count_ }).2,
      ?_, hnone, ?_, ?_, fun h => absurd h0 h, ?_, ?_, rfl⟩
    · simp only [SharedPtr.copyCtor, hs, h0]; rfl
    · rw [hat]; simp
    · simp [SharedPtr.Get, hat, hs]
    · intro _
      refine ⟨?_, rfl, rfl, ?_⟩
      · simp only [SharedPtr.UseCount, hat]; simp [h0]
      · intro hp; simp only [SharedPtr.Get, hat]; simp [hp]
    · intro k hk
      rw [hat]; simp [hk]
  · have hn : w.deref s.ref_count_ = some n := by
      simpa [SharedPtr.UseCount, hs, h0] using hu
    have hn' : (w.newShared { ptr_ := s.ptr_, ref_count_ := s.ref_count_ }).2.deref
        s.ref_count_ = some n := hn
    have hat : ∀ k, World.sharedAt (World.mk (w.counts.set (s.ref_count_ - 1) (some (n + 1)))
        (w.events ++ [HeapEvent.incr s.ref_count_])
        (w.shared ++ [some { ptr_ := s.ptr_, ref_count_ := s.ref_count_ }]) w.weak) k
        = if k = w.shared.length then some { ptr_ := s.ptr_, ref_count_ := s.ref_count_ }
          else w.sharedAt k :=
      fun k => World.sharedAt_newShared w _ k
    have hd : ∀ a, World.deref (World.mk (w.counts.set (s.ref_count_ - 1) (some (n + 1)))
        (w.events ++ [HeapEvent.incr s.ref_count_])
        (w.shared ++ [some { ptr_ := s.ptr_, ref_count_ := s.ref_count_ }]) w.weak) a
        = if a = s.ref_count_ then some (n + 1) else w.deref a :=
      fun a => World.cellAt_set _ a hn
    refine ⟨w.shared.length, World.mk (w.counts.set (s.ref_count_ - 1) (some (n + 1)))
        (w.events ++ [HeapEvent.incr s.ref_count_])
        (w.shared ++ [some { ptr_ := s.ptr_, ref_count_ := s.ref_count_ }]) w.weak,
      ?_, hnone, ?_, ?_, ?_, fun h => absurd h h0, ?_, rfl⟩
    · simp only [SharedPtr.copyCtor, hs, ne_eq, h0, not_false_eq_true, if_true,
        World.incr_eq hn']
      rfl
    · rw [hat]; simp
    · simp [SharedPtr.Get, hat, hs]
    · intro _
      refine ⟨?_, ?_, rfl, ?_⟩
      · simp [SharedPtr.UseCount, hat, h0, hd]
      · simp [SharedPtr.UseCount, hat, hi, hs, h0, hd]
      · intro a ha; rw [hd]; simp [ha]
    · intro k hk
      rw [hat]; simp [hk]

/-- Witness for C13: an owner of the cell at address 1, which holds 2, is copied. -/
theorem C13_copy_shares_and_increments_witness :
    ∃ j w1, SharedPtr.copyCtor World.sampleTwoOwners 0 = some (j, w1) ∧
      SharedPtr.Get w1 j = SharedPtr.Get World.sampleTwoOwners 0 ∧
      SharedPtr.UseCount w1 j = some (2 + 1) ∧ SharedPtr.UseCount w1 0 = some (2 + 1) := by
  obtain ⟨j, w1, h1, _, _, h4, h5, _⟩ := C13_copy_shares_and_increments
    World.sampleTwoOwners 0 { ptr_ := 24, ref_count_ := 1 } 2 (by decide) (by decide)
  exact ⟨j, w1, h1, h4, (h5 (by decide)).1, (h5 (by decide)).2.1⟩

namespace World

end World

namespace World

end World

/-- The assignment `a = a->other` in the state reached from `World.sampleHolders` by
`b.Reset()`: `Clear()` deletes the `Holder` at 24, whose destructor destroys the member
`other`, the right-hand side of the assignment, and with it the `Holder` at 30.  The
members of the right-hand side are then read from an object whose lifetime has ended: the
assignment has no defined result. -/
theorem assignWith_member_of_old_pointee_undefined :
    ∃ w0, SharedPtr.Reset World.sampleHolders 1 = some w0 ∧
      SharedPtr.UseCount w0 0 = some 1 ∧ SharedPtr.UseCount w0 2 = some 1 ∧
      SharedPtr.assignWith holderDtor w0 0 2 = none := by
  refine ⟨_, rfl, ?_, ?_, ?_⟩ <;> decide

/-- C16: the lambda `DeleterLambda`, the function `CloseSocket` (also through the pointer
`DeleterFunPtr`) and `DeleterFunctor::operator()` compute the same result on every state
and every pointer.  For the null pointer and for a pointer to `INVALID_SOCKET` each does
nothing: no call, the storage stays.  For a pointer to any other socket value `v` each
calls `closesocket(v)` exactly once and then deletes the pointed-to storage exactly once.
That is the contract of the spec, `releasePolicySpec`. -/
theorem C16_socket_deleters_equivalent (w : SocketWorld) (sock : Nat) :
    DeleterLambda w sock = CloseSocket w sock ∧
    DeleterFunctor.call w sock = CloseSocket w sock ∧
    DeleterFunPtr w sock = CloseSocket w sock ∧
    (sock = 0 → CloseSocket w sock = some w) ∧
    (w.deref sock = some INVALID_SOCKET → CloseSocket w sock = some w) ∧
    (∀ v, w.deref sock = some v → v ≠ INVALID_SOCKET →
      CloseSocket w sock = some (SocketWorld.mk (w.storage.set (sock - 1) none)
        (w.calls ++ [SocketEvent.closesocket v, SocketEvent.deleteSock sock]))) ∧
    (sock = 0 → CloseSocket w sock = some (releasePolicySpec w sock none)) ∧
    (∀ v, w.deref sock = some v →
      CloseSocket w sock = some (releasePolicySpec w sock (some v))) := by
  have hnull : ∀ v, w.deref sock = some v → sock ≠ 0 := by
    intro v hv h0
    simp [SocketWorld.deref, h0] at hv
  refine ⟨rfl, rfl, rfl, ?_, ?_, ?_, ?_, ?_⟩
  · intro h0; simp [CloseSocket, h0]
  · intro hv; simp [CloseSocket, hnull _ hv, hv]
  · intro v hv hne
    simp [CloseSocket, hnull _ hv, hv, hne, SocketWorld.closesocket, SocketWorld.deleteSock]
  · intro h0; simp [CloseSocket, h0, releasePolicySpec]
  · intro v hv
    by_cases hne : v = INVALID_SOCKET
    · simp [CloseSocket, hnull _ hv, hv, hne, releasePolicySpec]
    · simp [CloseSocket, hnull _ hv, hv, hne, releasePolicySpec, SocketWorld.closesocket,
        SocketWorld.deleteSock]

/-- Witness for C16: the valid socket 7 at address 1 is closed once and its storage deleted
once; the pointer to `INVALID_SOCKET` at address 2 and the null pointer cause nothing. -/
theorem C16_socket_deleters_equivalent_witness :
    DeleterLambda SocketWorld.sample 1
      = some (SocketWorld.mk [none, some INVALID_SOCKET]
          [SocketEvent.closesocket 7, SocketEvent.deleteSock 1]) ∧
    DeleterFunctor.call SocketWorld.sample 2 = some SocketWorld.sample ∧
    DeleterFunPtr SocketWorld.sample 0 = some SocketWorld.sample :=
  ⟨(C16_socket_deleters_equivalent SocketWorld.sample 1).1.trans
      ((C16_socket_deleters_equivalent SocketWorld.sample 1).2.2.2.2.2.1 7
        (by decide) (by decide)),
    (C16_socket_deleters_equivalent SocketWorld.sample 2).2.1.trans
      ((C16_socket_deleters_equivalent SocketWorld.sample 2).2.2.2.2.1 (by decide)),
    (C16_socket_deleters_equivalent SocketWorld.sample 0).2.2.1.trans
      ((C16_socket_deleters_equivalent SocketWorld.sample 0).2.2.2.1 rfl)⟩

/-! ## Claims on `WeakPtr` observers -/

namespace World

theorem weakAt_lt {w : World} {i : Nat} {x : WeakPtr} (h : w.weakAt i = some x) :
    i < w.weak.length := by
  unfold weakAt at h
  by_contra hlt
  rw [List.getElem?_eq_none (by omega)] at h
  simp at h

theorem weakAt_eq_some {w : World} {i : Nat} {x : WeakPtr} :
    w.weakAt i = some x ↔ w.weak[i]? = some (some x) := by
  unfold weakAt
  cases w.weak[i]? with
  | none => simp
  | some o => cases o <;> simp

theorem weakAt_setWeak (w : World) (i j : Nat) (x : WeakPtr) :
    (w.setWeak i x).weakAt j
      = if i = j then (if i < w.weak.length then some x else none) else w.weakAt j := by
  unfold weakAt setWeak
  simp only [List.getElem?_set]
  by_cases hij : i = j
  · subst hij
    by_cases hlt : i < w.weak.length <;> simp [hlt]
  · simp [hij]

theorem weakAt_newWeak (w : World) (x : WeakPtr) (j : Nat) :
    (w.newWeak x).2.weakAt j = if j = w.weak.length then some x else w.weakAt j := by
  unfold weakAt newWeak
  simp only [List.getElem?_append]
  by_cases hlt : j < w.weak.length
  · have : j ≠ w.weak.length := by omega
    simp [hlt, this]
  · by_cases he : j = w.weak.length
    · simp [he]
    · have h2 : w.weak.length ≤ j := by omega
      simp [hlt, he, List.getElem?_eq_none h2]
      cases hj : j - w.weak.length with
      | zero => omega
      | succ k => simp

theorem weakAt_endWeak (w : World) (i j : Nat) :
    (w.endWeak i).weakAt j = if i = j then none else w.weakAt j := by
  unfold weakAt endWeak
  simp only [List.getElem?_set]
  by_cases hij : i = j
  · subst hij
    by_cases hlt : i < w.weak.length <;> simp [hlt]
  · simp [hij]

/-- A `WeakPtr` operation other than `Lock` changes no count cell, causes no heap event and
changes no `SharedPtr`. -/
theorem weak_step_frame {w w1 : World} (op : Op) (hop : op.isWeakObserverOp = true)
    (hs : w.step op = some w1) :
    w1.counts = w.counts ∧ w1.events = w.events ∧ w1.shared = w.shared := by
  cases op with
  | weakDefault =>
    simp only [step, Option.some.injEq] at hs
    subst hs; exact ⟨rfl, rfl, rfl⟩
  | weakCopy rhs =>
    simp only [step, WeakPtr.copyCtor] at hs
    cases hx : w.weakAt rhs with
    | none => simp [hx] at hs
    | some x =>
      simp only [hx, Option.map_some', Option.some.injEq] at hs
      subst hs; exact ⟨rfl, rfl, rfl⟩
  | weakFromShared rhs =>
    simp only [step, WeakPtr.ctorShared] at hs
    cases hx : w.sharedAt rhs with
    | none => simp [hx] at hs
    | some x =>
      simp only [hx, Option.map_some', Option.some.injEq] at hs
      subst hs; exact ⟨rfl, rfl, rfl⟩
  | weakAssign this rhs =>
    simp only [step, WeakPtr.assign] at hs
    cases ht : w.weakAt this with
    | none => simp [ht] at hs
    | some t =>
      cases hx : w.weakAt rhs with
      | none => simp [ht, hx] at hs
      | some x =>
        simp only [ht, hx] at hs
        by_cases hne : this = rhs
        · simp only [hne, ne_eq, not_true_eq_false, if_false, Option.some.injEq] at hs
          subst hs; exact ⟨rfl, rfl, rfl⟩
        · simp only [ne_eq, hne, not_false_eq_true, if_true, Option.some.injEq] at hs
          subst hs; exact ⟨rfl, rfl, rfl⟩
  | weakAssignShared this rhs =>
    simp only [step, WeakPtr.assignShared] at hs
    cases ht : w.weakAt this with
    | none => simp [ht] at hs
    | some t =>
      cases hx : w.sharedAt rhs with
      | none => simp [ht, hx] at hs
      | some x =>
        simp only [ht, hx, Option.some.injEq] at hs
        subst hs; exact ⟨rfl, rfl, rfl⟩
  | weakDestroy this =>
    simp only [step, WeakPtr.destroy] at hs
    cases ht : w.weakAt this with
    | none => simp [ht] at hs
    | some t =>
      simp only [ht, Option.map_some', Option.some.injEq] at hs
      subst hs; exact ⟨rfl, rfl, rfl⟩
  | weakReset this =>
    simp only [step, WeakPtr.Reset] at hs
    cases ht : w.weakAt this with
    | none => simp [ht] at hs
    | some t =>
      simp only [ht, Option.map_some', Option.some.injEq] at hs
      subst hs; exact ⟨rfl, rfl, rfl⟩
  | weakSwap this rhs =>
    simp only [step, WeakPtr.Swap] at hs
    cases ht : w.weakAt this with
    | none => simp [ht] at hs
    | some t =>
      cases hx : w.weakAt rhs with
      | none => simp [ht, hx] at hs
      | some x =>
        simp only [ht, hx, Option.some.injEq] at hs
        subst hs; exact ⟨rfl, rfl, rfl⟩
  | _ => simp [Op.isWeakObserverOp] at hop

/-- A `WeakPtr` operation other than `Lock` is defined whenever the objects it names are
alive. -/
theorem weak_step_defined {w : World} (op : Op) (hop : op.isWeakObserverOp = true)
    (hlive : op.objectsLive w = true) : ∃ w1, w.step op = some w1 := by
  cases op with
  | weakDefault => exact ⟨_, rfl⟩
  | weakCopy rhs =>
    simp only [Op.objectsLive, Option.isSome_iff_exists] at hlive
    obtain ⟨x, hx⟩ := hlive
    exact ⟨_, by simp only [step, WeakPtr.copyCtor, hx]; rfl⟩
  | weakFromShared rhs =>
    simp only [Op.objectsLive, Option.isSome_iff_exists] at hlive
    obtain ⟨x, hx⟩ := hlive
    exact ⟨_, by simp only [step, WeakPtr.ctorShared, hx]; rfl⟩
  | weakAssign this rhs =>
    simp only [Op.objectsLive, Bool.and_eq_true, Option.isSome_iff_exists] at hlive
    obtain ⟨⟨t, ht⟩, ⟨x, hx⟩⟩ := hlive
    by_cases hne : this = rhs
    · exact ⟨w, by simp [step, WeakPtr.assign, ht, hx, hne]⟩
    · exact ⟨w.setWeak this { ptr_ := x.ptr_, ref_count_ := x.ref_count_ },
        by simp [step, WeakPtr.assign, ht, hx, hne]⟩
  | weakAssignShared this rhs =>
    simp only [Op.objectsLive, Bool.and_eq_true, Option.isSome_iff_exists] at hlive
    obtain ⟨⟨t, ht⟩, ⟨x, hx⟩⟩ := hlive
    exact ⟨_, by simp only [step, WeakPtr.assignShared, ht, hx]; rfl⟩
  | weakDestroy this =>
    simp only [Op.objectsLive, Option.isSome_iff_exists] at hlive
    obtain ⟨t, ht⟩ := hlive
    exact ⟨_, by simp only [step, WeakPtr.destroy, ht]; rfl⟩
  | weakReset this =>
    simp only [Op.objectsLive, Option.isSome_iff_exists] at hlive
    obtain ⟨t, ht⟩ := hlive
    exact ⟨_, by simp only [step, WeakPtr.Reset, ht]; rfl⟩
  | weakSwap this rhs =>
    simp only [Op.objectsLive, Bool.and_eq_true, Option.isSome_iff_exists] at hlive
    obtain ⟨⟨t, ht⟩, ⟨x, hx⟩⟩ := hlive
    exact ⟨_, by simp only [step, WeakPtr.Swap, ht, hx]; rfl⟩
  | _ => simp [Op.isWeakObserverOp] at hop

end World

/-- C14: in every state, each `WeakPtr` operation other than `Lock` (construction and
assignment from a `SharedPtr` or a `WeakPtr`, `Reset`, `Swap`, destruction), on live
objects, is defined, leaves every count cell as it was, causes no heap event (nothing is
freed) and changes no `SharedPtr`.  A `WeakPtr` constructed or assigned from a non-empty
`SharedPtr` `s` has the members of `s` and reports the `UseCount()` of `s`; in a state
reached from the empty one it reports `Expired() == false`. -/
theorem C14_weak_ops_leave_counts (w : World) :
    (∀ op : Op, op.isWeakObserverOp = true → op.objectsLive w = true →
      ∃ w1, w.step op = some w1 ∧
        w1.counts = w.counts ∧ w1.events = w.events ∧ w1.shared = w.shared) ∧
    (∀ i s, w.sharedAt i = some s → s.ref_count_ ≠ 0 →
      (∃ j w1, WeakPtr.ctorShared w i = some (j, w1) ∧
        w1.weakAt j = some { ptr_ := s.ptr_, ref_count_ := s.ref_count_ } ∧
        WeakPtr.UseCount w1 j = SharedPtr.UseCount w i ∧
        SharedPtr.UseCount w1 i = SharedPtr.UseCount w i ∧
        ((∃ ops, World.empty.run ops = some w) → WeakPtr.Expired w1 j = some false)) ∧
      (∀ k x, w.weakAt k = some x →
        ∃ w1, WeakPtr.assignShared w k i = some w1 ∧
          w1.weakAt k = some { ptr_ := s.ptr_, ref_count_ := s.ref_count_ } ∧
          WeakPtr.UseCount w1 k = SharedPtr.UseCount w i ∧
          SharedPtr.UseCount w1 i = SharedPtr.UseCount w i ∧
          ((∃ ops, World.empty.run ops = some w) → WeakPtr.Expired w1 k = some false))) := by
  constructor
  · intro op hop hlive
    obtain ⟨w1, h1⟩ := World.weak_step_defined op hop hlive
    exact ⟨w1, h1, World.weak_step_frame op hop h1⟩
  · intro i s hs h0
    have hu : SharedPtr.UseCount w i = w.deref s.ref_count_ := by
      simp [SharedPtr.UseCount, hs, h0]
    have hlive : (∃ ops, World.empty.run ops = some w) →
        ∃ n : Int, w.deref s.ref_count_ = some n ∧ n ≠ 0 := by
      rintro ⟨ops, hrun⟩
      have hinv := World.run_CountsMatch ops World.empty_CountsMatch hrun
      have hpos := World.sharers_pos hs
      have hz : w.sharers s.ref_count_ ≠ 0 := by omega
      refine ⟨(w.sharers s.ref_count_ : Int), ?_, by omega⟩
      rw [hinv _ h0]; simp [hz]
    constructor
    · have hat := World.weakAt_newWeak w { ptr_ := s.ptr_, ref_count_ := s.ref_count_ }
        w.weak.length
      simp only [if_true] at hat
      have huw : WeakPtr.UseCount (w.newWeak { ptr_ := s.ptr_, ref_count_ := s.ref_count_ }).2
          w.weak.length = w.deref s.ref_count_ := by
        simp only [WeakPtr.UseCount, hat]
        simp [h0]; rfl
      refine ⟨w.weak.length, (w.newWeak { ptr_ := s.ptr_, ref_count_ := s.ref_count_ }).2,
        by simp only [WeakPtr.ctorShared, hs]; rfl, hat, by rw [huw, hu], rfl, ?_⟩
      intro hr
      obtain ⟨n, hn, hn0⟩ := hlive hr
      simp [WeakPtr.Expired, huw, hn, hn0]
    · intro k x hx
      have hat : (w.setWeak k { ptr_ := s.ptr_, ref_count_ := s.ref_count_ }).weakAt k
          = some { ptr_ := s.ptr_, ref_count_ := s.ref_count_ } := by
        rw [World.weakAt_setWeak]; simp [World.weakAt_lt hx]
      have huw : WeakPtr.UseCount (w.setWeak k { ptr_ := s.ptr_, ref_count_ := s.ref_count_ })
          k = w.deref s.ref_count_ := by
        simp only [WeakPtr.UseCount, hat]
        simp [h0]; rfl
      refine ⟨w.setWeak k { ptr_ := s.ptr_, ref_count_ := s.ref_count_ },
        by simp only [WeakPtr.assignShared, hx, hs], hat, by rw [huw, hu], rfl, ?_⟩
      intro hr
      obtain ⟨n, hn, hn0⟩ := hlive hr
      simp [WeakPtr.Expired, huw, hn, hn0]

/-- Witness for C14: in the state after `SharedPtr<int> s1(p); SharedPtr<int> s2(s1);`,
which the scenario of the spec reaches, a `WeakPtr` made from `s1` reports a count of 2
and is not expired. -/
theorem C14_weak_ops_leave_counts_witness :
    ∃ j w1, WeakPtr.ctorShared
        (World.mk [some 2] [HeapEvent.newCount 1, HeapEvent.incr 1]
          [some { ptr_ := 42, ref_count_ := 1 }, some { ptr_ := 42, ref_count_ := 1 }] [])
        0 = some (j, w1) ∧
      WeakPtr.UseCount w1 j = some 2 ∧ WeakPtr.Expired w1 j = some false := by
  obtain ⟨j, w1, h1, _, h3, _, h5⟩ := ((C14_weak_ops_leave_counts
    (World.mk [some 2] [HeapEvent.newCount 1, HeapEvent.incr 1]
      [some { ptr_ := 42, ref_count_ := 1 }, some { ptr_ := 42, ref_count_ := 1 }] [])).2
    0 { ptr_ := 42, ref_count_ := 1 } (by decide) (by decide)).1
  exact ⟨j, w1, h1, h3.trans (by decide),
    h5 ⟨[Op.sharedFromRaw 42, Op.sharedCopy 0], by decide⟩⟩

/-- C17: a default-constructed `SharedPtr` and a default-constructed `WeakPtr` report
`UseCount() == 0`, and so does every live `WeakPtr` after `Reset()`; each of these calls has
a defined result.  For every `WeakPtr`, `Expired()` returns true exactly when `UseCount()`
returns 0, returns false exactly when `UseCount()` returns a non-zero value, and the two
are defined together.  `Lock()` on a `WeakPtr` that is `(nullptr, nullptr)` returns a new
empty `SharedPtr` (`Get()` null, `UseCount()` 0) and changes nothing else. -/
theorem C17_empty_useCount_zero_expired_iff (w : World) :
    SharedPtr.UseCount (SharedPtr.ctorDefault w).2 (SharedPtr.ctorDefault w).1 = some 0 ∧
    WeakPtr.UseCount (WeakPtr.ctorDefault w).2 (WeakPtr.ctorDefault w).1 = some 0 ∧
    (∀ i x, w.weakAt i = some x →
      ∃ w1, WeakPtr.Reset w i = some w1 ∧ WeakPtr.UseCount w1 i = some 0) ∧
    (∀ i, WeakPtr.Expired w i = some true ↔ WeakPtr.UseCount w i = some 0) ∧
    (∀ i, WeakPtr.Expired w i = some false ↔ ∃ c, WeakPtr.UseCount w i = some c ∧ c ≠ 0) ∧
    (∀ i, (WeakPtr.Expired w i).isSome = (WeakPtr.UseCount w i).isSome) ∧
    (∀ i, w.weakAt i = some { ptr_ := 0, ref_count_ := 0 } →
      WeakPtr.Lock w i = some (SharedPtr.ctorDefault w) ∧
      SharedPtr.Get (SharedPtr.ctorDefault w).2 (SharedPtr.ctorDefault w).1 = some 0 ∧
      (SharedPtr.ctorDefault w).2.counts = w.counts ∧
      (SharedPtr.ctorDefault w).2.events = w.events ∧
      (SharedPtr.ctorDefault w).2.weak = w.weak) := by
  have hs := World.sharedAt_newShared w { ptr_ := 0, ref_count_ := 0 } w.shared.length
  simp only [if_true] at hs
  have hw := World.weakAt_newWeak w { ptr_ := 0, ref_count_ := 0 } w.weak.length
  simp only [if_true] at hw
  refine ⟨?_, ?_, ?_, ?_, ?_, ?_, ?_⟩
  · simp only [SharedPtr.ctorDefault, World.newShared] at hs ⊢
    simp [SharedPtr.UseCount, hs]
  · simp only [WeakPtr.ctorDefault, World.newWeak] at hw ⊢
    simp [WeakPtr.UseCount, hw]
  · intro i x hx
    have hat : (w.setWeak i { ptr_ := 0, ref_count_ := 0 }).weakAt i
        = some { ptr_ := 0, ref_count_ := 0 } := by
      rw [World.weakAt_setWeak]; simp [World.weakAt_lt hx]
    exact ⟨_, by simp only [WeakPtr.Reset, hx]; rfl, by simp [WeakPtr.UseCount, hat]⟩
  · intro i
    cases hu : WeakPtr.UseCount w i with
    | none => simp [WeakPtr.Expired, hu]
    | some c => simp [WeakPtr.Expired, hu]
  · intro i
    cases hu : WeakPtr.UseCount w i with
    | none => simp [WeakPtr.Expired, hu]
    | some c => simp [WeakPtr.Expired, hu]
  · intro i
    simp [WeakPtr.Expired]
  · intro i hx
    have he : WeakPtr.Expired w i = some true := by
      simp [WeakPtr.Expired, WeakPtr.UseCount, hx]
    refine ⟨by simp [WeakPtr.Lock, he], ?_, rfl, rfl, rfl⟩
    simp only [SharedPtr.ctorDefault, World.newShared] at hs ⊢
    simp [SharedPtr.Get, hs]

/-- Witness for C17: `Lock()` on a default-constructed `WeakPtr` in the empty state. -/
theorem C17_empty_useCount_zero_expired_iff_witness :
    WeakPtr.Lock (WeakPtr.ctorDefault World.empty).2 0
      = some (SharedPtr.ctorDefault (WeakPtr.ctorDefault World.empty).2) ∧
    SharedPtr.UseCount (SharedPtr.ctorDefault (WeakPtr.ctorDefault World.empty).2).2 0
      = some 0 :=
  ⟨((C17_empty_useCount_zero_expired_iff (WeakPtr.ctorDefault World.empty).2).2.2.2.2.2.2 0
      (by decide)).1,
    (C17_empty_useCount_zero_expired_iff (WeakPtr.ctorDefault World.empty).2).1⟩

/-! ## Provenance of member pairs -/

namespace World

theorem join_set_some {α : Type} {l : List (Option α)} {i j : Nat} {o1 : Option α} {y : α}
    (h : ((l.set i o1)[j]?).join = some y) : (l[j]?).join = some y ∨ o1 = some y := by
  rw [List.getElem?_set] at h
  by_cases hij : i = j
  · subst hij
    by_cases hlt : i < l.length
    · simp only [hlt, if_true, Option.join] at h
      right; simpa using h
    · simp [hlt] at h
  · simp only [hij, if_false] at h
    exact Or.inl h

theorem join_append_some {α : Type} {l : List (Option α)} {j : Nat} {o1 : Option α} {y : α}
    (h : (((l ++ [o1])[j]?)).join = some y) : (l[j]?).join = some y ∨ o1 = some y := by
  rw [List.getElem?_append] at h
  by_cases hlt : j < l.length
  · simp only [hlt, if_true] at h
    exact Or.inl h
  · simp only [hlt, if_false] at h
    cases hk : j - l.length with
    | zero =>
      simp only [hk, List.getElem?_cons_zero] at h
      right; simpa using h
    | succ k => simp [hk] at h

theorem HasPair.of_shared_set (w w1 : World) (i : Nat) (o1 : Option SharedPtr) {p r : Nat}
    (h : w1.HasPair p r) (hsh : w1.shared = w.shared.set i o1) (hwk : w1.weak = w.weak) :
    w.HasPair p r ∨ o1 = some { ptr_ := p, ref_count_ := r } := by
  rcases h with ⟨j, hj⟩ | ⟨j, hj⟩
  · unfold sharedAt at hj
    rw [hsh] at hj
    rcases join_set_some hj with h1 | h1
    · exact Or.inl (Or.inl ⟨j, h1⟩)
    · exact Or.inr h1
  · unfold weakAt at hj
    rw [hwk] at hj
    exact Or.inl (Or.inr ⟨j, hj⟩)

theorem HasPair.of_shared_append (w w1 : World) (o1 : Option SharedPtr) {p r : Nat}
    (h : w1.HasPair p r) (hsh : w1.shared = w.shared ++ [o1]) (hwk : w1.weak = w.weak) :
    w.HasPair p r ∨ o1 = some { ptr_ := p, ref_count_ := r } := by
  rcases h with ⟨j, hj⟩ | ⟨j, hj⟩
  · unfold sharedAt at hj
    rw [hsh] at hj
    rcases join_append_some hj with h1 | h1
    · exact Or.inl (Or.inl ⟨j, h1⟩)
    · exact Or.inr h1
  · unfold weakAt at hj
    rw [hwk] at hj
    exact Or.inl (Or.inr ⟨j, hj⟩)

theorem HasPair.of_weak_set (w w1 : World) (i : Nat) (o1 : Option WeakPtr) {p r : Nat}
    (h : w1.HasPair p r) (hsh : w1.shared = w.shared) (hwk : w1.weak = w.weak.set i o1) :
    w.HasPair p r ∨ o1 = some { ptr_ := p, ref_count_ := r } := by
  rcases h with ⟨j, hj⟩ | ⟨j, hj⟩
  · unfold sharedAt at hj
    rw [hsh] at hj
    exact Or.inl (Or.inl ⟨j, hj⟩)
  · unfold weakAt at hj
    rw [hwk] at hj
    rcases join_set_some hj with h1 | h1
    · exact Or.inl (Or.inr ⟨j, h1⟩)
    · exact Or.inr h1

theorem HasPair.of_weak_append (w w1 : World) (o1 : Option WeakPtr) {p r : Nat}
    (h : w1.HasPair p r) (hsh : w1.shared = w.shared) (hwk : w1.weak = w.weak ++ [o1]) :
    w.HasPair p r ∨ o1 = some { ptr_ := p, ref_count_ := r } := by
  rcases h with ⟨j, hj⟩ | ⟨j, hj⟩
  · unfold sharedAt at hj
    rw [hsh] at hj
    exact Or.inl (Or.inl ⟨j, hj⟩)
  · unfold weakAt at hj
    rw [hwk] at hj
    rcases join_append_some hj with h1 | h1
    · exact Or.inl (Or.inr ⟨j, h1⟩)
    · exact Or.inr h1

theorem HasPair.of_sharedAt {w : World} {i : Nat} {t : SharedPtr} (h : w.sharedAt i = some t) :
    w.HasPair t.ptr_ t.ref_count_ := Or.inl ⟨i, h⟩

theorem HasPair.of_weakAt {w : World} {i : Nat} {x : WeakPtr} (h : w.weakAt i = some x) :
    w.HasPair x.ptr_ x.ref_count_ := Or.inr ⟨i, h⟩

theorem cellValue_append (evs more : List HeapEvent) (a : Nat) :
    cellValue (evs ++ more) a = more.foldl (HeapEvent.apply a) (cellValue evs a) := by
  unfold cellValue
  rw [List.foldl_append]

theorem cell_freed_set {cs : List (Option Int)} {a : Nat} {c : Int} (v : Option Int) (b : Nat)
    (h : cellAt cs a = some c) (hb : b ≠ 0) :
    ((cs.set (a - 1) v)[b - 1]? = some none)
      ↔ (if b = a then v = none else cs[b - 1]? = some none) := by
  have h0 := cellAt_ne_null h
  have hlt := cellAt_lt h
  rw [List.getElem?_set]
  by_cases hba : b = a
  · subst hba
    simp [hlt]
  · have : a - 1 ≠ b - 1 := by omega
    simp [hba, this]

theorem cell_freed_append (cs : List (Option Int)) (v : Int) (b : Nat) :
    ((cs ++ [some v])[b - 1]? = some none) ↔ (cs[b - 1]? = some none) := by
  rw [List.getElem?_append]
  by_cases hlt : b - 1 < cs.length
  · simp [hlt]
  · have h2 : cs.length ≤ b - 1 := by omega
    simp only [hlt, if_false, List.getElem?_eq_none h2]
    cases hk : b - 1 - cs.length with
    | zero => simp
    | succ k => simp

end World

namespace World

theorem Sound.sound_frame {used : List Nat} {w w1 : World} (hs : Sound used w)
    (hc : w1.counts = w.counts) (he : w1.events = w.events)
    (hsh : ∀ a, a ≠ 0 → w1.sharers a = w.sharers a)
    (hp : ∀ p r, w1.HasPair p r → w.HasPair p r ∨ (p = 0 ∧ r = 0)) : Sound used w1 := by
  refine ⟨?_, ?_, ?_, ?_, ?_, ?_, ?_, ?_⟩
  · intro a ha
    have := hs.cm a ha
    rw [deref_eq] at this ⊢
    rw [hc, hsh a ha]; exact this
  · intro p r h
    rcases hp p r h with h1 | ⟨_, h1⟩
    · rw [hc]; exact hs.bound p r h1
    · omega
  · intro p q r h1 h2 hr
    rcases hp p r h1 with h1 | ⟨_, h1⟩
    · rcases hp q r h2 with h2 | ⟨_, h2⟩
      · exact hs.func p q r h1 h2 hr
      · exact absurd h2 hr
    · exact absurd h1 hr
  · intro p r h hr
    rcases hp p r h with h1 | ⟨_, h1⟩
    · exact hs.usedp p r h1 hr
    · exact absurd h1 hr
  · intro p h
    rcases hp p 0 h with h1 | ⟨h1, _⟩
    · exact hs.null p h1
    · exact h1
  · intro a
    unfold cellFrees
    rw [he, hc]; exact hs.cellEv a
  · intro a n h
    rw [deref_eq, hc] at h
    rw [he]; exact hs.value a n h
  · rw [he]; exact hs.timed

theorem Sound.sound_release {used : List Nat} {w : World} (hs : Sound used w) {i : Nat}
    {t : SharedPtr} {n : Int} {o1 : Option SharedPtr} (hi : w.sharedAt i = some t)
    (h0 : t.ref_count_ ≠ 0) (hn : w.deref t.ref_count_ = some n)
    (ho : o1 = none ∨ o1 = some { ptr_ := 0, ref_count_ := 0 }) :
    Sound used (World.mk (w.afterClear t n).counts (w.afterClear t n).events
      (w.shared.set i o1) w.weak) := by
  have hcell := Matches.cell_eq hs.cm hn
  have hd := deref_afterClear hn
  have hp : ∀ p r, HasPair (World.mk (w.afterClear t n).counts (w.afterClear t n).events
      (w.shared.set i o1) w.weak) p r → w.HasPair p r ∨ (p = 0 ∧ r = 0) := by
    intro p r h
    rcases HasPair.of_shared_set w _ i o1 h rfl rfl with h1 | h1
    · exact Or.inl h1
    · rcases ho with ho | ho
      · rw [ho] at h1; cases h1
      · rw [ho] at h1
        simp only [Option.some.injEq, SharedPtr.mk.injEq] at h1
        exact Or.inr ⟨h1.1.symm, h1.2.symm⟩
  have hval := hs.value _ _ hn
  refine ⟨?_, ?_, ?_, ?_, ?_, ?_, ?_, ?_⟩
  · refine Matches.set_release hs.cm (sharedAt_eq_some.mp hi) ?_ o1 ?_
    · intro a
      have := hd a
      rw [deref_eq] at this
      rw [this]
      by_cases ha : a = t.ref_count_
      · subst ha
        have h1 : (n = 1) ↔ (sharersIn w.shared t.ref_count_ = 1) := by omega
        by_cases hn1 : n = 1
        · simp [h0, hn1, h1.mp hn1]
        · have : ¬ sharersIn w.shared t.ref_count_ = 1 := fun e => hn1 (h1.mpr e)
          simp [h0, hn1, this, hcell.2]
      · simp [ha]; rfl
    · rcases ho with ho | ho <;> simp [ho]
  · intro p r h
    rcases hp p r h with h1 | ⟨_, h1⟩
    · have := hs.bound p r h1
      simpa [afterClear] using this
    · omega
  · intro p q r h1 h2 hr
    rcases hp p r h1 with h1 | ⟨_, h1⟩
    · rcases hp q r h2 with h2 | ⟨_, h2⟩
      · exact hs.func p q r h1 h2 hr
      · exact absurd h2 hr
    · exact absurd h1 hr
  · intro p r h hr
    rcases hp p r h with h1 | ⟨_, h1⟩
    · exact hs.usedp p r h1 hr
    · exact absurd h1 hr
  · intro p h
    rcases hp p 0 h with h1 | ⟨h1, _⟩
    · exact hs.null p h1
    · exact h1
  · intro b
    have hold := hs.cellEv b
    have hge := cellAt_getElem? (show cellAt w.counts t.ref_count_ = some n from hn)
    unfold cellFrees at hold ⊢
    by_cases hb0 : b = 0
    · subst hb0
      have h0' : ¬ (0 = t.ref_count_) := fun e => h0 e.symm
      simp only [ne_eq, not_true_eq_false, false_and, if_false] at hold ⊢
      by_cases hn1 : n = 1 <;>
        simp [afterClear, hn1, List.countP_append, List.countP_cons, hold, h0', h0]
    · have hfr := cell_freed_set (if n = 1 then none else some (n - 1)) b
        (show cellAt w.counts t.ref_count_ = some n from hn) hb0
      by_cases hba : b = t.ref_count_
      · subst hba
        have hold0 : List.countP (fun e => decide (e = HeapEvent.deleteCount t.ref_count_))
            w.events = 0 := by
          rw [hold, hge]; simp
        by_cases hn1 : n = 1
        · simp [afterClear, hn1, List.countP_append, List.countP_cons, hold0, h0,
            cellAt_lt (show cellAt w.counts t.ref_count_ = some n from hn)]
        · simp [afterClear, hn1, List.countP_append, List.countP_cons, hold0, h0,
            cellAt_lt (show cellAt w.counts t.ref_count_ = some n from hn)]
      · have hba' : ¬ (t.ref_count_ = b) := fun e => hba e.symm
        simp only [hba, if_false] at hfr
        have hiff : (b ≠ 0 ∧ (w.afterClear t n).counts[b - 1]? = some none)
            ↔ (b ≠ 0 ∧ w.counts[b - 1]? = some none) := by
          simp only [afterClear, hfr]
        simp only [hiff]
        rw [← hold]
        by_cases hn1 : n = 1 <;>
          simp [afterClear, hn1, List.countP_append, List.countP_cons, hba']
  · intro b m hb
    have hdb := hd b
    rw [show (World.mk (w.afterClear t n).counts (w.afterClear t n).events
      (w.shared.set i o1) w.weak).deref b = (w.afterClear t n).deref b from rfl, hdb] at hb
    show cellValue (w.afterClear t n).events b = m
    by_cases hba : b = t.ref_count_
    · subst hba
      by_cases hn1 : n = 1
      · simp [hn1] at hb
      · simp only [hn1, if_false, if_true, Option.some.injEq] at hb
        simp [afterClear, hn1, cellValue_append, HeapEvent.apply, hval, hb]
    · have hba' : ¬ (t.ref_count_ = b) := fun e => hba e.symm
      simp only [hba, if_false] at hb
      have := hs.value b m hb
      by_cases hn1 : n = 1 <;>
        simp [afterClear, hn1, cellValue_append, HeapEvent.apply, hba', this]
  · show FreedAtZero (w.afterClear t n).events
    have hv : cellValue (w.events ++ [HeapEvent.decr t.ref_count_]) t.ref_count_ = n - 1 := by
      simp [cellValue_append, HeapEvent.apply, hval]
    by_cases hn1 : n = 1
    · have := FreedAtZero.decrFree w.events t.ref_count_ t.ptr_ hs.timed
        (by rw [hv]; omega)
      simpa [afterClear, hn1] using this
    · have := FreedAtZero.decrKeep w.events t.ref_count_ hs.timed (by rw [hv]; omega)
      simpa [afterClear, hn1] using this

end World

namespace World

theorem Sound.sound_attach {used : List Nat} {w : World} (hs : Sound used w) {i : Nat}
    {t : SharedPtr} {p r : Nat} {n : Int} (hi : w.sharedAt i = some t)
    (ht : t.ref_count_ = 0) (hn : w.deref r = some n) (hpr : w.HasPair p r) :
    Sound used (World.mk (w.counts.set (r - 1) (some (n + 1)))
      (w.events ++ [HeapEvent.incr r])
      (w.shared.set i (some { ptr_ := p, ref_count_ := r })) w.weak) := by
  have hc : cellAt w.counts r = some n := hn
  have hr0 := cellAt_ne_null hc
  have hp : ∀ q s, HasPair (World.mk (w.counts.set (r - 1) (some (n + 1)))
      (w.events ++ [HeapEvent.incr r])
      (w.shared.set i (some { ptr_ := p, ref_count_ := r })) w.weak) q s → w.HasPair q s := by
    intro q s h
    rcases HasPair.of_shared_set w _ i _ h rfl rfl with h1 | h1
    · exact h1
    · simp only [Option.some.injEq, SharedPtr.mk.injEq] at h1
      rw [← h1.1, ← h1.2]; exact hpr
  have hval := hs.value _ _ hn
  refine ⟨?_, ?_, ?_, ?_, ?_, ?_, ?_, ?_⟩
  · exact Matches.set_attach hs.cm (sharedAt_eq_some.mp hi) ht p hc
  · intro q s h
    have := hs.bound q s (hp q s h)
    simpa using this
  · intro q q1 s h1 h2 hs0
    exact hs.func q q1 s (hp q s h1) (hp q1 s h2) hs0
  · intro q s h hs0
    exact hs.usedp q s (hp q s h) hs0
  · intro q h
    exact hs.null q (hp q 0 h)
  · intro b
    have hold := hs.cellEv b
    unfold cellFrees at hold ⊢
    simp only [List.countP_append, List.countP_cons, List.countP_nil, reduceCtorEq,
      decide_False, Bool.false_eq_true, if_false, Nat.add_zero]
    rw [hold]
    by_cases hb0 : b = 0
    · simp [hb0]
    · have hfr := cell_freed_set (some (n + 1)) b hc hb0
      by_cases hbr : b = r
      · subst hbr
        have hge := cellAt_getElem? hc
        simp [hb0, hge, cellAt_lt hc]
      · simp only [hbr, if_false] at hfr
        simp only [hfr]
  · intro b m hb
    have hdb : World.deref (World.mk (w.counts.set (r - 1) (some (n + 1)))
        (w.events ++ [HeapEvent.incr r])
        (w.shared.set i (some { ptr_ := p, ref_count_ := r })) w.weak) b
        = if b = r then some (n + 1) else w.deref b := cellAt_set _ b hc
    rw [hdb] at hb
    show cellValue (w.events ++ [HeapEvent.incr r]) b = m
    by_cases hbr : b = r
    · subst hbr
      simp only [if_true, Option.some.injEq] at hb
      simp [cellValue_append, HeapEvent.apply, hval, hb]
    · have hbr' : ¬ (r = b) := fun e => hbr e.symm
      simp only [hbr, if_false] at hb
      simp [cellValue_append, HeapEvent.apply, hbr', hs.value b m hb]
  · exact FreedAtZero.incr w.events r hs.timed

theorem Sound.sound_fresh {used : List Nat} {w : World} (hs : Sound used w) {i : Nat}
    {t : SharedPtr} (p : Nat) (hi : w.sharedAt i = some t) (ht : t.ref_count_ = 0) :
    Sound (used ++ [p]) (World.mk (w.counts ++ [some 1])
      (w.events ++ [HeapEvent.newCount (w.counts.length + 1)])
      (w.shared.set i (some { ptr_ := p, ref_count_ := w.counts.length + 1 })) w.weak) := by
  have hp : ∀ q s, HasPair (World.mk (w.counts ++ [some 1])
      (w.events ++ [HeapEvent.newCount (w.counts.length + 1)])
      (w.shared.set i (some { ptr_ := p, ref_count_ := w.counts.length + 1 })) w.weak) q s →
      w.HasPair q s ∨ (q = p ∧ s = w.counts.length + 1) := by
    intro q s h
    rcases HasPair.of_shared_set w _ i _ h rfl rfl with h1 | h1
    · exact Or.inl h1
    · simp only [Option.some.injEq, SharedPtr.mk.injEq] at h1
      exact Or.inr ⟨h1.1.symm, h1.2.symm⟩
  refine ⟨?_, ?_, ?_, ?_, ?_, ?_, ?_, ?_⟩
  · exact Matches.set_fresh hs.cm (sharedAt_eq_some.mp hi) ht p
  · intro q s h
    rcases hp q s h with h1 | ⟨_, h1⟩
    · have := hs.bound q s h1
      simp only [List.length_append, List.length_singleton]; omega
    · simp only [List.length_append, List.length_singleton]; omega
  · intro q q1 s h1 h2 hs0
    rcases hp q s h1 with h1 | ⟨hq, h1⟩
    · rcases hp q1 s h2 with h2 | ⟨_, h2⟩
      · exact hs.func q q1 s h1 h2 hs0
      · have := hs.bound q s h1
        omega
    · rcases hp q1 s h2 with h2 | ⟨hq1, _⟩
      · have := hs.bound q1 s h2
        omega
      · rw [hq, hq1]
  · intro q s h hs0
    rcases hp q s h with h1 | ⟨hq, _⟩
    · exact List.mem_append_left _ (hs.usedp q s h1 hs0)
    · rw [hq]; simp
  · intro q h
    rcases hp q 0 h with h1 | ⟨_, h1⟩
    · exact hs.null q h1
    · omega
  · intro b
    have hold := hs.cellEv b
    unfold cellFrees at hold ⊢
    simp only [List.countP_append, List.countP_cons, List.countP_nil, reduceCtorEq,
      decide_False, Bool.false_eq_true, if_false, Nat.add_zero]
    rw [hold]
    simp only [cell_freed_append]
  · intro b m hb
    have hdb : World.deref (World.mk (w.counts ++ [some 1])
        (w.events ++ [HeapEvent.newCount (w.counts.length + 1)])
        (w.shared.set i (some { ptr_ := p, ref_count_ := w.counts.length + 1 })) w.weak) b
        = if b = w.counts.length + 1 then some 1 else w.deref b := cellAt_append _ 1 b
    rw [hdb] at hb
    show cellValue (w.events ++ [HeapEvent.newCount (w.counts.length + 1)]) b = m
    by_cases hbr : b = w.counts.length + 1
    · subst hbr
      simp only [if_true, Option.some.injEq] at hb
      simp [cellValue_append, HeapEvent.apply, hb]
    · have hbr' : ¬ (w.counts.length + 1 = b) := fun e => hbr e.symm
      simp only [hbr, if_false] at hb
      simp [cellValue_append, HeapEvent.apply, hbr', hs.value b m hb]
  · exact FreedAtZero.newCount w.events _ hs.timed

theorem Sound.sound_mono {used : List Nat} {w : World} (hs : Sound used w) (more : List Nat) :
    Sound (used ++ more) w :=
  ⟨hs.cm, hs.bound, hs.func, fun p r h hr => List.mem_append_left _ (hs.usedp p r h hr),
    hs.null, hs.cellEv, hs.value, hs.timed⟩

/-- Every transformation keeps the invariants that need no freshness. -/
theorem Sound.sound_trans {w w1 : World} {u : List Nat} (ht : Trans w u w1) :
    ∀ {used : List Nat}, Sound used w → Sound (used ++ u) w1 := by
  induction ht with
  | frame w w1 hc he hsh hp =>
    intro used hs
    rw [List.append_nil]; exact hs.sound_frame hc he hsh hp
  | release w i t n o1 hi h0 hn ho =>
    intro used hs
    rw [List.append_nil]; exact hs.sound_release hi h0 hn ho
  | attach w i t p r n hi ht hn hpr =>
    intro used hs
    rw [List.append_nil]; exact hs.sound_attach hi ht hn hpr
  | fresh w i t p hi ht =>
    intro used hs
    exact hs.sound_fresh p hi ht
  | comp w w1 w2 u v _ _ ih1 ih2 =>
    intro used hs
    rw [← List.append_assoc]
    exact ih2 (ih1 hs)

end World

/-! ## Every operation is a transformation -/

namespace World

theorem Trans.by_append_null (w : World) (p : Nat) (hp : p = 0 ∨ w.HasPair p 0) :
    Trans w [] (World.mk w.counts w.events (w.shared ++ [some { ptr_ := p, ref_count_ := 0 }])
      w.weak) := by
  refine Trans.frame _ _ rfl rfl ?_ ?_
  · intro a ha
    have ha' : ¬ (0 = a) := fun e => ha e.symm
    show sharersIn (w.shared ++ [some { ptr_ := p, ref_count_ := 0 }]) a = sharersIn w.shared a
    rw [sharersIn_append]
    simp [ha']
  · intro q r h
    rcases HasPair.of_shared_append w _ _ h rfl rfl with h1 | h1
    · exact Or.inl h1
    · simp only [Option.some.injEq, SharedPtr.mk.injEq] at h1
      rcases hp with hp | hp
      · exact Or.inr ⟨by rw [← h1.1, hp], h1.2.symm⟩
      · left; rw [← h1.1, ← h1.2]; exact hp

theorem Trans.by_set_null (w : World) {i : Nat} {t : SharedPtr} (o1 : Option SharedPtr)
    (hi : w.sharedAt i = some t) (ht : t.ref_count_ = 0)
    (ho : o1 = none ∨ ∃ p, o1 = some { ptr_ := p, ref_count_ := 0 } ∧ (p = 0 ∨ w.HasPair p 0)) :
    Trans w [] (World.mk w.counts w.events (w.shared.set i o1) w.weak) := by
  refine Trans.frame _ _ rfl rfl ?_ ?_
  · intro a ha
    have ha' : ¬ (0 = a) := fun e => ha e.symm
    have := sharersIn_set o1 (sharedAt_eq_some.mp hi) a
    simp only [Option.map_some', Option.some.injEq, ht, ha', if_false, Nat.add_zero] at this
    show sharersIn (w.shared.set i o1) a = sharersIn w.shared a
    rw [this]
    rcases ho with ho | ⟨p, ho, _⟩ <;> simp [ho, ha']
  · intro q r h
    rcases HasPair.of_shared_set w _ i o1 h rfl rfl with h1 | h1
    · exact Or.inl h1
    · rcases ho with ho | ⟨p, ho, hp⟩
      · rw [ho] at h1; cases h1
      · rw [ho] at h1
        simp only [Option.some.injEq, SharedPtr.mk.injEq] at h1
        rcases hp with hp | hp
        · exact Or.inr ⟨by rw [← h1.1, hp], h1.2.symm⟩
        · left; rw [← h1.1, ← h1.2]; exact hp

theorem Trans.by_append_attach (w : World) (p r : Nat) (n : Int) (hn : w.deref r = some n)
    (hpr : w.HasPair p r) :
    Trans w [] (World.mk (w.counts.set (r - 1) (some (n + 1))) (w.events ++ [HeapEvent.incr r])
      (w.shared ++ [some { ptr_ := p, ref_count_ := r }]) w.weak) := by
  have h1 := Trans.by_append_null w 0 (Or.inl rfl)
  have hi : (World.mk w.counts w.events (w.shared ++ [some { ptr_ := 0, ref_count_ := 0 }])
      w.weak).sharedAt w.shared.length = some { ptr_ := 0, ref_count_ := 0 } := by
    simp [sharedAt]
  have hpr1 : (World.mk w.counts w.events (w.shared ++ [some { ptr_ := 0, ref_count_ := 0 }])
      w.weak).HasPair p r := by
    rcases hpr with ⟨j, hj⟩ | ⟨j, hj⟩
    · refine Or.inl ⟨j, ?_⟩
      have := sharedAt_newShared w { ptr_ := 0, ref_count_ := 0 } j
      have hlt := sharedAt_lt hj
      have hne : j ≠ w.shared.length := by omega
      simp only [hne, if_false] at this
      rw [← hj]; exact this
    · exact Or.inr ⟨j, hj⟩
  have h2 := Trans.attach _ w.shared.length _ p r n hi rfl hn hpr1
  have := Trans.comp _ _ _ _ _ h1 h2
  simp only [set_append_singleton, List.append_nil] at this
  exact this

theorem Trans.by_append_fresh (w : World) (p : Nat) :
    Trans w [p] (World.mk (w.counts ++ [some 1])
      (w.events ++ [HeapEvent.newCount (w.counts.length + 1)])
      (w.shared ++ [some { ptr_ := p, ref_count_ := w.counts.length + 1 }]) w.weak) := by
  have h1 := Trans.by_append_null w 0 (Or.inl rfl)
  have hi : (World.mk w.counts w.events (w.shared ++ [some { ptr_ := 0, ref_count_ := 0 }])
      w.weak).sharedAt w.shared.length = some { ptr_ := 0, ref_count_ := 0 } := by
    simp [sharedAt]
  have h2 := Trans.fresh _ w.shared.length _ p hi rfl
  have := Trans.comp _ _ _ _ _ h1 h2
  simp only [set_append_singleton, List.nil_append] at this
  exact this

theorem Trans.release_null (w : World) {i : Nat} {t : SharedPtr} {n : Int}
    (o1 : Option SharedPtr) (hi : w.sharedAt i = some t) (h0 : t.ref_count_ ≠ 0)
    (hn : w.deref t.ref_count_ = some n)
    (ho : o1 = none ∨ ∃ p, o1 = some { ptr_ := p, ref_count_ := 0 } ∧
      ∃ j, j ≠ i ∧ w.sharedAt j = some { ptr_ := p, ref_count_ := 0 }) :
    Trans w [] (World.mk (w.afterClear t n).counts (w.afterClear t n).events
      (w.shared.set i o1) w.weak) := by
  rcases ho with ho | ⟨p, ho, j, hji, hj⟩
  · exact Trans.release w i t n o1 hi h0 hn (Or.inl ho)
  · have h1 := Trans.release w i t n (some { ptr_ := 0, ref_count_ := 0 }) hi h0 hn
      (Or.inr rfl)
    have hi1 : (World.mk (w.afterClear t n).counts (w.afterClear t n).events
        (w.shared.set i (some { ptr_ := 0, ref_count_ := 0 })) w.weak).sharedAt i
        = some { ptr_ := 0, ref_count_ := 0 } :=
      sharedAt_setShared_self (w := w.afterClear t n) _ hi
    have hj1 : (World.mk (w.afterClear t n).counts (w.afterClear t n).events
        (w.shared.set i (some { ptr_ := 0, ref_count_ := 0 })) w.weak).sharedAt j
        = some { ptr_ := p, ref_count_ := 0 } := by
      rw [← hj]
      exact sharedAt_setShared_ne (w.afterClear t n) _ (Ne.symm hji)
    have h2 := Trans.by_set_null _ o1 hi1 rfl (Or.inr ⟨p, ho, Or.inr (Or.inl ⟨j, hj1⟩)⟩)
    have := Trans.comp _ _ _ _ _ h1 h2
    simp only [List.set_set, List.append_nil] at this
    exact this

theorem Trans.release_attach (w : World) {i j : Nat} {t r : SharedPtr} {n m : Int}
    (hi : w.sharedAt i = some t) (h0 : t.ref_count_ ≠ 0)
    (hn : w.deref t.ref_count_ = some n) (hji : j ≠ i) (hj : w.sharedAt j = some r)
    (hm : (w.afterClear t n).deref r.ref_count_ = some m) :
    Trans w [] (World.mk ((w.afterClear t n).counts.set (r.ref_count_ - 1) (some (m + 1)))
      ((w.afterClear t n).events ++ [HeapEvent.incr r.ref_count_])
      (w.shared.set i (some { ptr_ := r.ptr_, ref_count_ := r.ref_count_ })) w.weak) := by
  have h1 := Trans.release w i t n (some { ptr_ := 0, ref_count_ := 0 }) hi h0 hn
    (Or.inr rfl)
  have hi1 : (World.mk (w.afterClear t n).counts (w.afterClear t n).events
      (w.shared.set i (some { ptr_ := 0, ref_count_ := 0 })) w.weak).sharedAt i
      = some { ptr_ := 0, ref_count_ := 0 } :=
    sharedAt_setShared_self (w := w.afterClear t n) _ hi
  have hj1 : (World.mk (w.afterClear t n).counts (w.afterClear t n).events
      (w.shared.set i (some { ptr_ := 0, ref_count_ := 0 })) w.weak).sharedAt j = some r := by
    rw [← hj]
    exact sharedAt_setShared_ne (w.afterClear t n) _ (Ne.symm hji)
  have h2 := Trans.attach _ i _ r.ptr_ r.ref_count_ m hi1 rfl hm (HasPair.of_sharedAt hj1)
  have := Trans.comp _ _ _ _ _ h1 h2
  simp only [List.set_set, List.append_nil] at this
  exact this

theorem Trans.release_fresh (w : World) {i : Nat} {t : SharedPtr} {n : Int} (p : Nat)
    (hi : w.sharedAt i = some t) (h0 : t.ref_count_ ≠ 0)
    (hn : w.deref t.ref_count_ = some n) :
    Trans w [p] (World.mk ((w.afterClear t n).counts ++ [some 1])
      ((w.afterClear t n).events ++ [HeapEvent.newCount ((w.afterClear t n).counts.length + 1)])
      (w.shared.set i (some { ptr_ := p, ref_count_ := (w.afterClear t n).counts.length + 1 }))
      w.weak) := by
  have h1 := Trans.release w i t n (some { ptr_ := 0, ref_count_ := 0 }) hi h0 hn
    (Or.inr rfl)
  have hi1 : (World.mk (w.afterClear t n).counts (w.afterClear t n).events
      (w.shared.set i (some { ptr_ := 0, ref_count_ := 0 })) w.weak).sharedAt i
      = some { ptr_ := 0, ref_count_ := 0 } :=
    sharedAt_setShared_self (w := w.afterClear t n) _ hi
  have h2 := Trans.fresh _ i _ p hi1 rfl
  have := Trans.comp _ _ _ _ _ h1 h2
  simp only [List.set_set, List.nil_append] at this
  exact this

theorem Trans.observers (w w1 : World) (hc : w1.counts = w.counts) (he : w1.events = w.events)
    (hsh : w1.shared = w.shared)
    (hp : ∀ p r, w1.HasPair p r → w.HasPair p r ∨ (p = 0 ∧ r = 0)) : Trans w [] w1 :=
  Trans.frame w w1 hc he (fun a _ => by rw [sharers_eq, sharers_eq, hsh]) hp

theorem Trans.refl (w : World) : Trans w [] w :=
  Trans.frame w w rfl rfl (fun _ _ => rfl) (fun _ _ h => Or.inl h)

theorem Trans.swap (w : World) {i j : Nat} {t u : SharedPtr} (hi : w.sharedAt i = some t)
    (hj : w.sharedAt j = some u) :
    Trans w [] ((w.setShared i { ptr_ := u.ptr_, ref_count_ := u.ref_count_ }).setShared j
      { ptr_ := t.ptr_, ref_count_ := t.ref_count_ }) := by
  refine Trans.frame _ _ rfl rfl ?_ ?_
  · intro a _
    have hs1 := sharersIn_set (some { ptr_ := u.ptr_, ref_count_ := u.ref_count_ })
      (sharedAt_eq_some.mp hi) a
    have hj1 : (w.shared.set i (some { ptr_ := u.ptr_, ref_count_ := u.ref_count_ }))[j]?
        = some (some u) := by
      rw [List.getElem?_set]
      by_cases hij : i = j
      · subst hij
        have : u = t := by rw [hi] at hj; exact (Option.some.inj hj).symm
        simp [sharedAt_lt hi]
      · simp only [hij, if_false]; exact sharedAt_eq_some.mp hj
    have hs2 := sharersIn_set (some { ptr_ := t.ptr_, ref_count_ := t.ref_count_ }) hj1 a
    simp only [Option.map_some', Option.some.injEq] at hs1 hs2
    show sharersIn ((w.shared.set i _).set j _) a = sharersIn w.shared a
    omega
  · intro p r h
    left
    rcases HasPair.of_shared_set (w.setShared i { ptr_ := u.ptr_, ref_count_ := u.ref_count_ })
      _ j _ h rfl rfl with h1 | h1
    · rcases HasPair.of_shared_set w _ i _ h1 rfl rfl with h2 | h2
      · exact h2
      · simp only [Option.some.injEq, SharedPtr.mk.injEq] at h2
        rw [← h2.1, ← h2.2]; exact HasPair.of_sharedAt hj
    · simp only [Option.some.injEq, SharedPtr.mk.injEq] at h1
      rw [← h1.1, ← h1.2]; exact HasPair.of_sharedAt hi

end World

namespace World

theorem ctorWeak_trans {w : World} {rhs : Nat} {res : Nat × World}
    (h : SharedPtr.ctorWeak w rhs = some res) : Trans w [] res.2 := by
  unfold SharedPtr.ctorWeak at h
  cases hx : w.weakAt rhs with
  | none => simp [hx] at h
  | some x =>
    cases he : WeakPtr.Expired w rhs with
    | none => simp [hx, he] at h
    | some e =>
      simp only [hx, he] at h
      cases e with
      | true =>
        simp only [Bool.not_true, Bool.false_eq_true, if_false, Option.some.injEq] at h
        subst h
        exact Trans.by_append_null w 0 (Or.inl rfl)
      | false =>
        simp only [Bool.not_false, if_true, newShared] at h
        cases hi : incr (World.mk w.counts w.events
            (w.shared ++ [some { ptr_ := x.ptr_, ref_count_ := x.ref_count_ }]) w.weak)
            x.ref_count_ with
        | none => simp [hi] at h
        | some ci =>
          simp only [hi, Option.some.injEq] at h
          subst h
          obtain ⟨n, hn, _, hw⟩ := incr_inv (show _ = some (ci.1, ci.2) from hi)
          rw [hw]
          exact Trans.by_append_attach w x.ptr_ x.ref_count_ n hn (HasPair.of_weakAt hx)

/-- Every defined step of a public operation is a transformation that takes the raw pointer
of the operation, if it has one. -/
theorem step_trans {w w1 : World} (op : Op) (hs : w.step op = some w1) :
    Trans w op.rawPointer.toList w1 := by
  cases op with
  | sharedDefault =>
    simp only [step, Option.some.injEq] at hs
    subst hs
    exact Trans.by_append_null w 0 (Or.inl rfl)
  | sharedFromRaw res =>
    simp only [step, Option.some.injEq] at hs
    subst hs
    exact Trans.by_append_fresh w res
  | sharedCopy rhs =>
    simp only [step, SharedPtr.copyCtor] at hs
    cases hr : w.sharedAt rhs with
    | none => simp [hr] at hs
    | some r =>
      simp only [hr, newShared] at hs
      by_cases h0 : r.ref_count_ = 0
      · simp only [h0, ne_eq, not_true_eq_false, if_false, Option.map_some',
          Option.some.injEq] at hs
        subst hs
        refine Trans.by_append_null w r.ptr_ (Or.inr (Or.inl ⟨rhs, ?_⟩))
        rw [hr, ← h0]
      · simp only [ne_eq, h0, not_false_eq_true, if_true] at hs
        cases hi : incr (World.mk w.counts w.events
            (w.shared ++ [some { ptr_ := r.ptr_, ref_count_ := r.ref_count_ }]) w.weak)
            r.ref_count_ with
        | none => simp [hi] at hs
        | some ci =>
          simp only [hi, Option.map_some', Option.some.injEq] at hs
          subst hs
          obtain ⟨n, hn, _, hw⟩ := incr_inv (show _ = some (ci.1, ci.2) from hi)
          rw [hw]
          exact Trans.by_append_attach w r.ptr_ r.ref_count_ n hn (HasPair.of_sharedAt hr)
  | sharedFromWeak rhs =>
    simp only [step] at hs
    cases h1 : SharedPtr.ctorWeak w rhs with
    | none => simp [h1] at hs
    | some res =>
      simp only [h1, Option.map_some', Option.some.injEq] at hs
      subst hs
      exact ctorWeak_trans h1
  | sharedAssign this rhs =>
    simp only [step, SharedPtr.assign] at hs
    cases ht : w.sharedAt this with
    | none => simp [ht] at hs
    | some t =>
      cases hr : w.sharedAt rhs with
      | none => simp [ht, hr] at hs
      | some r =>
        simp only [ht, hr] at hs
        by_cases hne : this = rhs
        · simp only [hne, ne_eq, not_true_eq_false, if_false, Option.some.injEq] at hs
          subst hs
          exact Trans.refl w
        · simp only [ne_eq, hne, not_false_eq_true, if_true] at hs
          cases hcl : SharedPtr.Clear w this with
          | none => simp [hcl] at hs
          | some w0 =>
            simp only [hcl] at hs
            obtain ⟨t1, ht1, hcase⟩ := Clear_inv hcl
            rw [ht] at ht1
            have ht1' : t = t1 := Option.some.inj ht1
            subst ht1'
            rcases hcase with ⟨ht0, hw0⟩ | ⟨ht0, n, hn, hw0⟩
            · subst hw0
              by_cases h0 : r.ref_count_ = 0
              · simp only [h0, ne_eq, not_true_eq_false, if_false, Option.some.injEq] at hs
                subst hs
                refine Trans.by_set_null w0 _ ht ht0
                  (Or.inr ⟨r.ptr_, rfl, Or.inr (Or.inl ⟨rhs, ?_⟩)⟩)
                rw [hr, ← h0]
              · simp only [ne_eq, h0, not_false_eq_true, if_true] at hs
                cases hi : incr (w0.setShared this
                    { ptr_ := r.ptr_, ref_count_ := r.ref_count_ }) r.ref_count_ with
                | none => simp [hi] at hs
                | some ci =>
                  simp only [hi, Option.some.injEq] at hs
                  subst hs
                  obtain ⟨m, hm, _, hw⟩ := incr_inv (show _ = some (ci.1, ci.2) from hi)
                  rw [hw]
                  exact Trans.attach w0 this t r.ptr_ r.ref_count_ m ht ht0 hm
                    (HasPair.of_sharedAt hr)
            · subst hw0
              by_cases h0 : r.ref_count_ = 0
              · simp only [h0, ne_eq, not_true_eq_false, if_false, Option.some.injEq] at hs
                subst hs
                refine Trans.release_null w _ ht ht0 hn
                  (Or.inr ⟨r.ptr_, rfl, rhs, Ne.symm hne, ?_⟩)
                rw [hr, ← h0]
              · simp only [ne_eq, h0, not_false_eq_true, if_true] at hs
                cases hi : incr ((w.afterClear t n).setShared this
                    { ptr_ := r.ptr_, ref_count_ := r.ref_count_ }) r.ref_count_ with
                | none => simp [hi] at hs
                | some ci =>
                  simp only [hi, Option.some.injEq] at hs
                  subst hs
                  obtain ⟨m, hm, _, hw⟩ := incr_inv (show _ = some (ci.1, ci.2) from hi)
                  rw [hw]
                  exact Trans.release_attach w ht ht0 hn (Ne.symm hne) hr hm
  | sharedDestroy this =>
    simp only [step, SharedPtr.destroy] at hs
    cases hcl : SharedPtr.Clear w this with
    | none => simp [hcl] at hs
    | some w0 =>
      simp only [hcl, Option.map_some', Option.some.injEq] at hs
      subst hs
      obtain ⟨t, ht, hcase⟩ := Clear_inv hcl
      rcases hcase with ⟨ht0, hw0⟩ | ⟨ht0, n, hn, hw0⟩
      · subst hw0
        exact Trans.by_set_null w0 none ht ht0 (Or.inl rfl)
      · subst hw0
        exact Trans.release w this t n none ht ht0 hn (Or.inl rfl)
  | sharedReset this =>
    simp only [step, SharedPtr.Reset] at hs
    cases hcl : SharedPtr.Clear w this with
    | none => simp [hcl] at hs
    | some w0 =>
      simp only [hcl, Option.map_some', Option.some.injEq] at hs
      subst hs
      obtain ⟨t, ht, hcase⟩ := Clear_inv hcl
      rcases hcase with ⟨ht0, hw0⟩ | ⟨ht0, n, hn, hw0⟩
      · subst hw0
        exact Trans.by_set_null w0 _ ht ht0 (Or.inr ⟨0, rfl, Or.inl rfl⟩)
      · subst hw0
        exact Trans.release w this t n _ ht ht0 hn (Or.inr rfl)
  | sharedResetTo this res =>
    simp only [step, SharedPtr.ResetTo] at hs
    cases hcl : SharedPtr.Clear w this with
    | none => simp [hcl] at hs
    | some w0 =>
      simp only [hcl, Option.some.injEq] at hs
      subst hs
      obtain ⟨t, ht, hcase⟩ := Clear_inv hcl
      rcases hcase with ⟨ht0, hw0⟩ | ⟨ht0, n, hn, hw0⟩
      · subst hw0
        exact Trans.fresh w0 this t res ht ht0
      · subst hw0
        exact Trans.release_fresh w res ht ht0 hn
  | sharedSwap this rhs =>
    simp only [step, SharedPtr.Swap] at hs
    cases ht : w.sharedAt this with
    | none => simp [ht] at hs
    | some t =>
      cases hr : w.sharedAt rhs with
      | none => simp [ht, hr] at hs
      | some r =>
        simp only [ht, hr, Option.some.injEq] at hs
        subst hs
        exact Trans.swap w ht hr
  | weakDefault =>
    simp only [step, Option.some.injEq] at hs
    subst hs
    refine Trans.observers _ _ rfl rfl rfl ?_
    intro p r h
    rcases HasPair.of_weak_append w _ _ h rfl rfl with h1 | h1
    · exact Or.inl h1
    · simp only [Option.some.injEq, WeakPtr.mk.injEq] at h1
      exact Or.inr ⟨h1.1.symm, h1.2.symm⟩
  | weakCopy rhs =>
    simp only [step, WeakPtr.copyCtor] at hs
    cases hx : w.weakAt rhs with
    | none => simp [hx] at hs
    | some x =>
      simp only [hx, Option.map_some', Option.some.injEq] at hs
      subst hs
      refine Trans.observers _ _ rfl rfl rfl ?_
      intro p r h
      rcases HasPair.of_weak_append w _ _ h rfl rfl with h1 | h1
      · exact Or.inl h1
      · simp only [Option.some.injEq, WeakPtr.mk.injEq] at h1
        left; rw [← h1.1, ← h1.2]; exact HasPair.of_weakAt hx
  | weakFromShared rhs =>
    simp only [step, WeakPtr.ctorShared] at hs
    cases hx : w.sharedAt rhs with
    | none => simp [hx] at hs
    | some x =>
      simp only [hx, Option.map_some', Option.some.injEq] at hs
      subst hs
      refine Trans.observers _ _ rfl rfl rfl ?_
      intro p r h
      rcases HasPair.of_weak_append w _ _ h rfl rfl with h1 | h1
      · exact Or.inl h1
      · simp only [Option.some.injEq, WeakPtr.mk.injEq] at h1
        left; rw [← h1.1, ← h1.2]; exact HasPair.of_sharedAt hx
  | weakAssign this rhs =>
    simp only [step, WeakPtr.assign] at hs
    cases ht : w.weakAt this with
    | none => simp [ht] at hs
    | some t =>
      cases hx : w.weakAt rhs with
      | none => simp [ht, hx] at hs
      | some x =>
        simp only [ht, hx] at hs
        by_cases hne : this = rhs
        · simp only [hne, ne_eq, not_true_eq_false, if_false, Option.some.injEq] at hs
          subst hs
          exact Trans.refl w
        · simp only [ne_eq, hne, not_false_eq_true, if_true, Option.some.injEq] at hs
          subst hs
          refine Trans.observers _ _ rfl rfl rfl ?_
          intro p r h
          rcases HasPair.of_weak_set w _ this _ h rfl rfl with h1 | h1
          · exact Or.inl h1
          · simp only [Option.some.injEq, WeakPtr.mk.injEq] at h1
            left; rw [← h1.1, ← h1.2]; exact HasPair.of_weakAt hx
  | weakAssignShared this rhs =>
    simp only [step, WeakPtr.assignShared] at hs
    cases ht : w.weakAt this with
    | none => simp [ht] at hs
    | some t =>
      cases hx : w.sharedAt rhs with
      | none => simp [ht, hx] at hs
      | some x =>
        simp only [ht, hx, Option.some.injEq] at hs
        subst hs
        refine Trans.observers _ _ rfl rfl rfl ?_
        intro p r h
        rcases HasPair.of_weak_set w _ this _ h rfl rfl with h1 | h1
        · exact Or.inl h1
        · simp only [Option.some.injEq, WeakPtr.mk.injEq] at h1
          left; rw [← h1.1, ← h1.2]; exact HasPair.of_sharedAt hx
  | weakDestroy this =>
    simp only [step, WeakPtr.destroy] at hs
    cases ht : w.weakAt this with
    | none => simp [ht] at hs
    | some t =>
      simp only [ht, Option.map_some', Option.some.injEq] at hs
      subst hs
      refine Trans.observers _ _ rfl rfl rfl ?_
      intro p r h
      rcases HasPair.of_weak_set w _ this _ h rfl rfl with h1 | h1
      · exact Or.inl h1
      · cases h1
  | weakReset this =>
    simp only [step, WeakPtr.Reset] at hs
    cases ht : w.weakAt this with
    | none => simp [ht] at hs
    | some t =>
      simp only [ht, Option.map_some', Option.some.injEq] at hs
      subst hs
      refine Trans.observers _ _ rfl rfl rfl ?_
      intro p r h
      rcases HasPair.of_weak_set w _ this _ h rfl rfl with h1 | h1
      · exact Or.inl h1
      · simp only [Option.some.injEq, WeakPtr.mk.injEq] at h1
        exact Or.inr ⟨h1.1.symm, h1.2.symm⟩
  | weakSwap this rhs =>
    simp only [step, WeakPtr.Swap] at hs
    cases ht : w.weakAt this with
    | none => simp [ht] at hs
    | some t =>
      cases hx : w.weakAt rhs with
      | none => simp [ht, hx] at hs
      | some x =>
        simp only [ht, hx, Option.some.injEq] at hs
        subst hs
        refine Trans.observers _ _ rfl rfl rfl ?_
        intro p r h
        left
        rcases HasPair.of_weak_set
          (w.setWeak this { ptr_ := x.ptr_, ref_count_ := x.ref_count_ }) _ rhs _ h rfl rfl
          with h1 | h1
        · rcases HasPair.of_weak_set w _ this _ h1 rfl rfl with h2 | h2
          · exact h2
          · simp only [Option.some.injEq, WeakPtr.mk.injEq] at h2
            rw [← h2.1, ← h2.2]; exact HasPair.of_weakAt hx
        · simp only [Option.some.injEq, WeakPtr.mk.injEq] at h1
          rw [← h1.1, ← h1.2]; exact HasPair.of_weakAt ht
  | weakLock this =>
    simp only [step, WeakPtr.Lock] at hs
    cases he : WeakPtr.Expired w this with
    | none => simp [he] at hs
    | some e =>
      simp only [he] at hs
      cases e with
      | true =>
        simp only [if_true, Option.map_some', Option.some.injEq] at hs
        subst hs
        exact Trans.by_append_null w 0 (Or.inl rfl)
      | false =>
        simp only [Bool.false_eq_true, if_false] at hs
        cases h1 : SharedPtr.ctorWeak w this with
        | none => simp [h1] at hs
        | some res =>
          simp only [h1, Option.map_some', Option.some.injEq] at hs
          subst hs
          exact ctorWeak_trans h1

end World

namespace World

theorem rawPointers_cons (op : Op) (ops : List Op) :
    rawPointers (op :: ops) = op.rawPointer.toList ++ rawPointers ops := by
  unfold rawPointers
  rw [List.filterMap_cons]
  cases op.rawPointer <;> rfl

theorem not_hasPair_empty (p r : Nat) : ¬ World.empty.HasPair p r := by
  rintro (⟨i, h⟩ | ⟨i, h⟩)
  · simp [sharedAt, empty] at h
  · simp [weakAt, empty] at h

theorem empty_sound : Sound [] World.empty := by
  refine ⟨empty_CountsMatch, ?_, ?_, ?_, ?_, ?_, ?_, FreedAtZero.nil⟩
  · intro p r h; exact absurd h (not_hasPair_empty p r)
  · intro p q r h; exact absurd h (not_hasPair_empty p r)
  · intro p r h; exact absurd h (not_hasPair_empty p r)
  · intro p h; exact absurd h (not_hasPair_empty p 0)
  · intro a; simp [cellFrees, empty]
  · intro a n h; simp [deref, cellAt, empty] at h

/-- The invariants hold in every state reached from a state where they hold. -/
theorem run_sound (ops : List Op) :
    ∀ {w w1 : World} {used : List Nat}, Sound used w → w.run ops = some w1 →
      Sound (used ++ rawPointers ops) w1 := by
  induction ops with
  | nil =>
    intro w w1 used hs h
    simp only [run, Option.some.injEq] at h
    subst h
    simpa [rawPointers] using hs
  | cons op ops ih =>
    intro w w1 used hs h
    simp only [run] at h
    cases hst : w.step op with
    | none => simp [hst] at h
    | some w2 =>
      simp only [hst, Option.some_bind] at h
      rw [rawPointers_cons, ← List.append_assoc]
      exact ih (Sound.sound_trans (step_trans op hst) hs) h

theorem reachable_sound {ops : List Op} {w : World} (h : World.empty.run ops = some w) :
    Sound (rawPointers ops) w := by
  have := run_sound ops empty_sound h
  simpa using this

end World

/-! ## Claims on reachable states -/

/-- C12, as the claim states it, fails: `SharedPtr<int> s(nullptr);` is a construction from a
raw pointer, and it leaves `s` with a count cell (holding 1) and a null pointee pointer. -/
theorem C12_null_raw_pointer_gets_count_cell :
    ¬ (∀ (ops : List Op) (w : World), World.empty.run ops = some w →
        ∀ i s, w.sharedAt i = some s →
          (s.ref_count_ ≠ 0 →
            (∃ n : Int, SharedPtr.UseCount w i = some n ∧ 1 ≤ n) ∧ s.ptr_ ≠ 0) ∧
          (s.ref_count_ = 0 → s.ptr_ = 0)) := by
  intro h
  have h1 := h [Op.sharedFromRaw 0]
    (World.mk [some 1] [HeapEvent.newCount 1] [some { ptr_ := 0, ref_count_ := 1 }] [])
    (by decide) 0 { ptr_ := 0, ref_count_ := 1 } (by decide)
  exact (h1.1 (by decide)).2 rfl

/-- C12, amended: in every state reached from the empty one through public operations of the
two classes, each live `SharedPtr` satisfies: if its `ref_count_` is non-null then
`UseCount()` is at least 1 and its `ptr_` is one of the raw pointers that were passed to
`SharedPtr(Resource*)` or `Reset(Resource*)`, hence non-null when none of those was null; if
its `ref_count_` is null then its `ptr_` is null. -/
theorem C12_reachable_shared_invariant (ops : List Op) (w : World)
    (hrun : World.empty.run ops = some w) :
    ∀ i s, w.sharedAt i = some s →
      (s.ref_count_ ≠ 0 →
        (∃ n : Int, SharedPtr.UseCount w i = some n ∧ 1 ≤ n) ∧
        s.ptr_ ∈ rawPointers ops ∧ (0 ∉ rawPointers ops → s.ptr_ ≠ 0)) ∧
      (s.ref_count_ = 0 → s.ptr_ = 0) := by
  have hs := World.reachable_sound hrun
  intro i s hi
  have hpair : w.HasPair s.ptr_ s.ref_count_ := World.HasPair.of_sharedAt hi
  constructor
  · intro h0
    have hpos := World.sharers_pos hi
    have hz : w.sharers s.ref_count_ ≠ 0 := by omega
    have hmem := hs.usedp _ _ hpair h0
    refine ⟨⟨(w.sharers s.ref_count_ : Int), ?_, by omega⟩, hmem, ?_⟩
    · simp only [SharedPtr.UseCount, hi, ne_eq, h0, not_false_eq_true, if_true]
      rw [hs.cm _ h0]; simp [hz]
    · intro hnull hp
      rw [hp] at hmem
      exact hnull hmem
  · intro h0
    rw [h0] at hpair
    exact hs.null _ hpair

/-- Witness for C12 (amended): after `SharedPtr a(p24); SharedPtr b(a); b.Reset();` the
owner `a` has count 1 and a non-null pointee pointer, and `b` has both pointers null. -/
theorem C12_reachable_shared_invariant_witness :
    ((∃ n : Int, SharedPtr.UseCount World.sampleAfterReset 0 = some n ∧ 1 ≤ n) ∧
      (24 : Nat) ≠ 0) ∧ (0 : Nat) = 0 :=
  ⟨⟨(((C12_reachable_shared_invariant
        [Op.sharedFromRaw 24, Op.sharedCopy 0, Op.sharedReset 1] World.sampleAfterReset
        (by decide)) 0 { ptr_ := 24, ref_count_ := 1 } (by decide)).1 (by decide)).1,
    (((C12_reachable_shared_invariant
        [Op.sharedFromRaw 24, Op.sharedCopy 0, Op.sharedReset 1] World.sampleAfterReset
        (by decide)) 0 { ptr_ := 24, ref_count_ := 1 } (by decide)).1 (by decide)).2.2
      (by decide)⟩,
    ((C12_reachable_shared_invariant
        [Op.sharedFromRaw 24, Op.sharedCopy 0, Op.sharedReset 1] World.sampleAfterReset
        (by decide)) 1 { ptr_ := 0, ref_count_ := 0 } (by decide)).2 rfl⟩

/-- C19: in every state reached from the empty one, let `a` and `b` be distinct live
`SharedPtr` objects with the same non-null `ref_count_`.  Then they have the same `ptr_`,
and the cell holds a count `n >= 2`.  The copy assignment `a = b` is defined and its only
heap events are one decrement and one increment of that cell: nothing is freed, and every
count cell, every `SharedPtr` and every `WeakPtr` is as before, so the count, `a.Get()`,
`b.Get()`, `a.UseCount()` and `b.UseCount()` are unchanged. -/
theorem C19_assign_within_block_frees_nothing (ops : List Op) (w : World) (a b : Nat)
    (sa sb : SharedPtr) (hrun : World.empty.run ops = some w) (hab : a ≠ b)
    (ha : w.sharedAt a = some sa) (hb : w.sharedAt b = some sb)
    (hr : sa.ref_count_ = sb.ref_count_) (h0 : sa.ref_count_ ≠ 0) :
    sa.ptr_ = sb.ptr_ ∧
    ∃ n : Int, 2 ≤ n ∧ SharedPtr.UseCount w a = some n ∧ SharedPtr.UseCount w b = some n ∧
      ∃ w1, SharedPtr.assign w a b = some w1 ∧
        w1.counts = w.counts ∧ w1.shared = w.shared ∧ w1.weak = w.weak ∧
        w1.events = w.events ++
          [HeapEvent.decr sa.ref_count_, HeapEvent.incr sa.ref_count_] ∧
        SharedPtr.Get w1 a = SharedPtr.Get w a ∧ SharedPtr.Get w1 b = SharedPtr.Get w b ∧
        SharedPtr.UseCount w1 a = some n ∧ SharedPtr.UseCount w1 b = some n := by
  have hs := World.reachable_sound hrun
  have hp : sa.ptr_ = sb.ptr_ := by
    have h2 := World.HasPair.of_sharedAt hb
    rw [← hr] at h2
    exact hs.func _ _ _ (World.HasPair.of_sharedAt ha) h2 h0
  have h0b : sb.ref_count_ ≠ 0 := by rw [← hr]; exact h0
  have htwo := World.sharers_two hab ha hb hr.symm
  have hz : w.sharers sa.ref_count_ ≠ 0 := by omega
  have hn : w.deref sa.ref_count_ = some (w.sharers sa.ref_count_ : Int) := by
    rw [hs.cm _ h0]; simp [hz]
  have hua : SharedPtr.UseCount w a = some (w.sharers sa.ref_count_ : Int) := by
    simp [SharedPtr.UseCount, ha, h0, hn]
  have hub : SharedPtr.UseCount w b = some (w.sharers sa.ref_count_ : Int) := by
    simp only [SharedPtr.UseCount, hb, ne_eq, h0b, not_false_eq_true, if_true]
    rw [← hr]; exact hn
  have hn1 : ¬ ((w.sharers sa.ref_count_ : Int) = 1) := by omega
  have hn1a : ¬ (w.sharers sa.ref_count_ = 1) := by omega
  have hn1b : ¬ (w.sharers sb.ref_count_ = 1) := by rw [← hr]; exact hn1a
  have hcl := World.Clear_eq ha h0 hn
  have hm : (w.afterClear sa (w.sharers sa.ref_count_ : Int)).deref sb.ref_count_
      = some ((w.sharers sa.ref_count_ : Int) - 1) := by
    rw [World.deref_afterClear hn]; simp [hr, hn1b]
  have hasg := World.assign_eq_incr hab ha hb hcl h0b hm
  have hsab : sa = { ptr_ := sb.ptr_, ref_count_ := sb.ref_count_ } := by
    cases sa with
    | mk p r => simp only at hp hr; rw [hp, hr]
  have hshared : w.shared.set a (some { ptr_ := sb.ptr_, ref_count_ := sb.ref_count_ })
      = w.shared := by
    apply World.set_same
    rw [← hsab]; exact World.sharedAt_eq_some.mp ha
  have hcounts : ((w.afterClear sa (w.sharers sa.ref_count_ : Int)).counts.set
      (sb.ref_count_ - 1) (some ((w.sharers sa.ref_count_ : Int) - 1 + 1))) = w.counts := by
    simp only [World.afterClear, hn1, if_false, ← hr, List.set_set, sub_add_cancel]
    exact World.set_same (World.cellAt_getElem? hn)
  have hw1 : World.mk ((w.afterClear sa (w.sharers sa.ref_count_ : Int)).counts.set
      (sb.ref_count_ - 1) (some ((w.sharers sa.ref_count_ : Int) - 1 + 1)))
      ((w.afterClear sa (w.sharers sa.ref_count_ : Int)).events
        ++ [HeapEvent.incr sb.ref_count_])
      ((w.afterClear sa (w.sharers sa.ref_count_ : Int)).shared.set a
        (some { ptr_ := sb.ptr_, ref_count_ := sb.ref_count_ }))
      (w.afterClear sa (w.sharers sa.ref_count_ : Int)).weak
      = World.mk w.counts
        (w.events ++ [HeapEvent.decr sa.ref_count_, HeapEvent.incr sa.ref_count_])
        w.shared w.weak := by
    rw [hcounts]
    have : (w.afterClear sa (w.sharers sa.ref_count_ : Int)).shared = w.shared := rfl
    rw [this, hshared]
    simp [World.afterClear, hn1b, hr]
  rw [hw1] at hasg
  refine ⟨hp, (w.sharers sa.ref_count_ : Int), by omega, hua, hub, _, hasg, rfl, rfl, rfl,
    rfl, rfl, rfl, ?_, ?_⟩
  · rw [← hua]; rfl
  · rw [← hub]; rfl

/-- Witness for C19: `SharedPtr a(p24); SharedPtr b(a);` followed by a default construction
and a `WeakPtr` made from `a`; then `a = b`. -/
theorem C19_assign_within_block_frees_nothing_witness :
    (24 : Nat) = 24 ∧
    ∃ n : Int, 2 ≤ n ∧ SharedPtr.UseCount World.sampleTwoOwners 0 = some n ∧
      SharedPtr.UseCount World.sampleTwoOwners 1 = some n ∧
      ∃ w1, SharedPtr.assign World.sampleTwoOwners 0 1 = some w1 ∧
        w1.counts = World.sampleTwoOwners.counts ∧
        w1.shared = World.sampleTwoOwners.shared ∧ w1.weak = World.sampleTwoOwners.weak ∧
        w1.events = World.sampleTwoOwners.events ++ [HeapEvent.decr 1, HeapEvent.incr 1] ∧
        SharedPtr.Get w1 0 = SharedPtr.Get World.sampleTwoOwners 0 ∧
        SharedPtr.Get w1 1 = SharedPtr.Get World.sampleTwoOwners 1 ∧
        SharedPtr.UseCount w1 0 = some n ∧ SharedPtr.UseCount w1 1 = some n :=
  C19_assign_within_block_frees_nothing
    [Op.sharedFromRaw 24, Op.sharedCopy 0, Op.sharedDefault, Op.weakFromShared 0]
    World.sampleTwoOwners 0 1 { ptr_ := 24, ref_count_ := 1 } { ptr_ := 24, ref_count_ := 1 }
    (by decide) (by decide) (by decide) (by decide) rfl (by decide)

/-! ## Frees happen once, together, at the decrement to zero -/

namespace World

theorem isSome_of_deref_zero {w : World} (h : (w.deref 0).isSome = true) : False := by
  simp [deref, cellAt] at h

theorem Fresh.fresh_frame {used : List Nat} {w w1 : World} (hf : Fresh used w)
    (hc : w1.counts = w.counts) (he : w1.events = w.events)
    (hp : ∀ p r, w1.HasPair p r → w.HasPair p r ∨ (p = 0 ∧ r = 0)) : Fresh used w1 := by
  refine ⟨?_, ?_, ?_, ?_⟩
  · intro p r r1 h1 h2 hr hr1
    rcases hp p r h1 with h1 | ⟨_, h1⟩
    · rcases hp p r1 h2 with h2 | ⟨_, h2⟩
      · exact hf.inj p r r1 h1 h2 hr hr1
      · exact absurd h2 hr1
    · exact absurd h1 hr
  · intro p h
    rw [he] at h; exact hf.resUsed p h
  · intro p r h hd
    rw [he]
    rw [deref_eq, hc] at hd
    rcases hp p r h with h1 | ⟨_, h1⟩
    · exact hf.resLive p r h1 hd
    · subst h1
      simp [cellAt] at hd
  · intro p
    unfold pointeeFrees
    rw [he]; exact hf.resOnce p

theorem pointeeFrees_eq_zero {w : World} {p : Nat} (h : HeapEvent.deleteRes p ∉ w.events) :
    w.pointeeFrees p = 0 := by
  unfold pointeeFrees
  rw [List.countP_eq_zero]
  intro e he
  simp only [decide_eq_true_eq]
  intro heq
  rw [heq] at he
  exact h he

theorem hasPair_released {w : World} {i : Nat} {t : SharedPtr} {n : Int}
    {o1 : Option SharedPtr} (ho : o1 = none ∨ o1 = some { ptr_ := 0, ref_count_ := 0 })
    {p r : Nat}
    (h : HasPair (World.mk (w.afterClear t n).counts (w.afterClear t n).events
      (w.shared.set i o1) w.weak) p r) : w.HasPair p r ∨ (p = 0 ∧ r = 0) := by
  rcases HasPair.of_shared_set w _ i o1 h rfl rfl with h1 | h1
  · exact Or.inl h1
  · rcases ho with ho | ho
    · rw [ho] at h1; cases h1
    · rw [ho] at h1
      simp only [Option.some.injEq, SharedPtr.mk.injEq] at h1
      exact Or.inr ⟨h1.1.symm, h1.2.symm⟩

theorem Fresh.fresh_release {used : List Nat} {w : World} (hs : Sound used w) (hf : Fresh used w)
    {i : Nat} {t : SharedPtr} {n : Int} {o1 : Option SharedPtr}
    (hi : w.sharedAt i = some t) (h0 : t.ref_count_ ≠ 0)
    (hn : w.deref t.ref_count_ = some n)
    (ho : o1 = none ∨ o1 = some { ptr_ := 0, ref_count_ := 0 }) :
    Fresh used (World.mk (w.afterClear t n).counts (w.afterClear t n).events
      (w.shared.set i o1) w.weak) := by
  have hd := deref_afterClear hn
  have hpt : w.HasPair t.ptr_ t.ref_count_ := HasPair.of_sharedAt hi
  have hnot : HeapEvent.deleteRes t.ptr_ ∉ w.events :=
    hf.resLive _ _ hpt (by rw [hn]; rfl)
  have hev : ∀ q, HeapEvent.deleteRes q ∈ (w.afterClear t n).events →
      HeapEvent.deleteRes q ∈ w.events ∨ (n = 1 ∧ q = t.ptr_) := by
    intro q hq
    by_cases hn1 : n = 1
    · simp only [afterClear, hn1, if_true, List.mem_append, List.mem_cons, reduceCtorEq,
        HeapEvent.deleteRes.injEq, List.mem_singleton, false_or, or_false,
        List.not_mem_nil] at hq
      rcases hq with hq | hq
      · exact Or.inl hq
      · exact Or.inr ⟨hn1, hq⟩
    · simp only [afterClear, hn1, if_false, List.mem_append, List.mem_singleton,
        reduceCtorEq, or_false] at hq
      exact Or.inl hq
  refine ⟨?_, ?_, ?_, ?_⟩
  · intro p r r1 h1 h2 hr hr1
    rcases hasPair_released ho h1 with h1 | ⟨_, h1⟩
    · rcases hasPair_released ho h2 with h2 | ⟨_, h2⟩
      · exact hf.inj p r r1 h1 h2 hr hr1
      · exact absurd h2 hr1
    · exact absurd h1 hr
  · intro p h
    rcases hev p h with h1 | ⟨_, h1⟩
    · exact hf.resUsed p h1
    · rw [h1]; exact hs.usedp _ _ hpt h0
  · intro p r h hdr hmem
    have hdr' : ((w.afterClear t n).deref r).isSome = true := hdr
    rw [hd] at hdr'
    rcases hasPair_released ho h with h1 | ⟨_, h1⟩
    · have hold : (w.deref r).isSome = true := by
        by_cases hra : r = t.ref_count_
        · rw [hra, hn]; rfl
        · simpa [hra] using hdr'
      rcases hev p hmem with h2 | ⟨hn1, h2⟩
      · exact hf.resLive p r h1 hold h2
      · have hr0 : r ≠ 0 := by
          intro e; rw [e] at hold; exact isSome_of_deref_zero hold
        have := hf.inj p r t.ref_count_ h1 (by rw [h2]; exact hpt) hr0 h0
        rw [this] at hdr'
        simp [hn1] at hdr'
    · subst h1
      have h0' : ¬ (0 = t.ref_count_) := fun e => h0 e.symm
      simp [deref, cellAt, h0'] at hdr'
  · intro p
    have hold := hf.resOnce p
    unfold pointeeFrees at hold ⊢
    by_cases hn1 : n = 1
    · by_cases hp : p = t.ptr_
      · have hz := pointeeFrees_eq_zero hnot
        unfold pointeeFrees at hz
        subst hp
        simp [afterClear, hn1, List.countP_append, List.countP_cons, hz]
      · have hp' : ¬ (t.ptr_ = p) := fun e => hp e.symm
        simp [afterClear, hn1, List.countP_append, List.countP_cons, hp']
        exact hold
    · simp [afterClear, hn1, List.countP_append, List.countP_cons]
      exact hold

end World

namespace World

theorem Fresh.fresh_attach {used : List Nat} {w : World} (hf : Fresh used w) {i : Nat}
    {p r : Nat} {n : Int} (hn : w.deref r = some n) (hpr : w.HasPair p r) :
    Fresh used (World.mk (w.counts.set (r - 1) (some (n + 1)))
      (w.events ++ [HeapEvent.incr r])
      (w.shared.set i (some { ptr_ := p, ref_count_ := r })) w.weak) := by
  have hc : cellAt w.counts r = some n := hn
  have hp : ∀ q s, HasPair (World.mk (w.counts.set (r - 1) (some (n + 1)))
      (w.events ++ [HeapEvent.incr r])
      (w.shared.set i (some { ptr_ := p, ref_count_ := r })) w.weak) q s → w.HasPair q s := by
    intro q s h
    rcases HasPair.of_shared_set w _ i _ h rfl rfl with h1 | h1
    · exact h1
    · simp only [Option.some.injEq, SharedPtr.mk.injEq] at h1
      rw [← h1.1, ← h1.2]; exact hpr
  have hev : ∀ q, HeapEvent.deleteRes q ∈ w.events ++ [HeapEvent.incr r] →
      HeapEvent.deleteRes q ∈ w.events := by
    intro q hq
    simpa using hq
  refine ⟨?_, ?_, ?_, ?_⟩
  · intro q s s1 h1 h2 hs0 hs1
    exact hf.inj q s s1 (hp q s h1) (hp q s1 h2) hs0 hs1
  · intro q h
    exact hf.resUsed q (hev q h)
  · intro q s h hd hmem
    have hd' : (cellAt (w.counts.set (r - 1) (some (n + 1))) s).isSome = true := hd
    rw [cellAt_set _ s hc] at hd'
    have hold : (w.deref s).isSome = true := by
      by_cases hsr : s = r
      · rw [hsr, hn]; rfl
      · simpa [hsr] using hd'
    exact hf.resLive q s (hp q s h) hold (hev q hmem)
  · intro q
    have hold := hf.resOnce q
    unfold pointeeFrees at hold ⊢
    simpa [List.countP_append, List.countP_cons] using hold

theorem Fresh.fresh_fresh {used : List Nat} {w : World} (hs : Sound used w) (hf : Fresh used w)
    {i : Nat} (p : Nat) (hp0 : p ∉ used) :
    Fresh (used ++ [p]) (World.mk (w.counts ++ [some 1])
      (w.events ++ [HeapEvent.newCount (w.counts.length + 1)])
      (w.shared.set i (some { ptr_ := p, ref_count_ := w.counts.length + 1 })) w.weak) := by
  have hp : ∀ q s, HasPair (World.mk (w.counts ++ [some 1])
      (w.events ++ [HeapEvent.newCount (w.counts.length + 1)])
      (w.shared.set i (some { ptr_ := p, ref_count_ := w.counts.length + 1 })) w.weak) q s →
      w.HasPair q s ∨ (q = p ∧ s = w.counts.length + 1) := by
    intro q s h
    rcases HasPair.of_shared_set w _ i _ h rfl rfl with h1 | h1
    · exact Or.inl h1
    · simp only [Option.some.injEq, SharedPtr.mk.injEq] at h1
      exact Or.inr ⟨h1.1.symm, h1.2.symm⟩
  have hev : ∀ q, HeapEvent.deleteRes q ∈ w.events ++ [HeapEvent.newCount (w.counts.length + 1)]
      → HeapEvent.deleteRes q ∈ w.events := by
    intro q hq
    simpa using hq
  refine ⟨?_, ?_, ?_, ?_⟩
  · intro q s s1 h1 h2 hs0 hs1
    rcases hp q s h1 with h1 | ⟨hq, h1⟩
    · rcases hp q s1 h2 with h2 | ⟨hq2, _⟩
      · exact hf.inj q s s1 h1 h2 hs0 hs1
      · rw [hq2] at h1
        exact absurd (hs.usedp _ _ h1 hs0) hp0
    · rcases hp q s1 h2 with h2 | ⟨_, h2⟩
      · rw [hq] at h2
        exact absurd (hs.usedp _ _ h2 hs1) hp0
      · rw [h1, h2]
  · intro q h
    exact List.mem_append_left _ (hf.resUsed q (hev q h))
  · intro q s h hd hmem
    have hmem' := hev q hmem
    have hd' : (cellAt (w.counts ++ [some 1]) s).isSome = true := hd
    rw [cellAt_append] at hd'
    rcases hp q s h with h1 | ⟨hq, _⟩
    · have hb := hs.bound q s h1
      have hne : s ≠ w.counts.length + 1 := by omega
      simp only [hne, if_false] at hd'
      exact hf.resLive q s h1 hd' hmem'
    · rw [hq] at hmem'
      exact hp0 (hf.resUsed p hmem')
  · intro q
    have hold := hf.resOnce q
    unfold pointeeFrees at hold ⊢
    simpa [List.countP_append, List.countP_cons] using hold

theorem Fresh.fresh_mono {used : List Nat} {w : World} (hf : Fresh used w) (more : List Nat) :
    Fresh (used ++ more) w :=
  ⟨hf.inj, fun p h => List.mem_append_left _ (hf.resUsed p h), hf.resLive, hf.resOnce⟩

/-- Every transformation that takes only raw pointers not taken before keeps the invariants
that need freshness. -/
theorem Fresh.fresh_trans {w w1 : World} {u : List Nat} (ht : Trans w u w1) :
    ∀ {used : List Nat}, Sound used w → Fresh used w → (used ++ u).Nodup →
      Fresh (used ++ u) w1 := by
  induction ht with
  | frame w w1 hc he hsh hp =>
    intro used _ hf _
    rw [List.append_nil]; exact hf.fresh_frame hc he hp
  | release w i t n o1 hi h0 hn ho =>
    intro used hs hf _
    rw [List.append_nil]; exact Fresh.fresh_release hs hf hi h0 hn ho
  | attach w i t p r n hi ht hn hpr =>
    intro used _ hf _
    rw [List.append_nil]; exact hf.fresh_attach hn hpr
  | fresh w i t p hi ht =>
    intro used hs hf hnd
    refine Fresh.fresh_fresh hs hf p ?_
    intro hmem
    have := List.nodup_append.mp hnd
    exact this.2.2 hmem (List.mem_singleton_self p)
  | comp w w1 w2 u v h1 _ ih1 ih2 =>
    intro used hs hf hnd
    rw [← List.append_assoc] at hnd ⊢
    have hnd1 : (used ++ u).Nodup := (List.nodup_append.mp hnd).1
    exact ih2 (Sound.sound_trans h1 hs) (ih1 hs hf hnd1) hnd

theorem empty_fresh : Fresh [] World.empty := by
  refine ⟨?_, ?_, ?_, ?_⟩
  · intro p r r1 h; exact absurd h (not_hasPair_empty p r)
  · intro p h; simp [empty] at h
  · intro p r h; exact absurd h (not_hasPair_empty p r)
  · intro p; simp [pointeeFrees, empty]

theorem run_fresh (ops : List Op) :
    ∀ {w w1 : World} {used : List Nat}, Sound used w → Fresh used w →
      (used ++ rawPointers ops).Nodup → w.run ops = some w1 →
      Fresh (used ++ rawPointers ops) w1 := by
  induction ops with
  | nil =>
    intro w w1 used _ hf _ h
    simp only [run, Option.some.injEq] at h
    subst h
    simpa [rawPointers] using hf
  | cons op ops ih =>
    intro w w1 used hs hf hnd h
    simp only [run] at h
    cases hst : w.step op with
    | none => simp [hst] at h
    | some w2 =>
      simp only [hst, Option.some_bind] at h
      rw [rawPointers_cons, ← List.append_assoc] at hnd ⊢
      have hnd1 : (used ++ op.rawPointer.toList).Nodup := (List.nodup_append.mp hnd).1
      have ht := step_trans op hst
      exact ih (Sound.sound_trans ht hs) (Fresh.fresh_trans ht hs hf hnd1) hnd h

theorem reachable_fresh {ops : List Op} {w : World} (hnd : (rawPointers ops).Nodup)
    (h : World.empty.run ops = some w) : Fresh (rawPointers ops) w := by
  have := run_fresh ops empty_sound empty_fresh (by simpa using hnd) h
  simpa using this

end World

namespace World

theorem Trans.events_extend {w w1 : World} {u : List Nat} (ht : Trans w u w1) :
    ∃ more, w1.events = w.events ++ more := by
  induction ht with
  | frame w w1 hc he hsh hp => exact ⟨[], by rw [he, List.append_nil]⟩
  | release w i t n o1 hi h0 hn ho => exact ⟨_, rfl⟩
  | attach w i t p r n hi ht hn hpr => exact ⟨_, rfl⟩
  | fresh w i t p hi ht => exact ⟨_, rfl⟩
  | comp w w1 w2 u v _ _ ih1 ih2 =>
    obtain ⟨m1, h1⟩ := ih1
    obtain ⟨m2, h2⟩ := ih2
    exact ⟨m1 ++ m2, by rw [h2, h1, List.append_assoc]⟩

theorem Trans.counts_length {w w1 : World} {u : List Nat} (ht : Trans w u w1) :
    w.counts.length ≤ w1.counts.length := by
  induction ht with
  | frame w w1 hc he hsh hp => rw [hc]
  | release w i t n o1 hi h0 hn ho => simp [afterClear]
  | attach w i t p r n hi ht hn hpr => simp
  | fresh w i t p hi ht => simp
  | comp w w1 w2 u v _ _ ih1 ih2 => omega

/-- A member pair present after a transformation was present before, or is
`(nullptr, nullptr)`, or has a count cell allocated by the transformation. -/
theorem Trans.pairs {w w1 : World} {u : List Nat} (ht : Trans w u w1) :
    ∀ p r, w1.HasPair p r → w.HasPair p r ∨ (p = 0 ∧ r = 0) ∨ w.counts.length < r := by
  induction ht with
  | frame w w1 hc he hsh hp =>
    intro p r h
    rcases hp p r h with h1 | h1
    · exact Or.inl h1
    · exact Or.inr (Or.inl h1)
  | release w i t n o1 hi h0 hn ho =>
    intro p r h
    rcases hasPair_released ho h with h1 | h1
    · exact Or.inl h1
    · exact Or.inr (Or.inl h1)
  | attach w i t p r n hi ht hn hpr =>
    intro q s h
    rcases HasPair.of_shared_set w _ i _ h rfl rfl with h1 | h1
    · exact Or.inl h1
    · simp only [Option.some.injEq, SharedPtr.mk.injEq] at h1
      left; rw [← h1.1, ← h1.2]; exact hpr
  | fresh w i t p hi ht =>
    intro q s h
    rcases HasPair.of_shared_set w _ i _ h rfl rfl with h1 | h1
    · exact Or.inl h1
    · simp only [Option.some.injEq, SharedPtr.mk.injEq] at h1
      right; right; omega
  | comp w w1 w2 u v h1 _ ih1 ih2 =>
    intro p r h
    have hlen := h1.counts_length
    rcases ih2 p r h with h2 | h2 | h2
    · exact ih1 p r h2
    · exact Or.inr (Or.inl h2)
    · right; right; omega

theorem exists_of_sharersIn_ne_zero {l : List (Option SharedPtr)} {a : Nat}
    (h : sharersIn l a ≠ 0) :
    ∃ (i : Nat) (t : SharedPtr), l[i]? = some (some t) ∧ t.ref_count_ = a := by
  unfold sharersIn at h
  have hpos : 0 < l.countP (fun o => decide (o.map SharedPtr.ref_count_ = some a)) := by
    omega
  rw [List.countP_pos_iff] at hpos
  obtain ⟨o, hmem, ho⟩ := hpos
  simp only [decide_eq_true_eq] at ho
  cases o with
  | none => simp at ho
  | some t =>
    simp only [Option.map_some', Option.some.injEq] at ho
    obtain ⟨i, hi⟩ := List.getElem?_of_mem hmem
    exact ⟨i, t, hi, ho⟩

/-- When a transformation leaves a cell that had an owner without any owner, its events
contain, in one piece, the decrement of that cell, `delete ptr_` on the pointee of that
owner and `delete ref_count_` on the cell. -/
theorem Trans.freed_when_last {w w1 : World} {u : List Nat} (ht : Trans w u w1) :
    ∀ {used : List Nat}, Sound used w →
      ∀ i s, w.sharedAt i = some s → s.ref_count_ ≠ 0 → w1.sharers s.ref_count_ = 0 →
        ∃ pre post, w1.events = w.events ++ pre ++
          [HeapEvent.decr s.ref_count_, HeapEvent.deleteRes s.ptr_,
            HeapEvent.deleteCount s.ref_count_] ++ post := by
  induction ht with
  | frame w w1 hc he hsh hp =>
    intro used _ i s hi h0 hz
    have := sharers_pos hi
    rw [hsh _ h0] at hz
    omega
  | release w j t n o1 hj h0t hn ho =>
    intro used hs i s hi h0 hz
    have hpos := sharers_pos hi
    have hset := sharersIn_set o1 (sharedAt_eq_some.mp hj) s.ref_count_
    have hz' : sharersIn (w.shared.set j o1) s.ref_count_ = 0 := hz
    have ho1 : ¬ (o1.map SharedPtr.ref_count_ = some s.ref_count_) := by
      have h0' : ¬ (0 = s.ref_count_) := fun e => h0 e.symm
      rcases ho with ho | ho <;> simp [ho, h0']
    simp only [Option.map_some', Option.some.injEq, ho1, if_false, Nat.add_zero, hz',
      Nat.zero_add] at hset
    rw [sharers_eq] at hpos
    have htr : t.ref_count_ = s.ref_count_ := by
      by_contra hne
      simp only [hne, if_false] at hset
      omega
    simp only [htr, if_true] at hset
    have hcell := Matches.cell_eq hs.cm hn
    have hn1 : n = 1 := by
      rw [hcell.2, htr, ← hset]; rfl
    have hpt : t.ptr_ = s.ptr_ := by
      have h1 := HasPair.of_sharedAt hj
      rw [htr] at h1
      exact hs.func _ _ _ h1 (HasPair.of_sharedAt hi) h0
    refine ⟨[], [], ?_⟩
    simp [afterClear, hn1, htr, hpt]
  | attach w j t p r n hj ht0 hn hpr =>
    intro used _ i s hi h0 hz
    have hpos := sharers_pos hi
    have hset := sharersIn_set (some { ptr_ := p, ref_count_ := r })
      (sharedAt_eq_some.mp hj) s.ref_count_
    have hz' : sharersIn (w.shared.set j (some { ptr_ := p, ref_count_ := r }))
        s.ref_count_ = 0 := hz
    have h0' : ¬ (0 = s.ref_count_) := fun e => h0 e.symm
    simp only [Option.map_some', Option.some.injEq, ht0, h0', if_false, Nat.add_zero,
      hz'] at hset
    rw [sharers_eq] at hpos
    omega
  | fresh w j t p hj ht0 =>
    intro used _ i s hi h0 hz
    have hpos := sharers_pos hi
    have hset := sharersIn_set (some { ptr_ := p, ref_count_ := w.counts.length + 1 })
      (sharedAt_eq_some.mp hj) s.ref_count_
    have hz' : sharersIn (w.shared.set j
        (some { ptr_ := p, ref_count_ := w.counts.length + 1 })) s.ref_count_ = 0 := hz
    have h0' : ¬ (0 = s.ref_count_) := fun e => h0 e.symm
    simp only [Option.map_some', Option.some.injEq, ht0, h0', if_false, Nat.add_zero,
      hz'] at hset
    rw [sharers_eq] at hpos
    omega
  | comp w w1 w2 u v h1 h2 ih1 ih2 =>
    intro used hs i s hi h0 hz
    by_cases hmid : w1.sharers s.ref_count_ = 0
    · obtain ⟨pre, post, he⟩ := ih1 hs i s hi h0 hmid
      obtain ⟨more, hm⟩ := h2.events_extend
      exact ⟨pre, post ++ more, by rw [hm, he]; simp⟩
    · obtain ⟨k, t, hk, htr⟩ := exists_of_sharersIn_ne_zero hmid
      have hk' : w1.sharedAt k = some t := sharedAt_eq_some.mpr hk
      have hs1 := Sound.sound_trans h1 hs
      have h0t : t.ref_count_ ≠ 0 := by rw [htr]; exact h0
      have hz2 : w2.sharers t.ref_count_ = 0 := by rw [htr]; exact hz
      obtain ⟨pre, post, he⟩ := ih2 hs1 k t hk' h0t hz2
      obtain ⟨more, hm⟩ := h1.events_extend
      have hpt : t.ptr_ = s.ptr_ := by
        have hp1 : w1.HasPair t.ptr_ s.ref_count_ := by
          rw [← htr]; exact HasPair.of_sharedAt hk'
        have hb := hs.bound _ _ (HasPair.of_sharedAt hi)
        rcases h1.pairs _ _ hp1 with hp | ⟨_, hp⟩ | hp
        · exact hs.func _ _ _ hp (HasPair.of_sharedAt hi) h0
        · exact absurd hp h0
        · omega
      refine ⟨more ++ pre, post, ?_⟩
      rw [he, hm, htr, hpt]; simp

/-- The step form of `Trans.freed_when_last`. -/
theorem step_freed_when_last {used : List Nat} {w w1 : World} (hs : Sound used w) (op : Op)
    (hst : w.step op = some w1) (i : Nat) (s : SharedPtr) (hi : w.sharedAt i = some s)
    (h0 : s.ref_count_ ≠ 0) (hz : w1.sharers s.ref_count_ = 0) :
    ∃ pre post, w1.events = w.events ++ pre ++
      [HeapEvent.decr s.ref_count_, HeapEvent.deleteRes s.ptr_,
        HeapEvent.deleteCount s.ref_count_] ++ post :=
  (step_trans op hst).freed_when_last hs i s hi h0 hz

end World

/-- On runs in which every step is defined, frees happen together, once, at the decrement to
zero.  Start from the empty state and perform any finite sequence of public operations of
the two classes in which no raw pointer is passed twice to `SharedPtr(Resource*)` or
`Reset(Resource*)`.  In every state so reached:
* not before: while a live `SharedPtr` has a count cell, that cell is allocated and neither
  the cell nor the pointee of that `SharedPtr` has been deleted;
* at zero: a count cell that was allocated and has no owner left has been deleted;
* together and only there: in the record of heap events every `delete ptr_` and every
  `delete ref_count_` stands directly behind a decrement that brought the count of that
  cell to zero (`FreedAtZero`, whose cell values are the values of the real cells);
* once: no cell and no pointee is deleted more than once;
* the step: when an operation leaves a cell that had an owner without owners, the events of
  that operation contain, in one piece, the decrement of the cell, `delete ptr_` on the
  pointee of that owner and `delete ref_count_` on the cell. -/
theorem World.freed_together_at_zero_once (ops : List Op) (w : World)
    (hfresh : (rawPointers ops).Nodup) (hrun : World.empty.run ops = some w) :
    (∀ i s, w.sharedAt i = some s → s.ref_count_ ≠ 0 →
      (w.deref s.ref_count_).isSome = true ∧ w.cellFrees s.ref_count_ = 0 ∧
      w.pointeeFrees s.ptr_ = 0) ∧
    (∀ a, a ≠ 0 → a ≤ w.counts.length → w.sharers a = 0 →
      w.deref a = none ∧ w.cellFrees a = 1) ∧
    (FreedAtZero w.events ∧ ∀ a n, w.deref a = some n → cellValue w.events a = n) ∧
    ((∀ a, w.cellFrees a ≤ 1) ∧ ∀ p, w.pointeeFrees p ≤ 1) ∧
    (∀ op w1, w.step op = some w1 →
      ∀ i s, w.sharedAt i = some s → s.ref_count_ ≠ 0 → w1.sharers s.ref_count_ = 0 →
        ∃ pre post, w1.events = w.events ++ pre ++
          [HeapEvent.decr s.ref_count_, HeapEvent.deleteRes s.ptr_,
            HeapEvent.deleteCount s.ref_count_] ++ post) := by
  have hs := World.reachable_sound hrun
  have hf := World.reachable_fresh hfresh hrun
  refine ⟨?_, ?_, ⟨hs.timed, hs.value⟩, ⟨?_, hf.resOnce⟩, ?_⟩
  · intro i s hi h0
    have hpos := World.sharers_pos hi
    have hz : w.sharers s.ref_count_ ≠ 0 := by omega
    have hd : w.deref s.ref_count_ = some (w.sharers s.ref_count_ : Int) := by
      rw [hs.cm _ h0]; simp [hz]
    have hsome : (w.deref s.ref_count_).isSome = true := by rw [hd]; rfl
    refine ⟨hsome, ?_, ?_⟩
    · rw [hs.cellEv, World.cellAt_getElem? hd]; simp
    · exact World.pointeeFrees_eq_zero (hf.resLive _ _ (World.HasPair.of_sharedAt hi) hsome)
  · intro a ha hle hz
    have hd : w.deref a = none := by
      rw [hs.cm _ ha]; simp [hz]
    refine ⟨hd, ?_⟩
    have hlt : a - 1 < w.counts.length := by omega
    have hcell : w.counts[a - 1]? = some none := by
      have hd' : World.cellAt w.counts a = none := hd
      simp only [World.cellAt, ha, if_false] at hd'
      rw [List.getElem?_eq_getElem hlt] at hd' ⊢
      cases hx : w.counts[a - 1] with
      | none => rfl
      | some v => simp [hx] at hd'
    rw [hs.cellEv]; simp [ha, hcell]
  · intro a
    rw [hs.cellEv]
    split <;> omega
  · intro op w1 hst i s hi h0 hz
    exact World.step_freed_when_last hs op hst i s hi h0 hz

/-- An instance of `World.freed_together_at_zero_once`:
`SharedPtr s1(p24); WeakPtr w(s1); SharedPtr s2(s1); s1.Reset(); s2.Reset();` frees the
cell at address 1 exactly once. -/
theorem World.freed_together_at_zero_once_example :
    World.sampleExpired.deref 1 = none ∧ World.sampleExpired.cellFrees 1 = 1 :=
  (World.freed_together_at_zero_once
    [Op.sharedFromRaw 24, Op.weakFromShared 0, Op.sharedCopy 0, Op.sharedReset 0,
      Op.sharedReset 1]
    World.sampleExpired (by decide) (by decide)).2.1 1 (by decide) (by decide) (by decide)

/-- C15, evaluated on the code.  After `SharedPtr<int> s(p24); WeakPtr<int> w = s; s.Reset();`
the block has been freed once, at the decrement to zero, and `w` still holds both
addresses.  `w.Lock()` then reads the deleted count cell: with addresses that are never
reused it has no defined result.  When the allocator serves the next `new long(1)` from the
freed address, as in `SharedPtr<int> s2(p30);`, `w.Lock()` finds a count of 1 and returns an
owner `t` of the freed pointee 24 on the cell of `s2`; after `s2.Reset(); t.Reset();` the
pointee 24 has been deleted twice, the cell at address 1 twice, and the pointee 30 never. -/
theorem C15_promotion_after_free_frees_twice :
    ∃ w3 r4 w7,
      World.empty.run [Op.sharedFromRaw 24, Op.weakFromShared 0, Op.sharedReset 0] = some w3 ∧
      w3.weakAt 0 = some { ptr_ := 24, ref_count_ := 1 } ∧
      w3.cellFrees 1 = 1 ∧ w3.pointeeFrees 24 = 1 ∧
      WeakPtr.Lock w3 0 = none ∧
      SharedPtr.ctorReusing w3 30 1 = some r4 ∧
      r4.2.run [Op.weakLock 0, Op.sharedReset 1, Op.sharedReset 2] = some w7 ∧
      w7.pointeeFrees 24 = 2 ∧ w7.cellFrees 1 = 2 ∧ w7.pointeeFrees 30 = 0 := by
  refine ⟨_, _, _, rfl, ?_, ?_, ?_, ?_, rfl, rfl, ?_, ?_, ?_⟩ <;> decide

end RAIIGuard
